import Mathlib

/-!
Smmalloc: the bucket arena, the pre-linked free lists and the thread caches

A shallow embedding of `Source/Native/smmalloc.cpp`.

Conventions of the embedding.

* Addresses are natural numbers and `nullptr` is `0`; adding an offset to a pointer is exact.
  Arithmetic on `size_t` values wraps: the rounded region size, `bucketSizeInBytes *
  bucketsCount` and `i * bucketSizeInBytes` are written out with `% 18446744073709551616`
  (`2 ^ 64`). Conversions to `uint32_t` and the 32-bit counters are written out with
  `% 4294967296` (`2 ^ 32`).
* `Memory` maps an address to the word stored at that address. The pre-link pass writes one
  64-bit tagged index at the start of every element; elements are at least 16 bytes apart.
* `SM_ASSERT` expands to nothing (a build with assertions disabled); the conditions it names
  are hypotheses of the theorems that need them, or predicates of their own
  (`Allocator.alignmentAssertion`, `TlsPoolBucket.finalAssertion`).
* The members declared in smmalloc.h, which is not part of the source at hand, are the fields
  of `Header`; `Header.fromSpec` is the instance modelled from the spec, for one thread.
* A function returns `none` when the C++ has no defined result: an index past the end of one
  of the `SMM_MAX_BUCKET_COUNT`-sized arrays, a read through a null bucket pointer, or a loop
  that does not finish.
-/

namespace sm

/-! ## Integers -/

/-- Conversion of an unsigned 32-bit value to `int` (two's complement). -/
def toInt32 (x : Nat) : Int :=
  if x % 4294967296 < 2147483648 then Int.ofNat (x % 4294967296)
  else Int.ofNat (x % 4294967296) - 4294967296

/-- Conversion of an `int` to `size_t` (64 bits). -/
def toSizeT (x : Int) : Nat := (x % 18446744073709551616).toNat

/-- The shift-or cascade of `GetNextPow2`, in the source's order 16, 8, 4, 2, 1. -/
def orShiftCascade (n0 : Nat) : Nat :=
  let n1 := n0 ||| (n0 >>> 16)
  let n2 := n1 ||| (n1 >>> 8)
  let n3 := n2 ||| (n2 >>> 4)
  let n4 := n3 ||| (n3 >>> 2)
  n4 ||| (n4 >>> 1)

/-- Bit `i` of `x` is set exactly when some bit `i + k` of `m`, with `k` in `K`, is set. -/
def BitsFrom (m : Nat) (K : List Nat) (x : Nat) : Prop :=
  ∀ i, x.testBit i = true ↔ ∃ k, k ∈ K ∧ m.testBit (i + k) = true

/-- The function `GetNextPow2(uint32_t n)`: `n -= 1` (wrapping), the cascade, `return n + 1` as an `int`. -/
def GetNextPow2 (n : Nat) : Int :=
  let n0 := (n % 4294967296 + 4294967295) % 4294967296
  toInt32 (orShiftCascade n0 + 1)

/-- Modelled from the spec: `Align` is declared in smmalloc.h, which is not under src/; the spec
says Init "rounds the requested per-bucket byte size up to that alignment". The result is a
`size_t`: a rounded value of `2 ^ 64` or more wraps. -/
def Align (val alignment : Nat) : Nat :=
  (val + (alignment - 1)) / alignment * alignment % 18446744073709551616

/-- Modelled from the spec: the capacity of the per-bucket arrays (`buckets`,
`bucketsDataBegin`, `tlsCacheBuckets`), the "fixed maximum count, e.g. 64" that the assertion of
`Allocator::Init` bounds the bucket count by. -/
def SMM_MAX_BUCKET_COUNT : Nat := 64

/-! ## Memory and tagged indices -/

/-- Memory: the word stored at each address. -/
abbrev Memory := Nat → Nat

/-- Store `v` at address `a`. -/
def Memory.write (m : Memory) (a v : Nat) : Memory := fun x => if x = a then v else m x

/-- Modelled from the spec: the union `TaggedIndex` is declared in smmalloc.h, which is not under
src/; the spec describes it as "a single machine word split into { offset: 32 bits,
tag: 32 bits }". `pack` is the word `u` of the pair `p`. -/
def TaggedIndex.pack (tag offset : Nat) : Nat :=
  (offset % 4294967296) * 4294967296 + tag % 4294967296

/-- The tag field `p.tag` of a tagged index word. -/
def TaggedIndex.tag (u : Nat) : Nat := u % 4294967296

/-- The offset field `p.offset` of a tagged index word. -/
def TaggedIndex.offset (u : Nat) : Nat := u / 4294967296 % 4294967296

/-- Modelled from the spec: the "reserved sentinel value" `TaggedIndex::Invalid` that encodes an
empty list; smmalloc.h is not under src/. It is the all-ones 64-bit word. -/
def TaggedIndex.Invalid : Nat := 18446744073709551615

/-! ## PoolBucket -/

/-- The fields of `Allocator::PoolBucket` that `Create` and `Init` use. -/
structure PoolBucket where
  head : Nat
  globalTag : Nat
  pData : Nat
  pBufferEnd : Nat

/-- The `while (true)` loop of `PoolBucket::Create`. The first argument bounds the number of
iterations; `node` is the current element, `globalTag` the tag counter. The result is the final
counter and memory. -/
def PoolBucket.createLoop (elementSize pData pBufferEnd : Nat) :
    Nat → Nat → Nat → Memory → Option (Nat × Memory)
  | 0, _, _, _ => none
  | fuel + 1, node, globalTag, mem =>
    let next := node + elementSize
    if next + elementSize ≤ pBufferEnd then
      let nextVal := TaggedIndex.pack globalTag ((next - pData) % 4294967296)
      PoolBucket.createLoop elementSize pData pBufferEnd fuel next
        ((globalTag + 1) % 4294967296) (mem.write node nextVal)
    else
      some (globalTag, mem.write node TaggedIndex.Invalid)

/-- The method `Allocator::PoolBucket::Create(size_t elementSize)`. The loop advances by `elementSize`
inside the slab, so `pBufferEnd - pData + 1` iterations are enough whenever `elementSize > 0`. -/
def PoolBucket.Create (elementSize : Nat) (b : PoolBucket) (mem : Memory) :
    Option (PoolBucket × Memory) :=
  let globalTag := 0
  let node := b.pData
  let headVal := TaggedIndex.pack globalTag ((node - b.pData) % 4294967296)
  match PoolBucket.createLoop elementSize b.pData b.pBufferEnd (b.pBufferEnd - b.pData + 1)
      node globalTag mem with
  | none => none
  | some (tag, mem1) => some ({ b with head := headVal, globalTag := tag }, mem1)

/-- Following the links of a free list (spec 4.1: the next head is the link stored in the
element the head references): the offsets met from the word `u` until the sentinel, `none` when
the sentinel is not met within the given number of steps. -/
def PoolBucket.freeListFrom (mem : Memory) (pData : Nat) : Nat → Nat → Option (List Nat)
  | 0, _ => none
  | fuel + 1, u =>
    if u = TaggedIndex.Invalid then some []
    else
      match PoolBucket.freeListFrom mem pData fuel (mem (pData + TaggedIndex.offset u)) with
      | none => none
      | some l => some (TaggedIndex.offset u :: l)

/-- The word met after `i` steps along the links from the word `u`. -/
def PoolBucket.linkAt (mem : Memory) (pData : Nat) : Nat → Nat → Nat
  | u, 0 => u
  | u, i + 1 => PoolBucket.linkAt mem pData (mem (pData + TaggedIndex.offset u)) i

/-- The number of elements `Create` links on a slab of `B` bytes: `B / e`, and one when
not even one element fits. -/
def PoolBucket.linkedCount (e B : Nat) : Nat := max 1 (B / e)

/-- The word that references element `j` of a freshly linked slab: the head for `j = 0`,
otherwise the link written into element `j - 1`. -/
def PoolBucket.linkWord (e j : Nat) : Nat :=
  if j = 0 then TaggedIndex.pack 0 0 else TaggedIndex.pack (j - 1) (j * e)

/-- A slab of `2 ^ 32 + 16` bytes at address 4096, not yet linked. -/
def PoolBucket.bigSlab : PoolBucket :=
  { head := 0, globalTag := 0, pData := 4096, pBufferEnd := 4096 + 4294967312 }

/-! ## The backing allocator -/

/-- A call into the backing allocator (`_aligned_malloc` / `_aligned_free`). -/
inductive BackingCall where
  | Alloc (bytesCount alignment result : Nat)
  | Free (p : Nat)
  deriving DecidableEq

/-- The `sm::Allocator` object, together with the memory it manages and the log of the calls
made into the backing allocator. -/
structure Allocator where
  bucketsCount : Nat
  bucketSizeInBytes : Nat
  pBufferEnd : Nat
  pBuffer : Nat
  bucketsDataBegin : Nat → Nat
  buckets : Nat → PoolBucket
  mem : Memory
  backing : List BackingCall

/-- The function `GenericAllocator::Alloc`: raises the alignment to 16 and calls `_aligned_malloc`, which is
the environment `malloc` (call history, size, alignment ↦ address). -/
def GenericAllocator.Alloc (malloc : List BackingCall → Nat → Nat → Nat)
    (bytesCount alignment : Nat) (a : Allocator) : Nat × Allocator :=
  let alignment := if alignment < 16 then 16 else alignment
  let p := malloc a.backing bytesCount alignment
  (p, { a with backing := a.backing ++ [BackingCall.Alloc bytesCount alignment p] })

/-- The function `GenericAllocator::Free`: calls `_aligned_free`. -/
def GenericAllocator.Free (p : Nat) (a : Allocator) : Allocator :=
  { a with backing := a.backing ++ [BackingCall.Free p] }

/-- The constructor `Allocator::Allocator`: the constructor's member initializers, on raw storage `a`. -/
def Allocator.ctor (a : Allocator) : Allocator :=
  { a with bucketsCount := 0, bucketSizeInBytes := 0, pBufferEnd := 0, pBuffer := 0 }

/-- The call `pBuffer.reset(p)`: installs `p` and hands a previous non-null buffer to the deleter. -/
def Allocator.resetBuffer (p : Nat) (a : Allocator) : Allocator :=
  let old := a.pBuffer
  let a := { a with pBuffer := p }
  if old = 0 then a else GenericAllocator.Free old a

/-- The second `for` loop of `Allocator::Init`: `r` iterations remain, `i` is the loop index. -/
def Allocator.initBuckets : Nat → Nat → Nat → Allocator → Option Allocator
  | 0, _, _, a => some a
  | r + 1, i, elementSize, a =>
    if i < SMM_MAX_BUCKET_COUNT then
      let bucket := { a.buckets i with
        pData := a.pBuffer + i * a.bucketSizeInBytes % 18446744073709551616 }
      let bucket := { bucket with pBufferEnd := bucket.pData + a.bucketSizeInBytes }
      match PoolBucket.Create elementSize bucket a.mem with
      | none => none
      | some (bucket, mem) =>
        Allocator.initBuckets r (i + 1) (elementSize + 16)
          { a with
            buckets := Function.update a.buckets i bucket
            mem := mem
            bucketsDataBegin := Function.update a.bucketsDataBegin i bucket.pData }
    else none

/-- The straight-line part of `Allocator::Init`, from `bucketsCount = _bucketsCount` to the
assignment of `pBufferEnd`: the rounding of the region size, the clearing of
`bucketsDataBegin` and the allocation of the arena. -/
def Allocator.reserveArena (malloc : List BackingCall → Nat → Nat → Nat)
    (_bucketsCount _bucketSizeInBytes : Nat) (a : Allocator) : Allocator :=
  let a := { a with bucketsCount := _bucketsCount }
  let alignmentMax := toSizeT (GetNextPow2 ((16 * a.bucketsCount) % 4294967296))
  let a := { a with bucketSizeInBytes := Align _bucketSizeInBytes alignmentMax }
  let a := { a with
    bucketsDataBegin := fun i => if i < SMM_MAX_BUCKET_COUNT then 0 else a.bucketsDataBegin i }
  let totalBytesCount := a.bucketSizeInBytes * a.bucketsCount % 18446744073709551616
  let r := GenericAllocator.Alloc malloc totalBytesCount alignmentMax a
  let a := Allocator.resetBuffer r.1 r.2
  { a with pBufferEnd := a.pBuffer + totalBytesCount + 1 }

/-- The method `Allocator::Init(uint32_t _bucketsCount, size_t _bucketSizeInBytes)`. -/
def Allocator.Init (malloc : List BackingCall → Nat → Nat → Nat)
    (_bucketsCount _bucketSizeInBytes : Nat) (a : Allocator) : Option Allocator :=
  if a.bucketsCount > 0 then some a
  else if _bucketsCount = 0 then some a
  else
    let a := Allocator.reserveArena malloc _bucketsCount _bucketSizeInBytes a
    Allocator.initBuckets a.bucketsCount 0 16 a

/-- The local `alignmentMax` of `Allocator::Init` for a bucket count `n`. -/
def Allocator.alignmentFor (n : Nat) : Nat := toSizeT (GetNextPow2 ((16 * n) % 4294967296))

/-- The value `Allocator::Init` stores in `bucketSizeInBytes` for the arguments `n`, `B`. -/
def Allocator.roundedSize (n B : Nat) : Nat := Align B (Allocator.alignmentFor n)

/-- The local `totalBytesCount` of `Allocator::Init` for the arguments `n`, `B`: the product
`bucketSizeInBytes * bucketsCount` in `size_t`. -/
def Allocator.totalBytesFor (n B : Nat) : Nat :=
  Allocator.roundedSize n B * n % 18446744073709551616

/-- Storage with every field zero, no memory written and no backing call made. -/
def Allocator.blank : Allocator :=
  { bucketsCount := 0, bucketSizeInBytes := 0, pBufferEnd := 0, pBuffer := 0
    bucketsDataBegin := fun _ => 0
    buckets := fun _ => { head := 0, globalTag := 0, pData := 0, pBufferEnd := 0 }
    mem := fun _ => 0
    backing := [] }

/-- A backing allocator that hands out blocks one mebibyte apart. -/
def spacedMalloc (log : List BackingCall) (_bytesCount _alignment : Nat) : Nat :=
  1048576 * (log.length + 1)

/-- A slab of 4096 bytes at address 4096, not yet linked. -/
def PoolBucket.smallSlab : PoolBucket :=
  { head := 0, globalTag := 0, pData := 4096, pBufferEnd := 4096 + 4096 }

/-! ## The thread cache -/

/-- The enumeration `CacheWarmupOptions`. -/
inductive CacheWarmupOptions where
  | CACHE_COLD
  | CACHE_WARM
  | CACHE_HOT
  deriving DecidableEq

/-- Modelled from the spec: `TlsPoolBucket` is declared in smmalloc.h, which is not under src/;
the fields are the ones the spec's data model lists and the source uses. `pBucket` is the index
of the shared bucket it references, `none` for a null pointer. -/
structure TlsPoolBucket where
  pBucketData : Nat
  pStorageL1 : Nat
  pBucket : Option Nat
  storageL0 : Nat → Nat
  maxElementsCount : Nat
  numElementsL1 : Nat
  numElementsL0 : Nat

/-- The zeroed state of a cache slot: the three pointers null and the three counters zero. -/
def TlsPoolBucket.IsZeroed (t : TlsPoolBucket) : Prop :=
  t.pStorageL1 = 0 ∧ t.pBucket = none ∧ t.pBucketData = 0 ∧
  t.numElementsL0 = 0 ∧ t.numElementsL1 = 0 ∧ t.maxElementsCount = 0

/-- One thread's view: the allocator and the thread's `tlsCacheBuckets` array. -/
structure Thread where
  allocator : Allocator
  tlsCacheBuckets : Nat → TlsPoolBucket

/-- Modelled from the spec: the constant and the member functions that smmalloc.cpp uses and
smmalloc.h (not under src/) declares, taken as parameters. `Allocate` and `ReleaseToCache` are
the `<false>` instances. `ReturnL1CacheToMaster this count` is, by the spec, the grouped push of
L1 entries onto the shared bucket: it yields the new `numElementsL1`, the buckets and the
memory. -/
structure Header where
  SMM_MAX_CACHE_ITEMS_COUNT : Nat
  GetBucketByIndex : Thread → Nat → Option Nat
  GetBucketElementSize : Thread → Nat → Nat
  GetBucketIndex : Thread → Nat → Int
  Allocate : Nat → Nat → Thread → Nat × Thread
  Free : Nat → Thread → Thread
  ReleaseToCache : Nat → Nat → Thread → Bool × Thread
  ReturnL1CacheToMaster : TlsPoolBucket → Nat → Allocator → Nat × (Nat → PoolBucket) × Memory

/-- The function `GetTlsBucket(index)`: the slot of `tlsCacheBuckets`, inside the array only. -/
def GetTlsBucket (index : Nat) : Option Nat :=
  if index < SMM_MAX_BUCKET_COUNT then some index else none

/-- The allocation loop of the warmup in `TlsPoolBucket::Init`: `r` iterations remain, `pRoot`
heads the chain of blocks obtained so far. -/
def TlsPoolBucket.warmupAllocate (H : Header) (elementSize bucketIndex : Nat) :
    Nat → Nat → Thread → Nat × Thread
  | 0, pRoot, th => (pRoot, th)
  | r + 1, pRoot, th =>
    let res := H.Allocate elementSize 16 th
    let p := res.1
    let th := res.2
    if p = 0 then (pRoot, th)
    else if H.GetBucketIndex th p ≠ toInt32 bucketIndex then (pRoot, H.Free p th)
    else
      let th := { th with allocator := { th.allocator with mem := th.allocator.mem.write p pRoot } }
      TlsPoolBucket.warmupAllocate H elementSize bucketIndex r p th

/-- The release loop of the warmup in `TlsPoolBucket::Init`: walks the chain from `pCurrent`,
releasing every block into the cache slot `self`. -/
def TlsPoolBucket.warmupRelease (H : Header) (self : Nat) : Nat → Nat → Thread → Option Thread
  | 0, pCurrent, th => if pCurrent = 0 then some th else none
  | fuel + 1, pCurrent, th =>
    if pCurrent = 0 then some th
    else
      let pNext := th.allocator.mem pCurrent
      let res := H.ReleaseToCache self pCurrent th
      TlsPoolBucket.warmupRelease H self fuel pNext res.2

/-- The method `TlsPoolBucket::Init(pCacheStack, maxElementsNum, warmupOptions, alloc, bucketIndex)` on the
slot `self` of the thread. -/
def TlsPoolBucket.Init (H : Header) (self pCacheStack maxElementsNum : Nat)
    (warmupOptions : CacheWarmupOptions) (bucketIndex : Nat) (th : Thread) : Option Thread :=
  let poolBucket := H.GetBucketByIndex th bucketIndex
  let t := th.tlsCacheBuckets self
  let t := { t with
    pStorageL1 := pCacheStack
    numElementsL1 := 0
    numElementsL0 := 0
    maxElementsCount :=
      (maxElementsNum % 4294967296 + 4294967296 - H.SMM_MAX_CACHE_ITEMS_COUNT % 4294967296)
        % 4294967296
    pBucket := poolBucket }
  match poolBucket with
  | none => none
  | some b =>
    let t := { t with pBucketData := (th.allocator.buckets b).pData }
    let th := { th with tlsCacheBuckets := Function.update th.tlsCacheBuckets self t }
    if warmupOptions = CacheWarmupOptions.CACHE_COLD then some th
    else
      let elementSize := H.GetBucketElementSize th bucketIndex % 4294967296
      let num :=
        if warmupOptions = CacheWarmupOptions.CACHE_WARM then t.maxElementsCount / 2
        else t.maxElementsCount
      let res := TlsPoolBucket.warmupAllocate H elementSize bucketIndex num 0 th
      TlsPoolBucket.warmupRelease H self num res.1 res.2

/-- The `for` loop of `TlsPoolBucket::Destroy`: `r` iterations remain, `i` is the loop index;
the state is `numElementsL1` and the memory holding the L1 buffer (32-bit words). -/
def TlsPoolBucket.foldL0 (storageL0 : Nat → Nat) (pStorageL1 : Nat) :
    Nat → Nat → Nat → Memory → Nat × Memory
  | 0, _, numElementsL1, mem => (numElementsL1, mem)
  | r + 1, i, numElementsL1, mem =>
    TlsPoolBucket.foldL0 storageL0 pStorageL1 r (i + 1) ((numElementsL1 + 1) % 4294967296)
      (mem.write (pStorageL1 + 4 * numElementsL1) (storageL0 i))

/-- The method `TlsPoolBucket::Destroy()` on the slot `self` of the thread: the returned buffer and the
state afterwards. -/
def TlsPoolBucket.Destroy (H : Header) (self : Nat) (th : Thread) : Nat × Thread :=
  let t := th.tlsCacheBuckets self
  let folded := TlsPoolBucket.foldL0 t.storageL0 t.pStorageL1 t.numElementsL0 0
    t.numElementsL1 th.allocator.mem
  let t := { t with numElementsL1 := folded.1 }
  let a := { th.allocator with mem := folded.2 }
  let flushed :=
    if t.numElementsL1 > 0 then H.ReturnL1CacheToMaster t t.numElementsL1 a
    else (t.numElementsL1, a.buckets, a.mem)
  let t := { t with numElementsL1 := flushed.1 }
  let a := { a with buckets := flushed.2.1, mem := flushed.2.2 }
  let r := t.pStorageL1
  let t := { t with
    pStorageL1 := 0
    numElementsL0 := 0
    numElementsL1 := 0
    maxElementsCount := 0
    pBucket := none
    pBucketData := 0 }
  (r, { allocator := a, tlsCacheBuckets := Function.update th.tlsCacheBuckets self t })

/-- The loop of `Allocator::CreateThreadCache`; the body ends with the source's `i++`, and the
loop header increments `i` once more. The first argument bounds the number of iterations. -/
def Allocator.createThreadCacheLoop (H : Header) (malloc : List BackingCall → Nat → Nat → Nat)
    (warmupOptions : CacheWarmupOptions) (cacheSize : Nat) : Nat → Nat → Thread → Option Thread
  | 0, i, th => if i < th.allocator.bucketsCount then none else some th
  | fuel + 1, i, th =>
    if i < th.allocator.bucketsCount then
      let elementsNum := (cacheSize + H.SMM_MAX_CACHE_ITEMS_COUNT) % 4294967296
      let res := GenericAllocator.Alloc malloc (elementsNum * 4) 64 th.allocator
      let localStack := res.1
      let th := { th with allocator := res.2 }
      match GetTlsBucket i with
      | none => none
      | some self =>
        match TlsPoolBucket.Init H self localStack elementsNum warmupOptions i th with
        | none => none
        | some th =>
          let i := i + 1
          Allocator.createThreadCacheLoop H malloc warmupOptions cacheSize fuel (i + 1) th
    else some th

/-- The method `Allocator::CreateThreadCache(warmupOptions, cacheSize)`. -/
def Allocator.CreateThreadCache (H : Header) (malloc : List BackingCall → Nat → Nat → Nat)
    (warmupOptions : CacheWarmupOptions) (cacheSize : Nat) (th : Thread) : Option Thread :=
  Allocator.createThreadCacheLoop H malloc warmupOptions cacheSize th.allocator.bucketsCount 0 th

/-- The loop of `Allocator::DestroyThreadCache`: `r` iterations remain, `i` is the loop index. -/
def Allocator.destroyThreadCacheLoop (H : Header) : Nat → Nat → Thread → Option Thread
  | 0, _, th => some th
  | r + 1, i, th =>
    match GetTlsBucket i with
    | none => none
    | some self =>
      let res := TlsPoolBucket.Destroy H self th
      let th := { res.2 with allocator := GenericAllocator.Free res.1 res.2.allocator }
      Allocator.destroyThreadCacheLoop H r (i + 1) th

/-- The method `Allocator::DestroyThreadCache()`. -/
def Allocator.DestroyThreadCache (H : Header) (th : Thread) : Option Thread :=
  Allocator.destroyThreadCacheLoop H SMM_MAX_BUCKET_COUNT 0 th


/-! ## Concrete inputs -/

/-- A zeroed cache slot: what the zero-initialised `tlsCacheBuckets` holds at thread start. -/
def TlsPoolBucket.zero : TlsPoolBucket :=
  { pBucketData := 0, pStorageL1 := 0, pBucket := none, storageL0 := fun _ => 0
    maxElementsCount := 0, numElementsL1 := 0, numElementsL0 := 0 }

/-- An instance of the header's members for concrete runs: seven L0 entries, bucket lookups by
index with the linear element sizes, and pools that are exhausted (an allocation yields null,
nothing is released or flushed). -/
def Header.exhausted : Header :=
  { SMM_MAX_CACHE_ITEMS_COUNT := 7
    GetBucketByIndex := fun _ i => some i
    GetBucketElementSize := fun _ i => 16 * (i + 1)
    GetBucketIndex := fun _ _ => -1
    Allocate := fun _ _ th => (0, th)
    Free := fun _ th => th
    ReleaseToCache := fun _ _ th => (false, th)
    ReturnL1CacheToMaster := fun _ _ a => (0, a.buckets, a.mem) }

/-- A thread whose allocator has two buckets configured and whose cache slots are zeroed. -/
def Thread.twoBuckets : Thread :=
  { allocator := { Allocator.blank with bucketsCount := 2 }
    tlsCacheBuckets := fun _ => TlsPoolBucket.zero }

/-- A thread with a cache in slot 3: buffer at 8192, two handles in L0, one in L1. -/
def Thread.cached : Thread :=
  { allocator := { Allocator.blank with bucketsCount := 4 }
    tlsCacheBuckets := fun i =>
      if i = 3 then
        { pBucketData := 4096, pStorageL1 := 8192, pBucket := some 3
          storageL0 := fun k => 64 * k
          maxElementsCount := 64, numElementsL1 := 1, numElementsL0 := 2 }
      else TlsPoolBucket.zero }


/-! ## Assertion conditions and observers -/

/-- Modelled from the spec: `IsAligned` is declared in smmalloc.h, which is not under src/; an
address is aligned when it is a multiple of the alignment. -/
def IsAligned (v alignment : Nat) : Prop := v % alignment = 0

/-- The condition of the assertion "Alignment failed" in the bucket loop of `Allocator::Init`,
for a bucket that starts at `pData` and has the element size `elementSize`. -/
def Allocator.alignmentAssertion (pData elementSize : Nat) : Prop :=
  IsAligned pData (toSizeT (GetNextPow2 (elementSize % 4294967296)))

/-- What the allocation loop of the warmup asks of the allocator: the requests made
(size, alignment), the blocks kept for the cache (oldest first) and the blocks handed back
with `Free`. -/
structure WarmupLog where
  requests : List (Nat × Nat)
  kept : List Nat
  returned : List Nat

/-- The allocation loop of the warmup in `TlsPoolBucket::Init` once more, with the log of its
calls next to the chain head and the state. -/
def TlsPoolBucket.warmupAllocateLogged (H : Header) (elementSize bucketIndex : Nat) :
    Nat → Nat → Thread → WarmupLog → Nat × Thread × WarmupLog
  | 0, pRoot, th, log => (pRoot, th, log)
  | r + 1, pRoot, th, log =>
    let res := H.Allocate elementSize 16 th
    let p := res.1
    let th := res.2
    let log := { log with requests := log.requests ++ [(elementSize, 16)] }
    if p = 0 then (pRoot, th, log)
    else if H.GetBucketIndex th p ≠ toInt32 bucketIndex then
      (pRoot, H.Free p th, { log with returned := log.returned ++ [p] })
    else
      let th := { th with allocator := { th.allocator with mem := th.allocator.mem.write p pRoot } }
      TlsPoolBucket.warmupAllocateLogged H elementSize bucketIndex r p th
        { log with kept := log.kept ++ [p] }

/-- The state of the thread right after the assignments of `TlsPoolBucket::Init` (the statement
`pBucketData = pBucket->pData` included), before any warmup, for a bucket reference `b`. -/
def TlsPoolBucket.bound (H : Header) (self pCacheStack maxElementsNum b : Nat) (th : Thread) :
    Thread :=
  { th with
    tlsCacheBuckets := Function.update th.tlsCacheBuckets self
      { th.tlsCacheBuckets self with
        pStorageL1 := pCacheStack
        numElementsL1 := 0
        numElementsL0 := 0
        maxElementsCount :=
          (maxElementsNum % 4294967296 + 4294967296 - H.SMM_MAX_CACHE_ITEMS_COUNT % 4294967296)
            % 4294967296
        pBucket := some b
        pBucketData := (th.allocator.buckets b).pData } }

/-- The warmup target `num` of `TlsPoolBucket::Init`. -/
def TlsPoolBucket.warmupTarget (warmupOptions : CacheWarmupOptions) (maxElementsCount : Nat) :
    Nat :=
  if warmupOptions = CacheWarmupOptions.CACHE_WARM then maxElementsCount / 2
  else maxElementsCount

/-- Modelled from the spec: `GetElementsCount` is declared in smmalloc.h, which is not under
src/; the cache holds the `numElementsL0` handles of L0 and the `numElementsL1` handles of L1. -/
def TlsPoolBucket.GetElementsCount (t : TlsPoolBucket) : Nat :=
  t.numElementsL0 + t.numElementsL1

/-! ## The members of smmalloc.h, modelled from the spec -/

/-- Modelled from the spec: `Pop` of the shared free list (spec 4.1) is declared in smmalloc.h,
which is not under src/. "Read the current head, compute the next-head value from the
currently-referenced element's stored link", install it as the head and return the element's
address; "empty" (null) if the head is the sentinel. One thread runs, so the compare-and-swap
succeeds at once. -/
def PoolBucket.Pop (b : PoolBucket) (mem : Memory) : Nat × PoolBucket :=
  if b.head = TaggedIndex.Invalid then (0, b)
  else
    (b.pData + TaggedIndex.offset b.head,
      { b with head := mem (b.pData + TaggedIndex.offset b.head) })

/-- Modelled from the spec: the relinking of a batch of elements "via their embedded pointers"
(spec 4.2): every element of the batch gets the link to the next one, with a tag taken from the
advancing counter, and the last one gets the word `tail`. -/
def PoolBucket.relink (pData : Nat) : List Nat → Nat → Nat → Memory → Memory
  | [], _, _, mem => mem
  | [h], _, tail, mem => mem.write (pData + h) tail
  | h :: h2 :: hs, tag, tail, mem =>
    PoolBucket.relink pData (h2 :: hs) (tag + 1) tail
      (mem.write (pData + h) (TaggedIndex.pack tag h2))

/-- Modelled from the spec: the grouped push of a batch of handles onto the shared free list
(spec 4.1 Push, 4.2): the batch is relinked, its last element is linked to the observed head, and
"a single head update" makes the head reference the first element with a fresh tag. -/
def PoolBucket.PushChain (b : PoolBucket) (handles : List Nat) (mem : Memory) :
    PoolBucket × Memory :=
  match handles with
  | [] => (b, mem)
  | h :: hs =>
    ({ b with
       head := TaggedIndex.pack (b.globalTag + hs.length) h
       globalTag := (b.globalTag + hs.length + 1) % 4294967296 },
      PoolBucket.relink b.pData (h :: hs) b.globalTag b.head mem)

/-- The handles stored in the words `first, ..., first + count - 1` of an L1 buffer. -/
def TlsPoolBucket.handlesL1 (pStorageL1 first count : Nat) (mem : Memory) : List Nat :=
  (List.range count).map (fun k => mem (pStorageL1 + 4 * (first + k)))

/-- Modelled from the spec: `ReturnL1CacheToMaster(count)` is declared in smmalloc.h, which is
not under src/. "A batch of L1 entries is flushed back into the shared PoolBucket's lock-free
free list in one grouped operation": the topmost `count` entries of L1 leave the cache and are
pushed onto the bucket the slot is bound to. -/
def TlsPoolBucket.ReturnL1CacheToMaster (t : TlsPoolBucket) (count : Nat) (a : Allocator) :
    Nat × (Nat → PoolBucket) × Memory :=
  if count = 0 ∨ t.numElementsL1 = 0 then (t.numElementsL1, a.buckets, a.mem)
  else
    match t.pBucket with
    | none => (t.numElementsL1, a.buckets, a.mem)
    | some b =>
      let handles := TlsPoolBucket.handlesL1 t.pStorageL1 (t.numElementsL1 - count) count a.mem
      let pushed := PoolBucket.PushChain (a.buckets b) handles a.mem
      (t.numElementsL1 - count, Function.update a.buckets b pushed.1, pushed.2)

/-- Modelled from the spec: `GetBucketByIndex(index) -> bucket reference` is declared in
smmalloc.h, which is not under src/; null outside the configured buckets. -/
def Allocator.GetBucketByIndex (a : Allocator) (index : Nat) : Option Nat :=
  if index < a.bucketsCount then some index else none

/-- Modelled from the spec: `GetBucketElementSize(index) -> size` is declared in smmalloc.h,
which is not under src/; "bucket i holds elements of size 16*(i+1)". -/
def Allocator.GetBucketElementSize (_a : Allocator) (index : Nat) : Nat := 16 * (index + 1)

/-- Scan of the recorded base pointers `bucketsDataBegin[k - 1], ..., bucketsDataBegin[0]` for the
region that contains the address `p`. -/
def Allocator.findBucket (a : Allocator) (p : Nat) : Nat → Option Nat
  | 0 => none
  | k + 1 =>
    if a.bucketsDataBegin k ≤ p ∧ p < a.bucketsDataBegin k + a.bucketSizeInBytes then some k
    else Allocator.findBucket a p k

/-- Modelled from the spec: `GetBucketIndex(pointer) -> index | -1` is declared in smmalloc.h,
which is not under src/: "given an address, determine which bucket's region contains it ... via
pointer-range/base-address comparison against the recorded per-bucket base pointers". -/
def Allocator.GetBucketIndex (a : Allocator) (p : Nat) : Int :=
  match Allocator.findBucket a p a.bucketsCount with
  | some k => Int.ofNat k
  | none => -1

/-- Modelled from the spec: `Allocate<false>(size, alignment) -> pointer | null` is declared in
smmalloc.h, which is not under src/. The size is mapped to the bucket of the smallest element
size that holds it ("buckets are linearly sized") and the element is popped from the shared
bucket, as the warmup asks for "real allocations through the owning Allocator"; null when
the size is above the largest bucket or the bucket is empty. -/
def Allocator.Allocate (size _alignment : Nat) (th : Thread) : Nat × Thread :=
  let bucketIndex := (size - 1) / 16
  if bucketIndex < th.allocator.bucketsCount then
    let popped := PoolBucket.Pop (th.allocator.buckets bucketIndex) th.allocator.mem
    (popped.1,
      { th with allocator :=
        { th.allocator with
          buckets := Function.update th.allocator.buckets bucketIndex popped.2 } })
  else (0, th)

/-- Modelled from the spec: `ReleaseToCache(threadCache, pointer) -> bool` is declared in
smmalloc.h, which is not under src/ (spec 4.2, fast-path release). The block's handle is its
offset from the bucket's data pointer. "If L0 has spare capacity, push into the inline array";
otherwise the handle goes to L1, and "once L1 itself is full ... a batch of L1 entries is flushed
back" to the shared bucket first (half of them). The spec does not say what the template
argument of the instance `<false>` selects: `useCacheL0` is that argument, and with `false` the
inline array is bypassed. The result is `false` for a slot without a cache. -/
def Allocator.ReleaseToCache (C : Nat) (useCacheL0 : Bool) (self p : Nat) (th : Thread) :
    Bool × Thread :=
  let t := th.tlsCacheBuckets self
  if t.maxElementsCount = 0 then (false, th)
  else
    let offset := (p - t.pBucketData) % 4294967296
    if useCacheL0 = true ∧ t.numElementsL0 < C then
      let t0 := { t with
        storageL0 := Function.update t.storageL0 t.numElementsL0 offset
        numElementsL0 := t.numElementsL0 + 1 }
      (true, { th with tlsCacheBuckets := Function.update th.tlsCacheBuckets self t0 })
    else
      let flushed :=
        if t.numElementsL1 < t.maxElementsCount then (t.numElementsL1, th.allocator.buckets,
          th.allocator.mem)
        else TlsPoolBucket.ReturnL1CacheToMaster t (t.numElementsL1 / 2) th.allocator
      let t1 := { t with numElementsL1 := (flushed.1 + 1) % 4294967296 }
      (true,
        { allocator :=
            { th.allocator with
              buckets := flushed.2.1
              mem := flushed.2.2.write (t.pStorageL1 + 4 * flushed.1) offset }
          tlsCacheBuckets := Function.update th.tlsCacheBuckets self t1 })

/-- Modelled from the spec: `Free(pointer)` is declared in smmalloc.h, which is not under src/.
"Blocks return to the calling thread's TlsPoolBucket first", into the slot of the bucket whose
region holds the block; a block of a bucket without a cache goes back to the shared bucket, and a
block outside the arena to the backing allocator. -/
def Allocator.Free (C : Nat) (p : Nat) (th : Thread) : Thread :=
  match Allocator.findBucket th.allocator p th.allocator.bucketsCount with
  | none => { th with allocator := GenericAllocator.Free p th.allocator }
  | some k =>
    let released := Allocator.ReleaseToCache C true k p th
    if released.1 = true then released.2
    else
      let pushed := PoolBucket.PushChain (th.allocator.buckets k)
        [(p - (th.allocator.buckets k).pData) % 4294967296] th.allocator.mem
      { th with allocator :=
        { th.allocator with
          buckets := Function.update th.allocator.buckets k pushed.1
          mem := pushed.2 } }

/-- Modelled from the spec: the members of smmalloc.h that smmalloc.cpp uses, with
`SMM_MAX_CACHE_ITEMS_COUNT = C`; `useCacheL0` is the reading of the template argument of
`ReleaseToCache<false>`. -/
def Header.fromSpec (C : Nat) (useCacheL0 : Bool) : Header :=
  { SMM_MAX_CACHE_ITEMS_COUNT := C
    GetBucketByIndex := fun th i => Allocator.GetBucketByIndex th.allocator i
    GetBucketElementSize := fun th i => Allocator.GetBucketElementSize th.allocator i
    GetBucketIndex := fun th p => Allocator.GetBucketIndex th.allocator p
    Allocate := Allocator.Allocate
    Free := Allocator.Free C
    ReleaseToCache := Allocator.ReleaseToCache C useCacheL0
    ReturnL1CacheToMaster := TlsPoolBucket.ReturnL1CacheToMaster }

/-- The number of elements on the shared free list of bucket `i`: the length of the walk from
its head, `none` when the walk does not meet the sentinel within `fuel` steps. -/
def Allocator.freeCount (a : Allocator) (fuel i : Nat) : Option Nat :=
  (PoolBucket.freeListFrom a.mem (a.buckets i).pData fuel (a.buckets i).head).map List.length

/-- A thread at its start: every cache slot zeroed. -/
def Thread.fresh (a : Allocator) : Thread :=
  { allocator := a, tlsCacheBuckets := fun _ => TlsPoolBucket.zero }

/-! ## Views of the lists held in memory -/

/-- The word `u` heads the free chain `l`: following the links from `u` meets exactly the
offsets of `l`, in order, and then the sentinel. -/
def PoolBucket.IsChain (mem : Memory) (pData : Nat) : Nat → List Nat → Prop
  | u, [] => u = TaggedIndex.Invalid
  | u, x :: l =>
    u ≠ TaggedIndex.Invalid ∧ TaggedIndex.offset u = x ∧
      PoolBucket.IsChain mem pData (mem (pData + x)) l

/-- The pointer `p` heads the chain of warmup blocks `ps` (`CacheWarmupLink`): every block is
not null and holds the pointer to the next one, and the last one holds `q`. -/
def TlsPoolBucket.IsWarmupChain (mem : Memory) : Nat → List Nat → Nat → Prop
  | p, [], q => p = q
  | p, a :: ps, q => p = a ∧ a ≠ 0 ∧ TlsPoolBucket.IsWarmupChain mem (mem a) ps q

/-- The handles in the inline array L0 of a cache slot. -/
def TlsPoolBucket.listL0 (t : TlsPoolBucket) : List Nat :=
  (List.range t.numElementsL0).map t.storageL0

/-- The handles in the L1 buffer of a cache slot. -/
def TlsPoolBucket.listL1 (t : TlsPoolBucket) (mem : Memory) : List Nat :=
  TlsPoolBucket.handlesL1 t.pStorageL1 0 t.numElementsL1 mem

/-- Two allocator states with the same configuration: bucket count, region size, arena bounds,
recorded base pointers and log of backing calls. -/
def Allocator.SameConfig (a b : Allocator) : Prop :=
  b.bucketsCount = a.bucketsCount ∧ b.bucketSizeInBytes = a.bucketSizeInBytes ∧
  b.pBufferEnd = a.pBufferEnd ∧ b.pBuffer = a.pBuffer ∧
  b.bucketsDataBegin = a.bucketsDataBegin ∧ b.backing = a.backing

/-- The pools of the thread's allocator seen as lists: `n` regions of `S` bytes from `base` on,
and for each bucket `j` the free chain from its head visits the offsets `ch j`, without
repetition and inside its region. -/
def Thread.Pooled (th : Thread) (base S n : Nat) (ch : Nat → List Nat) : Prop :=
  0 < base ∧ n ≤ 64 ∧ S < 4294967296 ∧
  th.allocator.bucketsCount = n ∧ th.allocator.bucketSizeInBytes = S ∧
  (∀ j, j < n → th.allocator.bucketsDataBegin j = base + j * S) ∧
  ∀ j, j < n →
    (th.allocator.buckets j).pData = base + j * S ∧
    PoolBucket.IsChain th.allocator.mem (base + j * S) (th.allocator.buckets j).head (ch j) ∧
    (ch j).Nodup ∧ ∀ x, x ∈ ch j → x < S

/-- The condition of the last assertion of `TlsPoolBucket::Init`,
`SM_ASSERT(GetElementsCount() == num)`, on the slot's final state. -/
def TlsPoolBucket.finalAssertion (t : TlsPoolBucket) (num : Nat) : Prop :=
  TlsPoolBucket.GetElementsCount t = num

/-! ## Facts about tagged indices -/

theorem TaggedIndex.tag_pack (t o : Nat) : TaggedIndex.tag (TaggedIndex.pack t o) = t % 4294967296 := by
  unfold TaggedIndex.tag TaggedIndex.pack
  omega

theorem TaggedIndex.offset_pack (t o : Nat) :
    TaggedIndex.offset (TaggedIndex.pack t o) = o % 4294967296 := by
  unfold TaggedIndex.offset TaggedIndex.pack
  omega

theorem TaggedIndex.pack_mod_offset (t o : Nat) :
    TaggedIndex.pack t (o % 4294967296) = TaggedIndex.pack t o := by
  unfold TaggedIndex.pack
  omega

theorem TaggedIndex.pack_congr_tag (t1 t2 o : Nat) (h : t1 % 4294967296 = t2 % 4294967296) :
    TaggedIndex.pack t1 o = TaggedIndex.pack t2 o := by
  unfold TaggedIndex.pack
  omega

/-- A link whose tag and offset are consecutive multiples is never the sentinel. -/
theorem TaggedIndex.pack_ne_Invalid (j e : Nat) :
    TaggedIndex.pack j ((j + 1) * e) ≠ TaggedIndex.Invalid := by
  unfold TaggedIndex.pack TaggedIndex.Invalid
  intro h
  have h1 : j % 4294967296 = 4294967295 := by omega
  have h2 : ((j + 1) * e) % 4294967296 = 4294967295 := by omega
  have h3 : (j + 1) % 4294967296 = 0 := by omega
  have h4 : ((j + 1) * e) % 4294967296 = 0 := by
    rw [Nat.mul_mod, h3]; simp
  omega

theorem Memory.write_same (m : Memory) (a v : Nat) : m.write a v a = v := by
  simp [Memory.write]

theorem Memory.write_other (m : Memory) (a v x : Nat) (h : x ≠ a) : m.write a v x = m x := by
  simp [Memory.write, h]

/-! ## `PoolBucket::Create` -/

theorem PoolBucket.linkedCount_pos (e B : Nat) : 1 ≤ PoolBucket.linkedCount e B := by
  unfold PoolBucket.linkedCount; omega

/-- Whether the loop of `Create` goes on from element `j`. -/
theorem PoolBucket.create_cond (e B j : Nat) (he : 0 < e) :
    (j + 2) * e ≤ B ↔ j + 1 < PoolBucket.linkedCount e B := by
  unfold PoolBucket.linkedCount
  rw [← Nat.le_div_iff_mul_le he]
  omega

/-- The loop of `Create` from element `j` with `r` links still to write: it finishes, and writes
exactly the links of the elements `j, ..., k - 1`. -/
theorem PoolBucket.createLoop_spec (e pData B : Nat) (he : 0 < e) :
    ∀ (r j tag fuel : Nat) (mem : Memory),
      j + r + 1 = PoolBucket.linkedCount e B → r + 1 ≤ fuel → tag < 4294967296 →
      ∃ mem1, PoolBucket.createLoop e pData (pData + B) fuel (pData + j * e) tag mem
          = some ((tag + r) % 4294967296, mem1) ∧
        (∀ i, j ≤ i → i < PoolBucket.linkedCount e B →
          mem1 (pData + i * e) =
            if i + 1 = PoolBucket.linkedCount e B then TaggedIndex.Invalid
            else TaggedIndex.pack (tag + (i - j)) ((i + 1) * e)) ∧
        (∀ a, (∀ i, j ≤ i → i < PoolBucket.linkedCount e B → a ≠ pData + i * e) →
          mem1 a = mem a) := by
  intro r
  induction r with
  | zero =>
    intro j tag fuel mem hk hfuel htag
    obtain ⟨f, rfl⟩ : ∃ f, fuel = f + 1 := ⟨fuel - 1, by omega⟩
    have hc : ¬ (pData + j * e + e + e ≤ pData + B) := by
      have := (PoolBucket.create_cond e B j he).not.mpr (by omega)
      intro h; apply this
      have : (j + 2) * e = j * e + e + e := by ring
      omega
    refine ⟨mem.write (pData + j * e) TaggedIndex.Invalid, ?_, ?_, ?_⟩
    · simp only [PoolBucket.createLoop, if_neg hc, Nat.add_zero]
      rw [Nat.mod_eq_of_lt htag]
    · intro i hji hik
      have hij : i = j := by omega
      subst hij
      rw [Memory.write_same, if_pos (by omega)]
    · intro a ha
      exact Memory.write_other _ _ _ _ (ha j (le_refl _) (by omega))
  | succ r ih =>
    intro j tag fuel mem hk hfuel htag
    obtain ⟨f, rfl⟩ : ∃ f, fuel = f + 1 := ⟨fuel - 1, by omega⟩
    have hc : pData + j * e + e + e ≤ pData + B := by
      have := (PoolBucket.create_cond e B j he).mpr (by omega)
      have h2 : (j + 2) * e = j * e + e + e := by ring
      omega
    have hnode : pData + j * e + e = pData + (j + 1) * e := by ring
    obtain ⟨mem1, hrun, hlinks, hframe⟩ := ih (j + 1) ((tag + 1) % 4294967296) f
      (mem.write (pData + j * e)
        (TaggedIndex.pack tag ((pData + j * e + e - pData) % 4294967296)))
      (by omega) (by omega) (Nat.mod_lt _ (by norm_num))
    refine ⟨mem1, ?_, ?_, ?_⟩
    · simp only [PoolBucket.createLoop, if_pos hc]
      rw [hnode] at hrun ⊢
      rw [hrun]
      congr 2
      omega
    · intro i hji hik
      by_cases hij : i = j
      · subst hij
        rw [hframe (pData + i * e)]
        · rw [Memory.write_same, if_neg (by omega), TaggedIndex.pack_mod_offset]
          have : pData + i * e + e - pData = (i + 1) * e := by
            have : (i + 1) * e = i * e + e := by ring
            omega
          rw [this]
          simp
        · intro i2 h1 _ heq
          have : i * e = i2 * e := by omega
          have := Nat.eq_of_mul_eq_mul_right he this
          omega
      · rw [hlinks i (by omega) hik]
        split
        · rfl
        · apply TaggedIndex.pack_congr_tag
          have : tag + (i - j) = tag + 1 + (i - (j + 1)) := by omega
          rw [this]
          omega
    · intro a ha
      rw [hframe a (fun i h1 h2 => ha i (by omega) h2)]
      exact Memory.write_other _ _ _ _ (ha j (le_refl _) (by omega))

/-- The call `Create e` returns: the head is `{offset 0, tag 0}`, the counter ends at `k - 1`, element
`i < k - 1` holds the link `{offset (i + 1) * e, tag i}` (both fields truncated to 32 bits),
element `k - 1` holds the sentinel, and no other address is written. -/
theorem PoolBucket.Create_spec (e B : Nat) (b : PoolBucket) (mem : Memory) (he : 0 < e)
    (hend : b.pBufferEnd = b.pData + B) :
    ∃ mem1, PoolBucket.Create e b mem
        = some ({ b with head := TaggedIndex.pack 0 0
                         globalTag := (PoolBucket.linkedCount e B - 1) % 4294967296 }, mem1) ∧
      (∀ i, i < PoolBucket.linkedCount e B →
        mem1 (b.pData + i * e) =
          if i + 1 = PoolBucket.linkedCount e B then TaggedIndex.Invalid
          else TaggedIndex.pack i ((i + 1) * e)) ∧
      (∀ a, (∀ i, i < PoolBucket.linkedCount e B → a ≠ b.pData + i * e) → mem1 a = mem a) := by
  have hk := PoolBucket.linkedCount_pos e B
  have hkB : PoolBucket.linkedCount e B ≤ B + 1 := by
    unfold PoolBucket.linkedCount
    have : B / e ≤ B := Nat.div_le_self B e
    omega
  obtain ⟨mem1, hrun, hlinks, hframe⟩ := PoolBucket.createLoop_spec e b.pData B he
    (PoolBucket.linkedCount e B - 1) 0 0 (b.pBufferEnd - b.pData + 1) mem (by omega)
    (by omega) (by norm_num)
  refine ⟨mem1, ?_, ?_, ?_⟩
  · unfold PoolBucket.Create
    simp only [Nat.zero_mul, Nat.add_zero, Nat.zero_add] at hrun
    rw [hend] at hrun ⊢
    simp only [hrun, Nat.sub_self, Nat.zero_mod]
  · intro i hi
    have := hlinks i (Nat.zero_le _) hi
    simpa using this
  · intro a ha
    exact hframe a (fun i _ h2 => ha i h2)


/-! ## Following the links -/

theorem PoolBucket.freeListFrom_getElem (mem : Memory) (pData : Nat) :
    ∀ (fuel u : Nat) (l : List Nat), PoolBucket.freeListFrom mem pData fuel u = some l →
      ∀ i, i < l.length → l[i]? = some (TaggedIndex.offset (PoolBucket.linkAt mem pData u i)) := by
  intro fuel
  induction fuel with
  | zero => intro u l h; simp [PoolBucket.freeListFrom] at h
  | succ f ih =>
    intro u l h i hi
    unfold PoolBucket.freeListFrom at h
    split at h
    · simp only [Option.some.injEq] at h
      subst h
      simp at hi
    · split at h
      · simp at h
      · rename_i l1 hl1
        simp only [Option.some.injEq] at h
        subst h
        cases i with
        | zero => simp [PoolBucket.linkAt]
        | succ i =>
          simp only [List.getElem?_cons_succ, PoolBucket.linkAt]
          exact ih _ _ hl1 i (by simpa using hi)

theorem PoolBucket.linkWord_ne_Invalid (e j : Nat) :
    PoolBucket.linkWord e j ≠ TaggedIndex.Invalid := by
  unfold PoolBucket.linkWord
  split
  · decide
  · rename_i h
    have := TaggedIndex.pack_ne_Invalid (j - 1) e
    rwa [Nat.sub_add_cancel (by omega)] at this

theorem PoolBucket.offset_linkWord (e j : Nat) :
    TaggedIndex.offset (PoolBucket.linkWord e j) = (j * e) % 4294967296 := by
  unfold PoolBucket.linkWord
  split
  · rename_i h; subst h; rw [TaggedIndex.offset_pack]; simp
  · exact TaggedIndex.offset_pack _ _

/-- In a freshly linked slab the element that `linkWord e j` references holds
`linkWord e (j + 1)`, as long as its offset fits 32 bits. -/
theorem PoolBucket.next_linkWord (e pData k j : Nat) (mem1 : Memory)
    (hlinks : ∀ i, i < k → mem1 (pData + i * e) =
      if i + 1 = k then TaggedIndex.Invalid else TaggedIndex.pack i ((i + 1) * e))
    (hj : j + 1 < k) (hfit : j * e < 4294967296) :
    mem1 (pData + TaggedIndex.offset (PoolBucket.linkWord e j)) = PoolBucket.linkWord e (j + 1) := by
  rw [PoolBucket.offset_linkWord, Nat.mod_eq_of_lt hfit, hlinks j (by omega), if_neg (by omega)]
  simp [PoolBucket.linkWord]

theorem PoolBucket.linkAt_linkWord (e pData k : Nat) (mem1 : Memory)
    (hlinks : ∀ i, i < k → mem1 (pData + i * e) =
      if i + 1 = k then TaggedIndex.Invalid else TaggedIndex.pack i ((i + 1) * e)) :
    ∀ (i j : Nat), j + i < k → (∀ j2, j2 < j + i → j2 * e < 4294967296) →
      PoolBucket.linkAt mem1 pData (PoolBucket.linkWord e j) i = PoolBucket.linkWord e (j + i) := by
  intro i
  induction i with
  | zero => intro j _ _; rfl
  | succ i ih =>
    intro j hj hfit
    rw [PoolBucket.linkAt, PoolBucket.next_linkWord e pData k j mem1 hlinks (by omega)
      (hfit j (by omega)), ih (j + 1) (by omega) (fun j2 h => hfit j2 (by omega))]
    congr 1
    omega

/-- In a freshly linked slab whose offsets fit 32 bits, the walk from the word referencing
element `j` meets the elements `j, ..., k - 1` in address order and then the sentinel. -/
theorem PoolBucket.freeListFrom_linkWord (e pData k : Nat) (mem1 : Memory)
    (hlinks : ∀ i, i < k → mem1 (pData + i * e) =
      if i + 1 = k then TaggedIndex.Invalid else TaggedIndex.pack i ((i + 1) * e))
    (hfit : (k - 1) * e < 4294967296) :
    ∀ (n j fuel : Nat), j + n = k → n < fuel → 0 < n →
      PoolBucket.freeListFrom mem1 pData fuel (PoolBucket.linkWord e j)
        = some ((List.range' j n).map (fun i => i * e)) := by
  intro n
  induction n with
  | zero => intro j fuel _ _ h; omega
  | succ n ih =>
    intro j fuel hjn hfuel _
    obtain ⟨f, rfl⟩ : ∃ f, fuel = f + 1 := ⟨fuel - 1, by omega⟩
    have hje : j * e ≤ (k - 1) * e := Nat.mul_le_mul_right e (by omega)
    have hoff : TaggedIndex.offset (PoolBucket.linkWord e j) = j * e := by
      rw [PoolBucket.offset_linkWord, Nat.mod_eq_of_lt (by omega)]
    rw [PoolBucket.freeListFrom, if_neg (PoolBucket.linkWord_ne_Invalid e j)]
    by_cases hn : n = 0
    · subst hn
      obtain ⟨f2, rfl⟩ : ∃ f2, f = f2 + 1 := ⟨f - 1, by omega⟩
      rw [hoff, hlinks j (by omega), if_pos (by omega)]
      simp [PoolBucket.freeListFrom]
    · rw [PoolBucket.next_linkWord e pData k j mem1 hlinks (by omega) (by omega),
        ih (j + 1) f (by omega) (by omega) (by omega), hoff]
      simp [List.range'_succ]


/-! ## `GetNextPow2` -/

theorem bitsFrom_self (m : Nat) : BitsFrom m [0] m := by
  intro i; simp

theorem bitsFrom_stage (m s x : Nat) (K : List Nat) (h : BitsFrom m K x) :
    BitsFrom m (K ++ K.map (fun k => k + s)) (x ||| (x >>> s)) := by
  intro i
  rw [Nat.testBit_lor, Nat.testBit_shiftRight, Bool.or_eq_true, h i, h (s + i)]
  constructor
  · rintro (⟨k, hk, hb⟩ | ⟨k, hk, hb⟩)
    · exact ⟨k, List.mem_append_left _ hk, hb⟩
    · refine ⟨k + s, List.mem_append_right _ (List.mem_map.mpr ⟨k, hk, rfl⟩), ?_⟩
      rw [← hb]; congr 1; omega
  · rintro ⟨k, hk, hb⟩
    rcases List.mem_append.mp hk with hk | hk
    · exact Or.inl ⟨k, hk, hb⟩
    · obtain ⟨k0, hk0, rfl⟩ := List.mem_map.mp hk
      refine Or.inr ⟨k0, hk0, ?_⟩
      rw [← hb]; congr 1; omega

/-- After the five stages bit `i` is set exactly when one of the bits `i, ..., i + 31` of the
input is: every distance below 32 is a sum of some of 16, 8, 4, 2, 1. -/
theorem orShiftCascade_testBit (m i : Nat) :
    (orShiftCascade m).testBit i = true ↔ ∃ k, k < 32 ∧ m.testBit (i + k) = true := by
  have h := bitsFrom_stage m 1 _ _ (bitsFrom_stage m 2 _ _ (bitsFrom_stage m 4 _ _
    (bitsFrom_stage m 8 _ _ (bitsFrom_stage m 16 _ _ (bitsFrom_self m)))))
  have hi := h i
  unfold orShiftCascade
  rw [hi]
  constructor
  · rintro ⟨k, hk, hb⟩
    refine ⟨k, ?_, hb⟩
    simp at hk
    omega
  · rintro ⟨k, hk, hb⟩
    refine ⟨k, ?_, hb⟩
    interval_cases k <;> simp

theorem orShiftCascade_eq (m t : Nat) (ht : t < 32) (hb : m.testBit t = true)
    (hhi : ∀ j, t < j → m.testBit j = false) : orShiftCascade m = 2 ^ (t + 1) - 1 := by
  apply Nat.eq_of_testBit_eq
  intro i
  rw [Nat.testBit_two_pow_sub_one]
  by_cases hi : i < t + 1
  · rw [decide_eq_true hi, orShiftCascade_testBit]
    refine ⟨t - i, by omega, ?_⟩
    rw [← hb]; congr 1; omega
  · rw [decide_eq_false hi, Bool.eq_false_iff]
    intro hc
    rw [orShiftCascade_testBit] at hc
    obtain ⟨k, _, hk⟩ := hc
    rw [hhi (i + k) (by omega)] at hk
    exact Bool.false_ne_true hk

/-- The cascade turns `m < 2 ^ 32` into `2 ^ L - 1`, where `2 ^ L` is the least power of two
above `m`. -/
theorem orShiftCascade_pow (m : Nat) (hm : m < 4294967296) :
    ∃ L, orShiftCascade m = 2 ^ L - 1 ∧ m < 2 ^ L ∧ (m ≠ 0 → 2 ^ L ≤ 2 * m) := by
  by_cases h0 : m = 0
  · subst h0
    exact ⟨0, by decide, by norm_num, fun h => absurd rfl h⟩
  · obtain ⟨t, hb, hhi⟩ := Nat.exists_most_significant_bit h0
    have hge : 2 ^ t ≤ m := Nat.testBit_implies_ge hb
    have ht : t < 32 := by
      by_contra hc
      have : 2 ^ 32 ≤ 2 ^ t := Nat.pow_le_pow_right (by norm_num) (by omega)
      omega
    refine ⟨t + 1, orShiftCascade_eq m t ht hb hhi, ?_, ?_⟩
    · exact Nat.lt_pow_two_of_testBit m (fun i hi => hhi i (by omega))
    · intro _
      rw [pow_succ]; omega

/-- For `1 ≤ n ≤ 2 ^ 30` the result of `GetNextPow2` is a power of two between `n` and `2 * n`. -/
theorem GetNextPow2_pow (n : Nat) (h1 : 1 ≤ n) (h2 : n ≤ 1073741824) :
    ∃ L, GetNextPow2 n = Int.ofNat (2 ^ L) ∧ n ≤ 2 ^ L ∧ 2 ^ L < 2 * n := by
  obtain ⟨L, hc, hlt, hle⟩ := orShiftCascade_pow (n - 1) (by omega)
  have hpos : 0 < 2 ^ L := Nat.pos_pow_of_pos L (by norm_num)
  have hub : 2 ^ L < 2 * n := by
    by_cases h0 : n - 1 = 0
    · have hn : n = 1 := by omega
      subst hn
      have : orShiftCascade 0 = 0 := by decide
      simp only [Nat.sub_self] at hc
      rw [this] at hc
      omega
    · have := hle h0
      omega
  refine ⟨L, ?_, by omega, hub⟩
  unfold GetNextPow2
  have hn0 : (n % 4294967296 + 4294967295) % 4294967296 = n - 1 := by omega
  simp only [hn0, hc]
  have hs : 2 ^ L - 1 + 1 = 2 ^ L := by omega
  rw [hs]
  unfold toInt32
  rw [Nat.mod_eq_of_lt (by omega), if_pos (by omega)]

/-- The alignment `Init` computes for `1 ≤ n ≤ 64` buckets is a power of two, at least `16 * n`
and below `32 * n`. -/
theorem alignmentMax_pow (n : Nat) (h1 : 1 ≤ n) (h2 : n ≤ 64) :
    ∃ L, toSizeT (GetNextPow2 ((16 * n) % 4294967296)) = 2 ^ L ∧ 16 * n ≤ 2 ^ L ∧
      2 ^ L < 2 * (16 * n) := by
  rw [Nat.mod_eq_of_lt (by omega)]
  obtain ⟨L, hL, hlo, hhi⟩ := GetNextPow2_pow (16 * n) (by omega) (by omega)
  refine ⟨L, ?_, hlo, hhi⟩
  rw [hL]
  unfold toSizeT
  have : (Int.ofNat (2 ^ L)) % 18446744073709551616 = Int.ofNat (2 ^ L) := by
    apply Int.emod_eq_of_lt
    · exact Int.ofNat_nonneg _
    · have hlt : 2 ^ L < 18446744073709551616 := by omega
      have hcast : Int.ofNat (2 ^ L) = ((2 ^ L : Nat) : Int) := rfl
      rw [hcast]
      exact_mod_cast hlt
  rw [this]
  rfl

/-- Without wrapping, the rounded size is a multiple of the alignment, not below the requested
size and less than one alignment above it. -/
theorem Align_spec (val al : Nat) (h : 0 < al) (hfit : val + al ≤ 18446744073709551616) :
    al ∣ Align val al ∧ val ≤ Align val al ∧ Align val al < val + al := by
  have h1 := Nat.div_add_mod (val + (al - 1)) al
  have h2 := Nat.mod_lt (val + (al - 1)) h
  have h3 := Nat.div_mul_le_self (val + (al - 1)) al
  rw [Nat.mul_comm] at h1
  have hmod : (val + (al - 1)) / al * al % 18446744073709551616
      = (val + (al - 1)) / al * al := Nat.mod_eq_of_lt (by omega)
  unfold Align
  rw [hmod]
  exact ⟨Dvd.intro_left _ rfl, by omega, by omega⟩

/-- The rounded size is a multiple of the alignment also when it wraps, for an alignment that
divides `2 ^ 64`. -/
theorem Align_dvd (val al : Nat) (hal : al ∣ 18446744073709551616) : al ∣ Align val al := by
  unfold Align
  exact (Nat.dvd_mod_iff hal).mpr (Dvd.intro_left _ rfl)


/-! ## `Allocator::Init` -/

/-- An element of a slab lies inside the slab when at least one element fits. -/
theorem PoolBucket.element_in_slab (e S t : Nat) (he : 0 < e) (hS : e ≤ S)
    (ht : t < PoolBucket.linkedCount e S) : t * e + e ≤ S := by
  have h1 : 1 ≤ S / e := (Nat.le_div_iff_mul_le he).mpr (by omega)
  have h2 : t + 1 ≤ S / e := by
    unfold PoolBucket.linkedCount at ht
    omega
  have h3 := (Nat.le_div_iff_mul_le he).mp h2
  have h4 : (t + 1) * e = t * e + e := by ring
  omega

theorem PoolBucket.linkedCount_zero (e : Nat) : PoolBucket.linkedCount e 0 = 1 := by
  simp [PoolBucket.linkedCount]

/-- The bucket loop of `Init` from bucket `i` with `r` buckets to go, inside the arrays, with a
region size that is zero or holds an element of every size and with offsets `j * S` that do not
wrap: it finishes, leaves the scalar fields alone, gives bucket `j` the region `[base + j * S, base + (j + 1) * S)` and the element
size `16 * (j + 1)`, and the memory holds exactly the links of these buckets. -/
theorem Allocator.initBuckets_spec :
    ∀ (r i : Nat) (a : Allocator), i + r ≤ SMM_MAX_BUCKET_COUNT →
      (a.bucketSizeInBytes = 0 ∨ 16 * (i + r) ≤ a.bucketSizeInBytes) →
      (∀ j, j < i + r → j * a.bucketSizeInBytes < 18446744073709551616) →
      ∃ a1, Allocator.initBuckets r i (16 * (i + 1)) a = some a1 ∧
        a1.bucketsCount = a.bucketsCount ∧ a1.bucketSizeInBytes = a.bucketSizeInBytes ∧
        a1.pBufferEnd = a.pBufferEnd ∧ a1.pBuffer = a.pBuffer ∧ a1.backing = a.backing ∧
        (∀ j, a1.buckets j =
          if i ≤ j ∧ j < i + r then
            { head := TaggedIndex.pack 0 0
              globalTag :=
                (PoolBucket.linkedCount (16 * (j + 1)) a.bucketSizeInBytes - 1) % 4294967296
              pData := a.pBuffer + j * a.bucketSizeInBytes
              pBufferEnd := a.pBuffer + j * a.bucketSizeInBytes + a.bucketSizeInBytes }
          else a.buckets j) ∧
        (∀ j, a1.bucketsDataBegin j =
          if i ≤ j ∧ j < i + r then a.pBuffer + j * a.bucketSizeInBytes
          else a.bucketsDataBegin j) ∧
        (∀ j, i ≤ j → j < i + r →
          ∀ t, t < PoolBucket.linkedCount (16 * (j + 1)) a.bucketSizeInBytes →
            a1.mem (a.pBuffer + j * a.bucketSizeInBytes + t * (16 * (j + 1))) =
              if t + 1 = PoolBucket.linkedCount (16 * (j + 1)) a.bucketSizeInBytes
              then TaggedIndex.Invalid
              else TaggedIndex.pack t ((t + 1) * (16 * (j + 1)))) ∧
        (∀ x, (∀ j, i ≤ j → j < i + r →
            ∀ t, t < PoolBucket.linkedCount (16 * (j + 1)) a.bucketSizeInBytes →
              x ≠ a.pBuffer + j * a.bucketSizeInBytes + t * (16 * (j + 1))) →
          a1.mem x = a.mem x) := by
  intro r
  induction r with
  | zero =>
    intro i a _ _ _
    refine ⟨a, rfl, rfl, rfl, rfl, rfl, rfl, ?_, ?_, ?_, ?_⟩
    · intro j; rw [if_neg (by omega)]
    · intro j; rw [if_neg (by omega)]
    · intro j h1 h2; omega
    · intro x _; rfl
  | succ r ih =>
    intro i a hi hS hfit
    have hi64 : i < SMM_MAX_BUCKET_COUNT := by omega
    have hmod : i * a.bucketSizeInBytes % 18446744073709551616 = i * a.bucketSizeInBytes :=
      Nat.mod_eq_of_lt (hfit i (by omega))
    obtain ⟨mem1, hcreate, hlinks, hframe⟩ := PoolBucket.Create_spec (16 * (i + 1))
      a.bucketSizeInBytes
      { a.buckets i with
        pData := a.pBuffer + i * a.bucketSizeInBytes
        pBufferEnd := a.pBuffer + i * a.bucketSizeInBytes + a.bucketSizeInBytes }
      a.mem (by omega) rfl
    simp only at hlinks hframe
    obtain ⟨a1, hrun, hbc, hbs, hpe, hpb, hbk, hbuckets, hbegin, hmem, hrest⟩ :=
      ih (i + 1)
        { a with
          buckets := Function.update a.buckets i
            { head := TaggedIndex.pack 0 0
              globalTag :=
                (PoolBucket.linkedCount (16 * (i + 1)) a.bucketSizeInBytes - 1) % 4294967296
              pData := a.pBuffer + i * a.bucketSizeInBytes
              pBufferEnd := a.pBuffer + i * a.bucketSizeInBytes + a.bucketSizeInBytes }
          mem := mem1
          bucketsDataBegin :=
            Function.update a.bucketsDataBegin i (a.pBuffer + i * a.bucketSizeInBytes) }
        (by omega) (by rcases hS with h | h; exact Or.inl h; exact Or.inr (by simp only; omega))
        (fun j hj => hfit j (by omega))
    simp only at hrun hbc hbs hpe hpb hbk hbuckets hbegin hmem hrest
    have hes : 16 * (i + 1) + 16 = 16 * (i + 1 + 1) := by ring
    refine ⟨a1, ?_, hbc, hbs, hpe, hpb, hbk, ?_, ?_, ?_, ?_⟩
    · rw [Allocator.initBuckets, if_pos hi64]
      simp only [hmod, hcreate, hes]
      exact hrun
    · intro j
      rw [hbuckets j]
      by_cases hj : j = i
      · subst hj
        rw [if_neg (by omega), if_pos (by omega), Function.update_same]
      · by_cases hr : i + 1 ≤ j ∧ j < i + 1 + r
        · rw [if_pos hr, if_pos (by omega)]
        · rw [if_neg hr, if_neg (by omega), Function.update_noteq hj]
    · intro j
      rw [hbegin j]
      by_cases hj : j = i
      · subst hj
        rw [if_neg (by omega), if_pos (by omega), Function.update_same]
      · by_cases hr : i + 1 ≤ j ∧ j < i + 1 + r
        · rw [if_pos hr, if_pos (by omega)]
        · rw [if_neg hr, if_neg (by omega), Function.update_noteq hj]
    · intro j hij hjr t ht
      by_cases hj : j = i
      · subst hj
        rcases hS with h0 | hbig
        · -- empty regions: every bucket writes the sentinel at the arena base
          rw [h0, PoolBucket.linkedCount_zero] at ht ⊢
          have ht0 : t = 0 := by omega
          subst ht0
          by_cases hr0 : r = 0
          · subst hr0
            rw [hrest _ (by intro j2 h1 h2; omega)]
            have := hlinks 0 (by rw [h0, PoolBucket.linkedCount_zero]; omega)
            rw [h0, PoolBucket.linkedCount_zero] at this
            simpa using this
          · have := hmem (j + 1) (by omega) (by omega) 0
              (by rw [h0, PoolBucket.linkedCount_zero]; omega)
            rw [h0, PoolBucket.linkedCount_zero] at this
            simpa using this
        · rw [hrest _ ?_]
          · exact hlinks t ht
          · intro j2 h1 h2 t2 _ heq
            have hin := PoolBucket.element_in_slab (16 * (j + 1)) a.bucketSizeInBytes t
              (by omega) (by omega) ht
            have hmul : (j + 1) * a.bucketSizeInBytes ≤ j2 * a.bucketSizeInBytes :=
              Nat.mul_le_mul_right _ h1
            have hexp : (j + 1) * a.bucketSizeInBytes
                = j * a.bucketSizeInBytes + a.bucketSizeInBytes := by ring
            omega
      · exact hmem j (by omega) (by omega) t ht
    · intro x hx
      rw [hrest x (fun j h1 h2 t ht => hx j (by omega) (by omega) t ht)]
      exact hframe x (fun t ht => hx i (le_refl _) (by omega) t ht)


theorem Allocator.alignmentFor_spec (n : Nat) (h1 : 1 ≤ n) (h2 : n ≤ 64) :
    16 * n ≤ Allocator.alignmentFor n ∧ Allocator.alignmentFor n < 2 * (16 * n) := by
  obtain ⟨L, hL, hlo, hhi⟩ := alignmentMax_pow n h1 h2
  unfold Allocator.alignmentFor
  rw [hL]
  exact ⟨hlo, hhi⟩

/-- The alignment `Init` computes divides `2 ^ 64`. -/
theorem Allocator.alignmentFor_dvd_word (n : Nat) (h1 : 1 ≤ n) (h2 : n ≤ 64) :
    Allocator.alignmentFor n ∣ 18446744073709551616 := by
  obtain ⟨L, hL, _, hhi⟩ := alignmentMax_pow n h1 h2
  unfold Allocator.alignmentFor
  rw [hL]
  have hL64 : L ≤ 64 := by
    by_contra hc
    have hstep : 2 ^ 65 ≤ 2 ^ L := Nat.pow_le_pow_right (by norm_num) (by omega)
    have h65 : (2 : Nat) ^ 65 = 36893488147419103232 := by norm_num
    omega
  have h64 : (18446744073709551616 : Nat) = 2 ^ 64 := by norm_num
  rw [h64]
  exact pow_dvd_pow 2 hL64

/-- The rounded region size is zero or holds an element of every bucket; it is not below the
requested size when the rounding does not wrap. -/
theorem Allocator.roundedSize_spec (n B : Nat) (h1 : 1 ≤ n) (h2 : n ≤ 64) :
    (Allocator.roundedSize n B = 0 ∨ 16 * n ≤ Allocator.roundedSize n B) ∧
      (B + Allocator.alignmentFor n ≤ 18446744073709551616 → B ≤ Allocator.roundedSize n B) := by
  have hal := Allocator.alignmentFor_spec n h1 h2
  have hdvd := Align_dvd B (Allocator.alignmentFor n) (Allocator.alignmentFor_dvd_word n h1 h2)
  refine ⟨?_, fun hfit => (Align_spec B (Allocator.alignmentFor n) (by omega) hfit).2.1⟩
  unfold Allocator.roundedSize
  by_cases h0 : Align B (Allocator.alignmentFor n) = 0
  · exact Or.inl h0
  · have := Nat.le_of_dvd (by omega) hdvd
    exact Or.inr (by omega)

theorem Allocator.resetBuffer_spec (p : Nat) (a : Allocator) :
    (Allocator.resetBuffer p a).pBuffer = p ∧
    (Allocator.resetBuffer p a).bucketsCount = a.bucketsCount ∧
    (Allocator.resetBuffer p a).bucketSizeInBytes = a.bucketSizeInBytes ∧
    (Allocator.resetBuffer p a).pBufferEnd = a.pBufferEnd ∧
    (Allocator.resetBuffer p a).bucketsDataBegin = a.bucketsDataBegin ∧
    (Allocator.resetBuffer p a).buckets = a.buckets ∧
    (Allocator.resetBuffer p a).mem = a.mem ∧
    (Allocator.resetBuffer p a).backing =
      a.backing ++ (if a.pBuffer = 0 then [] else [BackingCall.Free a.pBuffer]) := by
  unfold Allocator.resetBuffer GenericAllocator.Free
  by_cases h : a.pBuffer = 0 <;> simp [h]

/-- The state after the straight-line part of `Init`, for a valid bucket count. -/
theorem Allocator.reserveArena_spec (malloc : List BackingCall → Nat → Nat → Nat) (n B : Nat)
    (a : Allocator) (h1 : 1 ≤ n) (h2 : n ≤ 64) :
    (Allocator.reserveArena malloc n B a).bucketsCount = n ∧
    (Allocator.reserveArena malloc n B a).bucketSizeInBytes = Allocator.roundedSize n B ∧
    (Allocator.reserveArena malloc n B a).pBuffer
      = malloc a.backing (Allocator.totalBytesFor n B) (Allocator.alignmentFor n) ∧
    (Allocator.reserveArena malloc n B a).pBufferEnd
      = malloc a.backing (Allocator.totalBytesFor n B) (Allocator.alignmentFor n)
        + Allocator.totalBytesFor n B + 1 ∧
    (Allocator.reserveArena malloc n B a).bucketsDataBegin
      = (fun i => if i < SMM_MAX_BUCKET_COUNT then 0 else a.bucketsDataBegin i) ∧
    (Allocator.reserveArena malloc n B a).buckets = a.buckets ∧
    (Allocator.reserveArena malloc n B a).mem = a.mem ∧
    (Allocator.reserveArena malloc n B a).backing = a.backing ++
      [BackingCall.Alloc (Allocator.totalBytesFor n B) (Allocator.alignmentFor n)
        (malloc a.backing (Allocator.totalBytesFor n B) (Allocator.alignmentFor n))]
      ++ (if a.pBuffer = 0 then [] else [BackingCall.Free a.pBuffer]) := by
  have hal := Allocator.alignmentFor_spec n h1 h2
  have hal16 : ¬ Allocator.alignmentFor n < 16 := by omega
  unfold Allocator.alignmentFor at hal16
  unfold Allocator.reserveArena Allocator.resetBuffer GenericAllocator.Alloc GenericAllocator.Free
    Allocator.totalBytesFor Allocator.roundedSize Allocator.alignmentFor
  by_cases h : a.pBuffer = 0 <;> simp [h, hal16]

/-- The call `Init` with a valid bucket count on an allocator that is not initialized yet, for a
size whose bucket offsets `j * S` do not wrap: it returns, and the state afterwards is the
following. -/
theorem Allocator.Init_spec (malloc : List BackingCall → Nat → Nat → Nat) (n B : Nat)
    (a : Allocator) (h1 : 1 ≤ n) (h2 : n ≤ 64) (h0 : a.bucketsCount = 0)
    (hfit : ∀ j, j < n → j * Allocator.roundedSize n B < 18446744073709551616) :
    ∃ a1, Allocator.Init malloc n B a = some a1 ∧
      a1.bucketsCount = n ∧ a1.bucketSizeInBytes = Allocator.roundedSize n B ∧
      a1.pBuffer = malloc a.backing (Allocator.totalBytesFor n B) (Allocator.alignmentFor n) ∧
      a1.pBufferEnd = a1.pBuffer + Allocator.totalBytesFor n B + 1 ∧
      a1.backing = a.backing ++
        [BackingCall.Alloc (Allocator.totalBytesFor n B) (Allocator.alignmentFor n) a1.pBuffer]
        ++ (if a.pBuffer = 0 then [] else [BackingCall.Free a.pBuffer]) ∧
      (∀ j, a1.buckets j =
        if j < n then
          { head := TaggedIndex.pack 0 0
            globalTag :=
              (PoolBucket.linkedCount (16 * (j + 1)) a1.bucketSizeInBytes - 1) % 4294967296
            pData := a1.pBuffer + j * a1.bucketSizeInBytes
            pBufferEnd := a1.pBuffer + j * a1.bucketSizeInBytes + a1.bucketSizeInBytes }
        else a.buckets j) ∧
      (∀ j, a1.bucketsDataBegin j =
        if j < n then a1.pBuffer + j * a1.bucketSizeInBytes
        else if j < SMM_MAX_BUCKET_COUNT then 0 else a.bucketsDataBegin j) ∧
      (∀ j, j < n → ∀ t, t < PoolBucket.linkedCount (16 * (j + 1)) a1.bucketSizeInBytes →
        a1.mem (a1.pBuffer + j * a1.bucketSizeInBytes + t * (16 * (j + 1))) =
          if t + 1 = PoolBucket.linkedCount (16 * (j + 1)) a1.bucketSizeInBytes
          then TaggedIndex.Invalid
          else TaggedIndex.pack t ((t + 1) * (16 * (j + 1)))) ∧
      (∀ x, (∀ j, j < n → ∀ t, t < PoolBucket.linkedCount (16 * (j + 1)) a1.bucketSizeInBytes →
          x ≠ a1.pBuffer + j * a1.bucketSizeInBytes + t * (16 * (j + 1))) →
        a1.mem x = a.mem x) := by
  have hS := (Allocator.roundedSize_spec n B h1 h2).1
  obtain ⟨hr1, hr2, hr3, hr4, hr5, hr6, hr7, hr8⟩ :=
    Allocator.reserveArena_spec malloc n B a h1 h2
  obtain ⟨a1, hrun, hbc, hbs, hpe, hpb, hbk, hbuckets, hbegin, hmem, hrest⟩ :=
    Allocator.initBuckets_spec n 0 (Allocator.reserveArena malloc n B a)
      (by simp only [SMM_MAX_BUCKET_COUNT]; omega)
      (by rw [hr2]; rcases hS with h | h; exact Or.inl h; exact Or.inr (by omega))
      (by rw [hr2]; intro j hj; exact hfit j (by omega))
  simp only [Nat.zero_add, Nat.zero_le, true_and] at hrun hbuckets hbegin hmem hrest
  rw [hr1] at hbc
  rw [hr2] at hbs
  rw [hr3] at hpb
  rw [hr4] at hpe
  rw [hr8] at hbk
  rw [hr2, hr3, hr6] at hbuckets
  rw [hr2, hr3, hr5] at hbegin
  rw [hr2, hr3] at hmem
  rw [hr2, hr3, hr7] at hrest
  refine ⟨a1, ?_, hbc, hbs, hpb, ?_, ?_, ?_, ?_, ?_, ?_⟩
  · unfold Allocator.Init
    rw [if_neg (by omega), if_neg (by omega)]
    simp only [hr1]
    exact hrun
  · rw [hpe, hpb]
  · rw [hbk, hpb]
  · intro j; rw [hbuckets j, hbs, hpb]
  · intro j; rw [hbegin j, hbs, hpb]
  · intro j hj t ht
    rw [hbs] at ht ⊢
    rw [hpb]
    exact hmem j trivial hj t ht
  · intro x hx
    rw [hbs, hpb] at hx
    exact hrest x (fun j _ hj t ht => hx j hj t ht)


/-- No bucket offset wraps when the whole arena fits `size_t`. -/
theorem Allocator.fit_of_total (S n : Nat) (h : S * n < 18446744073709551616) :
    ∀ j, j < n → j * S < 18446744073709551616 := by
  intro j hj
  have hle : j * S ≤ n * S := Nat.mul_le_mul_right S (by omega)
  rw [Nat.mul_comm n S] at hle
  omega

/-- No bucket offset wraps when the last one does not. -/
theorem Allocator.fit_of_last (S n : Nat) (h : (n - 1) * S < 18446744073709551616) :
    ∀ j, j < n → j * S < 18446744073709551616 := by
  intro j hj
  have hle : j * S ≤ (n - 1) * S := Nat.mul_le_mul_right S (by omega)
  omega

theorem Allocator.totalBytesFor_of_fit (n B : Nat)
    (h : Allocator.roundedSize n B * n < 18446744073709551616) :
    Allocator.totalBytesFor n B = Allocator.roundedSize n B * n := by
  unfold Allocator.totalBytesFor
  exact Nat.mod_eq_of_lt h

theorem Allocator.roundedSize_4096 : Allocator.roundedSize 4 4096 = 4096 := by decide

theorem Allocator.totalBytesFor_4096 : Allocator.totalBytesFor 4 4096 = 16384 := by decide

theorem Allocator.fit_4096 :
    ∀ j, j < 4 → j * Allocator.roundedSize 4 4096 < 18446744073709551616 := by
  intro j hj
  rw [Allocator.roundedSize_4096]
  omega

/-- The bucket loop of `Init` always finishes inside the arrays, also when the offsets
`i * S` wrap: bucket `j` gets the region of `S` bytes at `base + (j * S mod 2 ^ 64)`, and the
memory holds the links of the bucket linked last. -/
theorem Allocator.initBuckets_returns :
    ∀ (r i : Nat) (a : Allocator), i + r ≤ SMM_MAX_BUCKET_COUNT →
      ∃ a1, Allocator.initBuckets r i (16 * (i + 1)) a = some a1 ∧
        a1.bucketsCount = a.bucketsCount ∧ a1.bucketSizeInBytes = a.bucketSizeInBytes ∧
        a1.pBufferEnd = a.pBufferEnd ∧ a1.pBuffer = a.pBuffer ∧ a1.backing = a.backing ∧
        (∀ j, a1.buckets j =
          if i ≤ j ∧ j < i + r then
            { head := TaggedIndex.pack 0 0
              globalTag :=
                (PoolBucket.linkedCount (16 * (j + 1)) a.bucketSizeInBytes - 1) % 4294967296
              pData := a.pBuffer + j * a.bucketSizeInBytes % 18446744073709551616
              pBufferEnd := a.pBuffer + j * a.bucketSizeInBytes % 18446744073709551616
                + a.bucketSizeInBytes }
          else a.buckets j) ∧
        (∀ j, a1.bucketsDataBegin j =
          if i ≤ j ∧ j < i + r then a.pBuffer + j * a.bucketSizeInBytes % 18446744073709551616
          else a.bucketsDataBegin j) ∧
        (0 < r → ∀ t, t < PoolBucket.linkedCount (16 * (i + r)) a.bucketSizeInBytes →
          a1.mem (a.pBuffer + (i + r - 1) * a.bucketSizeInBytes % 18446744073709551616
              + t * (16 * (i + r))) =
            if t + 1 = PoolBucket.linkedCount (16 * (i + r)) a.bucketSizeInBytes
            then TaggedIndex.Invalid
            else TaggedIndex.pack t ((t + 1) * (16 * (i + r)))) := by
  intro r
  induction r with
  | zero =>
    intro i a _
    refine ⟨a, rfl, rfl, rfl, rfl, rfl, rfl, ?_, ?_, ?_⟩
    · intro j; rw [if_neg (by omega)]
    · intro j; rw [if_neg (by omega)]
    · intro h; omega
  | succ r ih =>
    intro i a hi
    have hi64 : i < SMM_MAX_BUCKET_COUNT := by omega
    obtain ⟨mem1, hcreate, hlinks, _⟩ := PoolBucket.Create_spec (16 * (i + 1))
      a.bucketSizeInBytes
      { a.buckets i with
        pData := a.pBuffer + i * a.bucketSizeInBytes % 18446744073709551616
        pBufferEnd := a.pBuffer + i * a.bucketSizeInBytes % 18446744073709551616
          + a.bucketSizeInBytes }
      a.mem (by omega) rfl
    simp only at hlinks
    obtain ⟨a1, hrun, hbc, hbs, hpe, hpb, hbk, hbuckets, hbegin, hlast⟩ :=
      ih (i + 1)
        { a with
          buckets := Function.update a.buckets i
            { head := TaggedIndex.pack 0 0
              globalTag :=
                (PoolBucket.linkedCount (16 * (i + 1)) a.bucketSizeInBytes - 1) % 4294967296
              pData := a.pBuffer + i * a.bucketSizeInBytes % 18446744073709551616
              pBufferEnd := a.pBuffer + i * a.bucketSizeInBytes % 18446744073709551616
                + a.bucketSizeInBytes }
          mem := mem1
          bucketsDataBegin :=
            Function.update a.bucketsDataBegin i
              (a.pBuffer + i * a.bucketSizeInBytes % 18446744073709551616) }
        (by omega)
    simp only at hrun hbc hbs hpe hpb hbk hbuckets hbegin hlast
    have hes : 16 * (i + 1) + 16 = 16 * (i + 1 + 1) := by ring
    refine ⟨a1, ?_, hbc, hbs, hpe, hpb, hbk, ?_, ?_, ?_⟩
    · rw [Allocator.initBuckets, if_pos hi64]
      simp only [hcreate, hes]
      exact hrun
    · intro j
      rw [hbuckets j]
      by_cases hj : j = i
      · subst hj
        rw [if_neg (by omega), if_pos (by omega), Function.update_same]
      · by_cases hr : i + 1 ≤ j ∧ j < i + 1 + r
        · rw [if_pos hr, if_pos (by omega)]
        · rw [if_neg hr, if_neg (by omega), Function.update_noteq hj]
    · intro j
      rw [hbegin j]
      by_cases hj : j = i
      · subst hj
        rw [if_neg (by omega), if_pos (by omega), Function.update_same]
      · by_cases hr : i + 1 ≤ j ∧ j < i + 1 + r
        · rw [if_pos hr, if_pos (by omega)]
        · rw [if_neg hr, if_neg (by omega), Function.update_noteq hj]
    · intro _ t ht
      by_cases hr0 : r = 0
      · subst hr0
        simp only [Nat.add_zero, Nat.add_sub_cancel] at ht ⊢
        cases hrun
        exact hlinks t ht
      · have hidx : i + (r + 1) - 1 = i + 1 + r - 1 := by omega
        have hsz : i + (r + 1) = i + 1 + r := by omega
        rw [hsz] at ht
        rw [hidx, hsz]
        exact hlast (by omega) t ht

/-- The call `Init` with a valid bucket count on an allocator that is not initialized yet always
returns, also when the `size_t` products wrap; the scalar fields, the backing call and the
bucket records afterwards are the following. -/
theorem Allocator.Init_returns (malloc : List BackingCall → Nat → Nat → Nat) (n B : Nat)
    (a : Allocator) (h1 : 1 ≤ n) (h2 : n ≤ 64) (h0 : a.bucketsCount = 0) :
    ∃ a1, Allocator.Init malloc n B a = some a1 ∧
      a1.bucketsCount = n ∧ a1.bucketSizeInBytes = Allocator.roundedSize n B ∧
      a1.pBuffer = malloc a.backing (Allocator.totalBytesFor n B) (Allocator.alignmentFor n) ∧
      a1.pBufferEnd = a1.pBuffer + Allocator.totalBytesFor n B + 1 ∧
      a1.backing = a.backing ++
        [BackingCall.Alloc (Allocator.totalBytesFor n B) (Allocator.alignmentFor n) a1.pBuffer]
        ++ (if a.pBuffer = 0 then [] else [BackingCall.Free a.pBuffer]) ∧
      (∀ j, j < n →
        a1.buckets j =
          { head := TaggedIndex.pack 0 0
            globalTag :=
              (PoolBucket.linkedCount (16 * (j + 1)) a1.bucketSizeInBytes - 1) % 4294967296
            pData := a1.pBuffer + j * a1.bucketSizeInBytes % 18446744073709551616
            pBufferEnd := a1.pBuffer + j * a1.bucketSizeInBytes % 18446744073709551616
              + a1.bucketSizeInBytes }) ∧
      (∀ t, t < PoolBucket.linkedCount (16 * n) a1.bucketSizeInBytes →
        a1.mem (a1.pBuffer + (n - 1) * a1.bucketSizeInBytes % 18446744073709551616
            + t * (16 * n)) =
          if t + 1 = PoolBucket.linkedCount (16 * n) a1.bucketSizeInBytes
          then TaggedIndex.Invalid
          else TaggedIndex.pack t ((t + 1) * (16 * n))) := by
  obtain ⟨hr1, hr2, hr3, hr4, _, _, _, hr8⟩ :=
    Allocator.reserveArena_spec malloc n B a h1 h2
  obtain ⟨a1, hrun, hbc, hbs, hpe, hpb, hbk, hbuckets, _, hlast⟩ :=
    Allocator.initBuckets_returns n 0 (Allocator.reserveArena malloc n B a)
      (by simp only [SMM_MAX_BUCKET_COUNT]; omega)
  simp only [Nat.zero_add, Nat.zero_le, true_and] at hrun hbuckets hlast
  rw [hr1] at hbc
  rw [hr2] at hbs
  rw [hr3] at hpb
  rw [hr4] at hpe
  rw [hr8] at hbk
  rw [hr2, hr3] at hbuckets hlast
  refine ⟨a1, ?_, hbc, hbs, hpb, ?_, ?_, ?_, ?_⟩
  · unfold Allocator.Init
    rw [if_neg (by omega), if_neg (by omega)]
    simp only [hr1]
    exact hrun
  · rw [hpe, hpb]
  · rw [hbk, hpb]
  · intro j hj
    rw [hbuckets j, if_pos hj, hbs, hpb]
  · intro t ht
    rw [hbs] at ht ⊢
    rw [hpb]
    exact hlast (by omega) t ht


/-! ## The claims about `Create` and `Init` -/

theorem PoolBucket.linkedCount_of_le (e B : Nat) (he : 0 < e) (hB : e ≤ B) :
    PoolBucket.linkedCount e B = B / e := by
  have : 1 ≤ B / e := (Nat.le_div_iff_mul_le he).mpr (by omega)
  unfold PoolBucket.linkedCount
  omega

/-- C1 (amended): on a slab of `B` bytes with `16 ≤ e ≤ B` whose element offsets all fit 32 bits
(`(k - 1) * e < 2 ^ 32`, `k = B / e`), `Create e` returns, the head is `{offset 0, tag 0}`, the walk
along the links from the head meets exactly the offsets `0, e, ..., (k - 1) * e` in this order, and
the last element holds the sentinel; and after `Init(1, 4096)` on an allocator that is not
initialized, the free list of bucket 0 has exactly `4096 / 16 = 256` elements. -/
theorem create_links_in_address_order (e B : Nat) (b : PoolBucket) (mem : Memory)
    (he : 16 ≤ e) (hB : e ≤ B) (hend : b.pBufferEnd = b.pData + B)
    (hfit : (B / e - 1) * e < 4294967296) :
    (∃ b1 mem1, PoolBucket.Create e b mem = some (b1, mem1) ∧
      b1.head = TaggedIndex.pack 0 0 ∧
      TaggedIndex.offset b1.head = 0 ∧ TaggedIndex.tag b1.head = 0 ∧
      b1.pData = b.pData ∧
      (∀ fuel, B / e < fuel →
        PoolBucket.freeListFrom mem1 b.pData fuel b1.head
          = some ((List.range (B / e)).map (fun i => i * e))) ∧
      mem1 (b.pData + (B / e - 1) * e) = TaggedIndex.Invalid) ∧
    (∀ (malloc : List BackingCall → Nat → Nat → Nat) (a : Allocator), a.bucketsCount = 0 →
      ∃ a1, Allocator.Init malloc 1 4096 a = some a1 ∧
        ∀ fuel, 256 < fuel →
          ∃ l, PoolBucket.freeListFrom a1.mem (a1.buckets 0).pData fuel (a1.buckets 0).head
              = some l ∧ l.length = 4096 / 16 ∧
            l = (List.range (4096 / 16)).map (fun i => i * 16)) := by
  constructor
  · obtain ⟨mem1, hcreate, hlinks, _⟩ := PoolBucket.Create_spec e B b mem (by omega) hend
    have hk := PoolBucket.linkedCount_of_le e B (by omega) hB
    rw [hk] at hlinks hcreate
    have hk1 : 1 ≤ B / e := (Nat.le_div_iff_mul_le (by omega)).mpr (by omega)
    have hoff0 : TaggedIndex.offset (TaggedIndex.pack 0 0) = 0 := by decide
    have htag0 : TaggedIndex.tag (TaggedIndex.pack 0 0) = 0 := by decide
    refine ⟨_, mem1, hcreate, rfl, hoff0, htag0, rfl, ?_, ?_⟩
    · intro fuel hfuel
      have := PoolBucket.freeListFrom_linkWord e b.pData (B / e) mem1 hlinks hfit (B / e) 0 fuel
        (by omega) hfuel (by omega)
      rw [List.range_eq_range']
      exact this
    · rw [hlinks (B / e - 1) (by omega), if_pos (by omega)]
  · intro malloc a h0
    obtain ⟨a1, hinit, _, hbs, _, _, _, hbuckets, _, hmem, _⟩ :=
      Allocator.Init_spec malloc 1 4096 a (by omega) (by omega) h0
        (fun j hj => by rw [show j = 0 by omega, Nat.zero_mul]; decide)
    have hS : a1.bucketSizeInBytes = 4096 := by rw [hbs]; decide
    have hk : PoolBucket.linkedCount 16 4096 = 256 := by decide
    refine ⟨a1, hinit, ?_⟩
    intro fuel hfuel
    have hb := hbuckets 0
    rw [if_pos (by omega)] at hb
    have hm := hmem 0 (by omega)
    simp only [hS, Nat.zero_mul, Nat.add_zero, Nat.zero_add, Nat.mul_one, hk] at hm hb
    have := PoolBucket.freeListFrom_linkWord 16 a1.pBuffer 256 a1.mem hm (by norm_num) 256 0 fuel
      (by omega) hfuel (by omega)
    refine ⟨(List.range' 0 256).map (fun i => i * 16), ?_, ?_, ?_⟩
    · rw [hb]
      exact this
    · simp
    · have hdiv : 4096 / 16 = 256 := by decide
      rw [hdiv, List.range_eq_range']

/-- C1, witness: a slab of 4096 bytes with elements of 16 bytes. -/
theorem create_links_in_address_order_witness :
    16 ≤ 16 ∧ 16 ≤ 4096 ∧ (4096 / 16 - 1) * 16 < 4294967296 ∧
    ∃ b1 mem1, PoolBucket.Create 16 PoolBucket.smallSlab (fun _ => 0) = some (b1, mem1) ∧
      PoolBucket.freeListFrom mem1 4096 257 b1.head
        = some ((List.range (4096 / 16)).map (fun i => i * 16)) := by
  refine ⟨by decide, by decide, by decide, ?_⟩
  obtain ⟨⟨b1, mem1, h1, _, _, _, _, h5, _⟩, _⟩ :=
    create_links_in_address_order 16 4096 PoolBucket.smallSlab (fun _ => 0) (by decide)
      (by decide) rfl (by decide)
  exact ⟨b1, mem1, h1, h5 257 (by decide)⟩

theorem List.getElem?_map_range (f : Nat → Nat) (K i : Nat) (h : i < K) :
    ((List.range K).map f)[i]? = some (f i) := by
  rw [List.getElem?_map, List.getElem?_range h]
  rfl

/-- C1, counterexample: on a slab of `2 ^ 32 + 16` bytes with 16-byte elements (`k = 2 ^ 28 + 1`)
`Create` returns, but the walk from the head never yields the offsets `0, 16, ..., (k - 1) * 16`:
the link written into element `2 ^ 28 - 1` carries the truncated offset 0. -/
theorem create_links_wrap_counterexample :
    ∃ b1 mem1, PoolBucket.Create 16 PoolBucket.bigSlab (fun _ => 0) = some (b1, mem1) ∧
      ∀ fuel, PoolBucket.freeListFrom mem1 PoolBucket.bigSlab.pData fuel b1.head
        ≠ some ((List.range (4294967312 / 16)).map (fun i => i * 16)) := by
  obtain ⟨mem1, hcreate, hlinks, _⟩ := PoolBucket.Create_spec 16 4294967312
    PoolBucket.bigSlab (fun _ => 0) (by decide) rfl
  have hk : PoolBucket.linkedCount 16 4294967312 = 268435457 := by decide
  rw [hk] at hlinks hcreate
  refine ⟨_, mem1, hcreate, ?_⟩
  intro fuel hwalk
  have hget := PoolBucket.freeListFrom_getElem mem1 PoolBucket.bigSlab.pData fuel _ _ hwalk
    268435456 (by rw [List.length_map, List.length_range]; decide)
  have hdiv : 4294967312 / 16 = 268435457 := by decide
  rw [hdiv, List.getElem?_map_range _ _ _ (by decide)] at hget
  have hword := PoolBucket.linkAt_linkWord 16 PoolBucket.bigSlab.pData 268435457 mem1 hlinks
    268435456 0 (by decide) (by intro j2 h; omega)
  have hhead : TaggedIndex.pack 0 0 = PoolBucket.linkWord 16 0 := rfl
  simp only [hhead, hword, PoolBucket.offset_linkWord, Option.some.injEq] at hget
  revert hget
  decide

/-- C2 (amended): for `1 ≤ n ≤ 64` and every requested size for which no bucket offset wraps
(`(n - 1) * S < 2 ^ 64`, with `S` the rounded size `Init` stores), `Init(n, B)` on an allocator
that is not initialized returns, and for every `i < n` bucket `i` is exactly what
`PoolBucket::Create` with element size `16 * (i + 1)` builds on the region
`[base + i * S, base + (i + 1) * S)`: the same bucket record (head, tag counter, bounds) and the
same memory on that region. -/
theorem init_builds_buckets_with_linear_sizes (malloc : List BackingCall → Nat → Nat → Nat)
    (n B : Nat) (a : Allocator) (h1 : 1 ≤ n) (h2 : n ≤ 64) (h0 : a.bucketsCount = 0)
    (hfit : (n - 1) * Allocator.roundedSize n B < 18446744073709551616) :
    ∃ a1, Allocator.Init malloc n B a = some a1 ∧
      ∀ i, i < n →
        ∃ memi,
          PoolBucket.Create (16 * (i + 1))
            { a.buckets i with
              pData := a1.pBuffer + i * a1.bucketSizeInBytes
              pBufferEnd := a1.pBuffer + i * a1.bucketSizeInBytes + a1.bucketSizeInBytes }
            a.mem = some (a1.buckets i, memi) ∧
          ∀ x, (x = a1.pBuffer + i * a1.bucketSizeInBytes ∨
              (a1.pBuffer + i * a1.bucketSizeInBytes ≤ x ∧
                x < a1.pBuffer + i * a1.bucketSizeInBytes + a1.bucketSizeInBytes)) →
            a1.mem x = memi x := by
  obtain ⟨a1, hinit, _, hbs, _, _, _, hbuckets, _, hmem, hrest⟩ :=
    Allocator.Init_spec malloc n B a h1 h2 h0 (Allocator.fit_of_last _ n hfit)
  have hS := (Allocator.roundedSize_spec n B h1 h2).1
  rw [← hbs] at hS
  refine ⟨a1, hinit, ?_⟩
  intro i hi
  obtain ⟨memi, hcreate, hlinks, hframe⟩ := PoolBucket.Create_spec (16 * (i + 1))
    a1.bucketSizeInBytes
    { a.buckets i with
      pData := a1.pBuffer + i * a1.bucketSizeInBytes
      pBufferEnd := a1.pBuffer + i * a1.bucketSizeInBytes + a1.bucketSizeInBytes }
    a.mem (by omega) rfl
  simp only at hlinks hframe
  refine ⟨memi, ?_, ?_⟩
  · rw [hcreate, hbuckets i, if_pos hi]
  · intro x hx
    by_cases hel : ∃ t, t < PoolBucket.linkedCount (16 * (i + 1)) a1.bucketSizeInBytes ∧
        x = a1.pBuffer + i * a1.bucketSizeInBytes + t * (16 * (i + 1))
    · obtain ⟨t, ht, rfl⟩ := hel
      rw [hmem i hi t ht, hlinks t ht]
    · have hne : ∀ t, t < PoolBucket.linkedCount (16 * (i + 1)) a1.bucketSizeInBytes →
          x ≠ a1.pBuffer + i * a1.bucketSizeInBytes + t * (16 * (i + 1)) :=
        fun t ht heq => hel ⟨t, ht, heq⟩
      rw [hframe x hne]
      have hbig : 16 * n ≤ a1.bucketSizeInBytes := by
        rcases hS with h | h
        · exfalso
          have h00 := hne 0 (PoolBucket.linkedCount_pos _ _)
          simp only [h, Nat.mul_zero, Nat.zero_mul, Nat.add_zero] at hx h00
          omega
        · exact h
      apply hrest x
      intro j hj t ht heq
      by_cases hji : j = i
      · subst hji
        exact hne t ht heq
      · have hin := PoolBucket.element_in_slab (16 * (j + 1)) a1.bucketSizeInBytes t
          (by omega) (by omega) ht
        have hexp : ∀ m : Nat, (m + 1) * a1.bucketSizeInBytes
            = m * a1.bucketSizeInBytes + a1.bucketSizeInBytes := fun m => by ring
        rcases Nat.lt_or_gt_of_ne hji with hlt | hgt
        · have hmul : (j + 1) * a1.bucketSizeInBytes ≤ i * a1.bucketSizeInBytes :=
            Nat.mul_le_mul_right _ hlt
          have := hexp j
          omega
        · have hmul : (i + 1) * a1.bucketSizeInBytes ≤ j * a1.bucketSizeInBytes :=
            Nat.mul_le_mul_right _ hgt
          have := hexp i
          omega

/-- C2, witness: `Init(4, 4096)` gives the element sizes 16, 32, 48, 64. -/
theorem init_builds_buckets_with_linear_sizes_witness :
    1 ≤ 4 ∧ 4 ≤ 64 ∧ (Allocator.ctor Allocator.blank).bucketsCount = 0 ∧
    (4 - 1) * Allocator.roundedSize 4 4096 < 18446744073709551616 ∧
    ∃ a1, Allocator.Init spacedMalloc 4 4096 (Allocator.ctor Allocator.blank) = some a1 ∧
      ∀ i, i < 4 → ∃ b memi, PoolBucket.Create (16 * (i + 1)) b
        (Allocator.ctor Allocator.blank).mem = some (a1.buckets i, memi) := by
  refine ⟨by decide, by decide, rfl, by decide, ?_⟩
  obtain ⟨a1, hinit, h⟩ := init_builds_buckets_with_linear_sizes spacedMalloc 4 4096
    (Allocator.ctor Allocator.blank) (by decide) (by decide) rfl (by decide)
  refine ⟨a1, hinit, fun i hi => ?_⟩
  obtain ⟨memi, hc, _⟩ := h i hi
  exact ⟨_, memi, hc⟩

/-- C3 (amended): for `1 ≤ n ≤ 64` and an arena size that does not wrap (`S * n < 2 ^ 64`), after
`Init(n, B)` with `S` the stored `bucketSizeInBytes` (the rounded size) and `base` the arena
start (the block the backing allocator returned for `S * n` bytes), bucket `i < n` owns exactly
`[base + i * S, base + (i + 1) * S)`; every address of the arena `[base, base + n * S)` lies in
the region of exactly one bucket; `bucketsDataBegin[i]` is `base + i * S` for `i < n` and null
for the other slots of the array. -/
theorem init_slices_arena_into_regions (malloc : List BackingCall → Nat → Nat → Nat)
    (n B : Nat) (a : Allocator) (h1 : 1 ≤ n) (h2 : n ≤ 64) (h0 : a.bucketsCount = 0)
    (hfit : Allocator.roundedSize n B * n < 18446744073709551616) :
    ∃ a1, Allocator.Init malloc n B a = some a1 ∧
      a1.bucketSizeInBytes = Align B (Allocator.alignmentFor n) ∧
      a1.pBuffer = malloc a.backing (a1.bucketSizeInBytes * n) (Allocator.alignmentFor n) ∧
      BackingCall.Alloc (a1.bucketSizeInBytes * n) (Allocator.alignmentFor n) a1.pBuffer
        ∈ a1.backing ∧
      (∀ i, i < n →
        (a1.buckets i).pData = a1.pBuffer + i * a1.bucketSizeInBytes ∧
        (a1.buckets i).pBufferEnd = a1.pBuffer + (i + 1) * a1.bucketSizeInBytes ∧
        (a1.buckets i).pBufferEnd - (a1.buckets i).pData = a1.bucketSizeInBytes) ∧
      (∀ i, i + 1 < n → (a1.buckets i).pBufferEnd = (a1.buckets (i + 1)).pData) ∧
      (∀ x, a1.pBuffer ≤ x → x < a1.pBuffer + n * a1.bucketSizeInBytes →
        ∃! i, i < n ∧ (a1.buckets i).pData ≤ x ∧ x < (a1.buckets i).pBufferEnd) ∧
      (∀ i, i < n → a1.bucketsDataBegin i = a1.pBuffer + i * a1.bucketSizeInBytes) ∧
      (∀ i, n ≤ i → i < SMM_MAX_BUCKET_COUNT → a1.bucketsDataBegin i = 0) := by
  obtain ⟨a1, hinit, _, hbs, hpb, _, hbk, hbuckets, hbegin, _, _⟩ :=
    Allocator.Init_spec malloc n B a h1 h2 h0 (Allocator.fit_of_total _ n hfit)
  rw [Allocator.totalBytesFor_of_fit n B hfit] at hpb hbk
  have hexp : ∀ m : Nat, (m + 1) * a1.bucketSizeInBytes
      = m * a1.bucketSizeInBytes + a1.bucketSizeInBytes := fun m => by ring
  have hreg : ∀ i, i < n →
      (a1.buckets i).pData = a1.pBuffer + i * a1.bucketSizeInBytes ∧
      (a1.buckets i).pBufferEnd = a1.pBuffer + (i + 1) * a1.bucketSizeInBytes := by
    intro i hi
    rw [hbuckets i, if_pos hi, hexp i]
    exact ⟨rfl, by simp only [Nat.add_assoc]⟩
  refine ⟨a1, hinit, hbs, ?_, ?_, ?_, ?_, ?_, ?_, ?_⟩
  · rw [hbs]; exact hpb
  · rw [hbk, hbs]
    simp
  · intro i hi
    obtain ⟨hd, he⟩ := hreg i hi
    refine ⟨hd, he, ?_⟩
    rw [hd, he, hexp i]
    omega
  · intro i hi
    rw [(hreg i (by omega)).2, (hreg (i + 1) hi).1]
  · intro x hlo hhi
    have hSpos : 0 < a1.bucketSizeInBytes := by
      rcases Nat.eq_zero_or_pos a1.bucketSizeInBytes with h | h
      · rw [h] at hhi; omega
      · exact h
    refine ⟨(x - a1.pBuffer) / a1.bucketSizeInBytes, ⟨?_, ?_, ?_⟩, ?_⟩
    · rw [Nat.div_lt_iff_lt_mul hSpos]; omega
    · have hq : (x - a1.pBuffer) / a1.bucketSizeInBytes < n := by
        rw [Nat.div_lt_iff_lt_mul hSpos]; omega
      rw [(hreg _ hq).1]
      have := Nat.div_mul_le_self (x - a1.pBuffer) a1.bucketSizeInBytes
      omega
    · have hq : (x - a1.pBuffer) / a1.bucketSizeInBytes < n := by
        rw [Nat.div_lt_iff_lt_mul hSpos]; omega
      rw [(hreg _ hq).2]
      have := Nat.lt_div_mul_add (a := x - a1.pBuffer) hSpos
      have := hexp ((x - a1.pBuffer) / a1.bucketSizeInBytes)
      omega
    · rintro i2 ⟨hi2, hlo2, hhi2⟩
      rw [(hreg i2 hi2).1] at hlo2
      rw [(hreg i2 hi2).2] at hhi2
      symm
      apply Nat.div_eq_of_lt_le
      · omega
      · show x - a1.pBuffer < (i2 + 1) * a1.bucketSizeInBytes
        omega
  · intro i hi
    rw [hbegin i, if_pos hi]
  · intro i hni hi
    rw [hbegin i, if_neg (by omega), if_pos hi]

/-- C3, witness: `Init(4, 4096)` on a fresh allocator. -/
theorem init_slices_arena_into_regions_witness :
    1 ≤ 4 ∧ 4 ≤ 64 ∧ (Allocator.ctor Allocator.blank).bucketsCount = 0 ∧
    Allocator.roundedSize 4 4096 * 4 < 18446744073709551616 ∧
    ∃ a1, Allocator.Init spacedMalloc 4 4096 (Allocator.ctor Allocator.blank) = some a1 ∧
      a1.bucketSizeInBytes = 4096 ∧ a1.pBuffer = 1048576 ∧
      (a1.buckets 3).pData = 1048576 + 3 * 4096 := by
  refine ⟨by decide, by decide, rfl, by decide, ?_⟩
  obtain ⟨a1, hinit, hS, hbase, _, hreg, _⟩ := init_slices_arena_into_regions spacedMalloc 4 4096
    (Allocator.ctor Allocator.blank) (by decide) (by decide) rfl (by decide)
  have hS4 : a1.bucketSizeInBytes = 4096 := by rw [hS]; decide
  have hb4 : a1.pBuffer = 1048576 := by rw [hbase]; rfl
  refine ⟨a1, hinit, hS4, hb4, ?_⟩
  rw [(hreg 3 (by decide)).1, hS4, hb4]

/-- C4: on an allocator that is initialized already (`bucketsCount > 0`), `Init` with any
arguments returns with the whole state unchanged: the fields, every bucket, the memory and the
log of backing calls (so no backing allocation is made). -/
theorem init_is_idempotent (malloc : List BackingCall → Nat → Nat → Nat) (n B : Nat)
    (a : Allocator) (h : 0 < a.bucketsCount) : Allocator.Init malloc n B a = some a := by
  unfold Allocator.Init
  rw [if_pos h]

/-- C4, witness: a second `Init` after `Init(4, 4096)` changes nothing. -/
theorem init_is_idempotent_witness :
    ∃ a1, Allocator.Init spacedMalloc 4 4096 (Allocator.ctor Allocator.blank) = some a1 ∧
      0 < a1.bucketsCount ∧ Allocator.Init spacedMalloc 7 100 a1 = some a1 := by
  obtain ⟨a1, hinit, hbc, _⟩ := Allocator.Init_spec spacedMalloc 4 4096
    (Allocator.ctor Allocator.blank) (by decide) (by decide) rfl Allocator.fit_4096
  have hpos : 0 < a1.bucketsCount := by omega
  exact ⟨a1, hinit, hpos, init_is_idempotent spacedMalloc 7 100 a1 hpos⟩

theorem Allocator.initBuckets_overflow :
    ∀ (r i es : Nat) (a : Allocator), i ≤ SMM_MAX_BUCKET_COUNT → SMM_MAX_BUCKET_COUNT < i + r →
      Allocator.initBuckets r i es a = none := by
  intro r
  induction r with
  | zero => intro i es a h1 h2; omega
  | succ r ih =>
    intro i es a h1 h2
    rw [Allocator.initBuckets]
    by_cases hi : i < SMM_MAX_BUCKET_COUNT
    · rw [if_pos hi]
      simp only
      split
      · rfl
      · exact ih _ _ _ (by omega) (by omega)
    · rw [if_neg hi]

theorem Allocator.reserveArena_bucketsCount (malloc : List BackingCall → Nat → Nat → Nat)
    (n B : Nat) (a : Allocator) : (Allocator.reserveArena malloc n B a).bucketsCount = n := by
  unfold Allocator.reserveArena Allocator.resetBuffer GenericAllocator.Alloc GenericAllocator.Free
  simp only
  split <;> rfl

/-- With more than 64 buckets requested, `Init` on an allocator that is not initialized runs into
the end of the bucket array instead of returning. -/
theorem Allocator.Init_overflow (malloc : List BackingCall → Nat → Nat → Nat) (n B : Nat)
    (a : Allocator) (h0 : a.bucketsCount = 0) (hn : 64 < n) :
    Allocator.Init malloc n B a = none := by
  unfold Allocator.Init
  rw [if_neg (by omega), if_neg (by omega)]
  simp only [Allocator.reserveArena_bucketsCount]
  exact Allocator.initBuckets_overflow n 0 16 _ (by simp [SMM_MAX_BUCKET_COUNT])
    (by simp only [SMM_MAX_BUCKET_COUNT]; omega)

/-- C5, the code at the failing input: on a fresh allocator `Init(0, B)` returns with the state
unchanged, but `Init(65, B)` does not: it takes the count, reserves the arena, links 64 buckets
and then indexes `buckets[64]`, past the end of the array. -/
theorem init_with_65_buckets_is_not_a_noop (malloc : List BackingCall → Nat → Nat → Nat)
    (B : Nat) (a : Allocator) :
    Allocator.Init malloc 0 B (Allocator.ctor a) = some (Allocator.ctor a) ∧
    Allocator.Init malloc 65 B (Allocator.ctor a) = none ∧
    (Allocator.reserveArena malloc 65 B (Allocator.ctor a)).bucketsCount = 65 ∧
    (Allocator.reserveArena malloc 65 B (Allocator.ctor a)).backing ≠ (Allocator.ctor a).backing := by
  refine ⟨?_, Allocator.Init_overflow malloc 65 B _ rfl (by decide),
    Allocator.reserveArena_bucketsCount _ _ _ _, ?_⟩
  · unfold Allocator.Init
    rw [if_neg (by simp [Allocator.ctor])]
    rfl
  · unfold Allocator.reserveArena Allocator.resetBuffer GenericAllocator.Alloc Allocator.ctor
    simp

/-- C9: for every 32-bit `n` with `1 ≤ n ≤ 2 ^ 30`, `GetNextPow2 n` is a power of two `p` with
`n ≤ p < 2 * n`, hence the least power of two that is at least `n`, and the cascade sets every bit
below a set bit of `n - 1`; for a bucket count `1 ≤ n ≤ 64` the alignment `Init` computes from
`16 * n` is the least power of two that is at least `16 * n`. -/
theorem getNextPow2_least_power_of_two (n : Nat) (h1 : 1 ≤ n) (h2 : n ≤ 1073741824) :
    (∃ L, GetNextPow2 n = ((2 ^ L : Nat) : Int) ∧ n ≤ 2 ^ L ∧ 2 ^ L < 2 * n ∧
      ∀ L2, n ≤ 2 ^ L2 → 2 ^ L ≤ 2 ^ L2) ∧
    (∀ t i, (n - 1).testBit t = true → i ≤ t → (orShiftCascade (n - 1)).testBit i = true) ∧
    (n ≤ 64 →
      ∃ L, toSizeT (GetNextPow2 ((16 * n) % 4294967296)) = 2 ^ L ∧ 16 * n ≤ 2 ^ L ∧
        ∀ L2, 16 * n ≤ 2 ^ L2 → 2 ^ L ≤ 2 ^ L2) := by
  have least : ∀ m L : Nat, m ≤ 2 ^ L → 2 ^ L < 2 * m → ∀ L2, m ≤ 2 ^ L2 → 2 ^ L ≤ 2 ^ L2 := by
    intro m L _ hhi L2 hL2
    by_contra hc
    have hlt : L2 < L := by
      by_contra hle
      exact hc (Nat.pow_le_pow_right (by norm_num) (by omega))
    have hstep : 2 ^ (L2 + 1) ≤ 2 ^ L := Nat.pow_le_pow_right (by norm_num) hlt
    rw [pow_succ] at hstep
    omega
  refine ⟨?_, ?_, ?_⟩
  · obtain ⟨L, hL, hlo, hhi⟩ := GetNextPow2_pow n h1 h2
    exact ⟨L, hL, hlo, hhi, least n L hlo hhi⟩
  · intro t i hb hit
    rw [orShiftCascade_testBit]
    have ht : t < 32 := by
      by_contra hc
      have hge : 2 ^ t ≤ n - 1 := Nat.testBit_implies_ge hb
      have : 2 ^ 32 ≤ 2 ^ t := Nat.pow_le_pow_right (by norm_num) (by omega)
      omega
    refine ⟨t - i, by omega, ?_⟩
    rw [← hb]; congr 1; omega
  · intro h64
    obtain ⟨L, hL, hlo, hhi⟩ := alignmentMax_pow n h1 h64
    exact ⟨L, hL, hlo, least (16 * n) L hlo hhi⟩

/-- C9, witness: three buckets, `GetNextPow2 48 = 64`. -/
theorem getNextPow2_least_power_of_two_witness :
    1 ≤ 3 ∧ 3 ≤ 1073741824 ∧ GetNextPow2 (16 * 3) = 64 ∧
    ∃ L, GetNextPow2 3 = ((2 ^ L : Nat) : Int) ∧ 3 ≤ 2 ^ L ∧ 2 ^ L < 2 * 3 := by
  refine ⟨by decide, by decide, by decide, ?_⟩
  obtain ⟨⟨L, h, hlo, hhi, _⟩, _⟩ := getNextPow2_least_power_of_two 3 (by decide) (by decide)
  exact ⟨L, h, hlo, hhi⟩

/-- C10 (amended): on a slab with `e ≥ 16` and `1 ≤ k = B / e ≤ 2 ^ 32`, `Create e` returns and
the link written into element `j` (`0 ≤ j ≤ k - 2`) carries tag `j` and the offset
`(j + 1) * e` truncated to 32 bits (so `(j + 1) * e` itself when that is below `2 ^ 32`); the
tags are strictly increasing along the chain, the non-sentinel links are pairwise distinct
words, and they differ from the head word unless `e` is a multiple of `2 ^ 32`. -/
theorem create_link_tags_increase (e B : Nat) (b : PoolBucket) (mem : Memory)
    (he : 16 ≤ e) (hend : b.pBufferEnd = b.pData + B) (hk1 : 1 ≤ B / e)
    (hk2 : B / e ≤ 4294967296) :
    ∃ b1 mem1, PoolBucket.Create e b mem = some (b1, mem1) ∧
      (∀ j, j + 2 ≤ B / e →
        TaggedIndex.tag (mem1 (b.pData + j * e)) = j ∧
        TaggedIndex.offset (mem1 (b.pData + j * e)) = ((j + 1) * e) % 4294967296 ∧
        mem1 (b.pData + j * e) ≠ TaggedIndex.Invalid) ∧
      (∀ j, j + 2 ≤ B / e → (j + 1) * e < 4294967296 →
        TaggedIndex.offset (mem1 (b.pData + j * e)) = (j + 1) * e) ∧
      (∀ j1 j2, j1 < j2 → j2 + 2 ≤ B / e →
        TaggedIndex.tag (mem1 (b.pData + j1 * e)) < TaggedIndex.tag (mem1 (b.pData + j2 * e))) ∧
      (∀ j1 j2, j1 + 2 ≤ B / e → j2 + 2 ≤ B / e →
        mem1 (b.pData + j1 * e) = mem1 (b.pData + j2 * e) → j1 = j2) ∧
      (e % 4294967296 ≠ 0 → ∀ j, j + 2 ≤ B / e → mem1 (b.pData + j * e) ≠ b1.head) := by
  have hB : e ≤ B := by
    have := (Nat.le_div_iff_mul_le (by omega : 0 < e)).mp hk1
    omega
  obtain ⟨mem1, hcreate, hlinks, _⟩ := PoolBucket.Create_spec e B b mem (by omega) hend
  rw [PoolBucket.linkedCount_of_le e B (by omega) hB] at hlinks hcreate
  have hlink : ∀ j, j + 2 ≤ B / e →
      mem1 (b.pData + j * e) = TaggedIndex.pack j ((j + 1) * e) := by
    intro j hj
    rw [hlinks j (by omega), if_neg (by omega)]
  have htag : ∀ j, j + 2 ≤ B / e → TaggedIndex.tag (mem1 (b.pData + j * e)) = j := by
    intro j hj
    rw [hlink j hj, TaggedIndex.tag_pack, Nat.mod_eq_of_lt (by omega)]
  have hoff : ∀ j, j + 2 ≤ B / e →
      TaggedIndex.offset (mem1 (b.pData + j * e)) = ((j + 1) * e) % 4294967296 := by
    intro j hj
    rw [hlink j hj, TaggedIndex.offset_pack]
  refine ⟨_, mem1, hcreate, ?_, ?_, ?_, ?_, ?_⟩
  · intro j hj
    refine ⟨htag j hj, hoff j hj, ?_⟩
    rw [hlink j hj]
    exact TaggedIndex.pack_ne_Invalid j e
  · intro j hj hfit
    rw [hoff j hj, Nat.mod_eq_of_lt hfit]
  · intro j1 j2 h12 hj2
    rw [htag j1 (by omega), htag j2 hj2]
    exact h12
  · intro j1 j2 hj1 hj2 heq
    have := congrArg TaggedIndex.tag heq
    rwa [htag j1 hj1, htag j2 hj2] at this
  · intro hne j hj heq
    have h1 := congrArg TaggedIndex.tag heq
    have h2 := congrArg TaggedIndex.offset heq
    rw [htag j hj] at h1
    rw [hoff j hj] at h2
    have ht0 : TaggedIndex.tag (TaggedIndex.pack 0 0) = 0 := by decide
    have ho0 : TaggedIndex.offset (TaggedIndex.pack 0 0) = 0 := by decide
    simp only [ht0, ho0] at h1 h2
    subst h1
    simp only [Nat.zero_add, Nat.one_mul] at h2
    exact hne h2

/-- With an element size of `2 ^ 32` the first link is the same word as the head: both carry
tag 0 and the truncated offset 0. -/
theorem PoolBucket.create_first_link_eq_head (pData : Nat) (mem : Memory) :
    ∃ b1 mem1,
      PoolBucket.Create 4294967296
        { head := 0, globalTag := 0, pData := pData, pBufferEnd := pData + 8589934592 } mem
        = some (b1, mem1) ∧ mem1 (pData + 0 * 4294967296) = b1.head := by
  obtain ⟨mem1, hcreate, hlinks, _⟩ := PoolBucket.Create_spec 4294967296 8589934592
    { head := 0, globalTag := 0, pData := pData, pBufferEnd := pData + 8589934592 } mem
    (by decide) rfl
  have hk : PoolBucket.linkedCount 4294967296 8589934592 = 2 := by decide
  rw [hk] at hlinks hcreate
  refine ⟨_, mem1, hcreate, ?_⟩
  rw [hlinks 0 (by decide), if_neg (by decide)]
  show TaggedIndex.pack 0 ((0 + 1) * 4294967296) = TaggedIndex.pack 0 0
  decide

/-- C10, witness: a slab of 4096 bytes with elements of 16 bytes. -/
theorem create_link_tags_increase_witness :
    16 ≤ 16 ∧ 1 ≤ 4096 / 16 ∧ 4096 / 16 ≤ 4294967296 ∧
    ∃ b1 mem1, PoolBucket.Create 16 PoolBucket.smallSlab (fun _ => 0) = some (b1, mem1) ∧
      TaggedIndex.tag (mem1 (4096 + 7 * 16)) = 7 ∧
      TaggedIndex.offset (mem1 (4096 + 7 * 16)) = 8 * 16 := by
  refine ⟨by decide, by decide, by decide, ?_⟩
  obtain ⟨b1, mem1, h1, h2, h3, _⟩ := create_link_tags_increase 16 4096 PoolBucket.smallSlab
    (fun _ => 0) (by decide) rfl (by decide) (by decide)
  exact ⟨b1, mem1, h1, (h2 7 (by decide)).1, h3 7 (by decide) (by decide)⟩

/-- C10, counterexample: on a slab of `2 ^ 32 + 16` bytes with 16-byte elements
(`k = 2 ^ 28 + 1 ≤ 2 ^ 32`) the link written into element `j = 2 ^ 28 - 1 ≤ k - 2` carries the
offset 0, not `(j + 1) * 16 = 2 ^ 32`. -/
theorem create_link_offset_counterexample :
    ∃ b1 mem1, PoolBucket.Create 16 PoolBucket.bigSlab (fun _ => 0) = some (b1, mem1) ∧
      1 ≤ 4294967312 / 16 ∧ 4294967312 / 16 ≤ 4294967296 ∧ 268435455 + 2 ≤ 4294967312 / 16 ∧
      TaggedIndex.tag (mem1 (PoolBucket.bigSlab.pData + 268435455 * 16)) = 268435455 ∧
      TaggedIndex.offset (mem1 (PoolBucket.bigSlab.pData + 268435455 * 16)) = 0 ∧
      TaggedIndex.offset (mem1 (PoolBucket.bigSlab.pData + 268435455 * 16))
        ≠ (268435455 + 1) * 16 := by
  obtain ⟨mem1, hcreate, hlinks, _⟩ := PoolBucket.Create_spec 16 4294967312
    PoolBucket.bigSlab (fun _ => 0) (by decide) rfl
  have hk : PoolBucket.linkedCount 16 4294967312 = 268435457 := by decide
  rw [hk] at hlinks hcreate
  have hl := hlinks 268435455 (by decide)
  rw [if_neg (by decide)] at hl
  refine ⟨_, mem1, hcreate, by decide, by decide, by decide, ?_, ?_, ?_⟩
  · rw [hl]; decide
  · rw [hl]; decide
  · rw [hl]; decide

/-! ## The thread cache -/

theorem TlsPoolBucket.Destroy_fst (H : Header) (self : Nat) (th : Thread) :
    (TlsPoolBucket.Destroy H self th).1 = (th.tlsCacheBuckets self).pStorageL1 := rfl

theorem TlsPoolBucket.Destroy_backing (H : Header) (self : Nat) (th : Thread) :
    (TlsPoolBucket.Destroy H self th).2.allocator.backing = th.allocator.backing := rfl

theorem TlsPoolBucket.Destroy_slots (H : Header) (self : Nat) (th : Thread) :
    (TlsPoolBucket.Destroy H self th).2.tlsCacheBuckets =
      Function.update th.tlsCacheBuckets self
        { pBucketData := 0, pStorageL1 := 0, pBucket := none
          storageL0 := (th.tlsCacheBuckets self).storageL0
          maxElementsCount := 0, numElementsL1 := 0, numElementsL0 := 0 } := rfl

theorem TlsPoolBucket.Destroy_zeroes (H : Header) (self : Nat) (th : Thread) :
    TlsPoolBucket.IsZeroed ((TlsPoolBucket.Destroy H self th).2.tlsCacheBuckets self) := by
  rw [TlsPoolBucket.Destroy_slots, Function.update_same]
  exact ⟨rfl, rfl, rfl, rfl, rfl, rfl⟩

/-- On a zeroed slot `Destroy` neither folds nor flushes: the state is returned as it was. -/
theorem TlsPoolBucket.Destroy_of_zeroed (H : Header) (self : Nat) (th : Thread)
    (hz : TlsPoolBucket.IsZeroed (th.tlsCacheBuckets self)) :
    TlsPoolBucket.Destroy H self th = (0, th) := by
  obtain ⟨h1, h2, h3, h4, h5, h6⟩ := hz
  have hslot : th.tlsCacheBuckets self =
      { pBucketData := 0, pStorageL1 := 0, pBucket := none
        storageL0 := (th.tlsCacheBuckets self).storageL0
        maxElementsCount := 0, numElementsL1 := 0, numElementsL0 := 0 } := by
    cases hs : th.tlsCacheBuckets self
    rw [hs] at h1 h2 h3 h4 h5 h6
    simp only at h1 h2 h3 h4 h5 h6
    subst h1 h2 h3 h4 h5 h6
    rfl
  apply Prod.ext
  · rw [TlsPoolBucket.Destroy_fst, h1]
  · have hT : (TlsPoolBucket.Destroy H self th).2.tlsCacheBuckets = th.tlsCacheBuckets := by
      rw [TlsPoolBucket.Destroy_slots, ← hslot, Function.update_eq_self]
    have hA : (TlsPoolBucket.Destroy H self th).2.allocator = th.allocator := by
      unfold TlsPoolBucket.Destroy
      simp only [h4, h5, TlsPoolBucket.foldL0, lt_self_iff_false, if_false, gt_iff_lt]
    cases th
    simp only at hT hA
    cases hd : (TlsPoolBucket.Destroy H self _).2
    rw [hd] at hT hA
    simp only at hT hA
    subst hT hA
    rfl

/-- C7: for every state of a cache slot, `Destroy` returns the value `pStorageL1` had on entry and
leaves the slot zeroed (the three pointers null, the three counters zero); on a slot that is
zeroed already it changes nothing, whatever `ReturnL1CacheToMaster` would do if called, and
returns null; so a second `Destroy` returns null and changes nothing. -/
theorem destroy_returns_buffer_and_zeroes (H : Header) (self : Nat) (th : Thread) :
    (TlsPoolBucket.Destroy H self th).1 = (th.tlsCacheBuckets self).pStorageL1 ∧
    TlsPoolBucket.IsZeroed ((TlsPoolBucket.Destroy H self th).2.tlsCacheBuckets self) ∧
    (TlsPoolBucket.IsZeroed (th.tlsCacheBuckets self) →
      ∀ H2 : Header, TlsPoolBucket.Destroy H2 self th = (0, th)) ∧
    TlsPoolBucket.Destroy H self (TlsPoolBucket.Destroy H self th).2
      = (0, (TlsPoolBucket.Destroy H self th).2) :=
  ⟨TlsPoolBucket.Destroy_fst H self th, TlsPoolBucket.Destroy_zeroes H self th,
    fun hz H2 => TlsPoolBucket.Destroy_of_zeroed H2 self th hz,
    TlsPoolBucket.Destroy_of_zeroed H self _ (TlsPoolBucket.Destroy_zeroes H self th)⟩

/-- C7, a concrete run: the slot with buffer 8192 returns 8192, then null. -/
theorem destroy_returns_buffer_and_zeroes_witness :
    (TlsPoolBucket.Destroy Header.exhausted 3 Thread.cached).1 = 8192 ∧
    (TlsPoolBucket.Destroy Header.exhausted 3
      (TlsPoolBucket.Destroy Header.exhausted 3 Thread.cached).2).1 = 0 := by
  obtain ⟨h1, _, _, h4⟩ := destroy_returns_buffer_and_zeroes Header.exhausted 3 Thread.cached
  refine ⟨?_, ?_⟩
  · rw [h1]; rfl
  · rw [h4]

/-- The loop of `DestroyThreadCache` over the slots `i, ..., i + r - 1` inside the array. -/
theorem Allocator.destroyThreadCacheLoop_spec (H : Header) :
    ∀ (r i : Nat) (th : Thread), i + r ≤ SMM_MAX_BUCKET_COUNT →
      ∃ th1, Allocator.destroyThreadCacheLoop H r i th = some th1 ∧
        (∀ j, i ≤ j → j < i + r → TlsPoolBucket.IsZeroed (th1.tlsCacheBuckets j)) ∧
        (∀ j, ¬ (i ≤ j ∧ j < i + r) → th1.tlsCacheBuckets j = th.tlsCacheBuckets j) ∧
        th1.allocator.backing = th.allocator.backing ++
          (List.range' i r).map (fun j => BackingCall.Free (th.tlsCacheBuckets j).pStorageL1) := by
  intro r
  induction r with
  | zero =>
    intro i th _
    exact ⟨th, rfl, fun j h1 h2 => by omega, fun j _ => rfl, by simp⟩
  | succ r ih =>
    intro i th hi
    have hget : GetTlsBucket i = some i := by
      unfold GetTlsBucket
      rw [if_pos (by omega)]
    obtain ⟨th1, hrun, hz, hother, hlog⟩ := ih (i + 1)
      { (TlsPoolBucket.Destroy H i th).2 with
        allocator := GenericAllocator.Free (TlsPoolBucket.Destroy H i th).1
          (TlsPoolBucket.Destroy H i th).2.allocator } (by omega)
    simp only at hz hother hlog
    refine ⟨th1, ?_, ?_, ?_, ?_⟩
    · rw [Allocator.destroyThreadCacheLoop, hget]
      exact hrun
    · intro j h1 h2
      by_cases hj : j = i
      · subst hj
        rw [hother j (by omega)]
        exact TlsPoolBucket.Destroy_zeroes H j th
      · exact hz j (by omega) (by omega)
    · intro j hj
      rw [hother j (by omega), TlsPoolBucket.Destroy_slots, Function.update_noteq (by omega)]
    · rw [hlog]
      simp only [GenericAllocator.Free, TlsPoolBucket.Destroy_backing, TlsPoolBucket.Destroy_fst,
        List.range'_succ, List.map_cons, List.append_assoc, List.singleton_append]
      congr 2
      apply List.map_congr_left
      intro j hj
      rw [List.mem_range'_1] at hj
      rw [TlsPoolBucket.Destroy_slots, Function.update_noteq (by omega)]

/-- C8: for every allocator and every state of the thread's cache array, `DestroyThreadCache`
returns; it destroys each of the `SMM_MAX_BUCKET_COUNT` slots once, in index order, handing the
buffer each slot held on entry to the backing `Free` (the log grows by exactly these 64 calls);
afterwards every slot of the array is zeroed. -/
theorem destroyThreadCache_visits_every_slot (H : Header) (th : Thread) :
    ∃ th1, Allocator.DestroyThreadCache H th = some th1 ∧
      (∀ i, i < SMM_MAX_BUCKET_COUNT → TlsPoolBucket.IsZeroed (th1.tlsCacheBuckets i)) ∧
      th1.allocator.backing = th.allocator.backing ++
        (List.range SMM_MAX_BUCKET_COUNT).map
          (fun i => BackingCall.Free (th.tlsCacheBuckets i).pStorageL1) := by
  obtain ⟨th1, hrun, hz, _, hlog⟩ :=
    Allocator.destroyThreadCacheLoop_spec H SMM_MAX_BUCKET_COUNT 0 th (by omega)
  refine ⟨th1, hrun, fun i hi => hz i (Nat.zero_le _) (by omega), ?_⟩
  rw [hlog, List.range_eq_range']

/-- The method `TlsPoolBucket::Init` with `CACHE_COLD` on a bucket that exists: only the slot changes. -/
theorem TlsPoolBucket.Init_cold (H : Header) (self p m bi b : Nat) (th : Thread)
    (hb : H.GetBucketByIndex th bi = some b) :
    ∃ t, TlsPoolBucket.Init H self p m CacheWarmupOptions.CACHE_COLD bi th
        = some { th with tlsCacheBuckets := Function.update th.tlsCacheBuckets self t } ∧
      t.pStorageL1 = p ∧ t.pBucket = some b ∧
      t.maxElementsCount
        = (m % 4294967296 + 4294967296 - H.SMM_MAX_CACHE_ITEMS_COUNT % 4294967296) % 4294967296 := by
  unfold TlsPoolBucket.Init
  simp only [hb, if_true]
  exact ⟨_, rfl, rfl, rfl, rfl⟩

/-- The loop of `CreateThreadCache` with `CACHE_COLD`, started at an even index: it finishes and
never touches a slot with an odd index. -/
theorem Allocator.createThreadCacheLoop_cold (H : Header)
    (malloc : List BackingCall → Nat → Nat → Nat) (cacheSize : Nat)
    (hB : ∀ (th : Thread) (i : Nat), i < th.allocator.bucketsCount →
      H.GetBucketByIndex th i = some i) :
    ∀ (fuel i : Nat) (th : Thread), i % 2 = 0 → th.allocator.bucketsCount ≤ i + fuel →
      th.allocator.bucketsCount ≤ SMM_MAX_BUCKET_COUNT →
      ∃ th1, Allocator.createThreadCacheLoop H malloc CacheWarmupOptions.CACHE_COLD cacheSize
          fuel i th = some th1 ∧
        th1.allocator.bucketsCount = th.allocator.bucketsCount ∧
        (∀ j, j % 2 = 1 → th1.tlsCacheBuckets j = th.tlsCacheBuckets j) ∧
        (∀ j, j < i → th1.tlsCacheBuckets j = th.tlsCacheBuckets j) ∧
        (∀ j, i ≤ j → j % 2 = 0 → j < th.allocator.bucketsCount →
          (th1.tlsCacheBuckets j).pBucket = some j) := by
  intro fuel
  induction fuel with
  | zero =>
    intro i th _ hn _
    refine ⟨th, ?_, rfl, fun j _ => rfl, fun j _ => rfl, fun j h1 _ h3 => by omega⟩
    rw [Allocator.createThreadCacheLoop, if_neg (by omega)]
  | succ fuel ih =>
    intro i th hi hn h64
    by_cases hlt : i < th.allocator.bucketsCount
    · have hget : GetTlsBucket i = some i := by
        unfold GetTlsBucket
        rw [if_pos (by omega)]
      obtain ⟨t, hinit, _, htb, _⟩ := TlsPoolBucket.Init_cold H i
        (GenericAllocator.Alloc malloc
          ((cacheSize + H.SMM_MAX_CACHE_ITEMS_COUNT) % 4294967296 * 4) 64 th.allocator).1
        ((cacheSize + H.SMM_MAX_CACHE_ITEMS_COUNT) % 4294967296) i i
        { th with allocator := (GenericAllocator.Alloc malloc
          ((cacheSize + H.SMM_MAX_CACHE_ITEMS_COUNT) % 4294967296 * 4) 64 th.allocator).2 }
        (hB _ i hlt)
      obtain ⟨th1, hrun, hbc, hodd, hlow, heven⟩ := ih (i + 1 + 1)
        { allocator := (GenericAllocator.Alloc malloc
            ((cacheSize + H.SMM_MAX_CACHE_ITEMS_COUNT) % 4294967296 * 4) 64 th.allocator).2
          tlsCacheBuckets := Function.update th.tlsCacheBuckets i t } (by omega)
        (by show th.allocator.bucketsCount ≤ _; omega)
        (by show th.allocator.bucketsCount ≤ _; exact h64)
      refine ⟨th1, ?_, ?_, ?_, ?_, ?_⟩
      · rw [Allocator.createThreadCacheLoop, if_pos hlt]
        simp only [hget, hinit]
        exact hrun
      · rw [hbc]; rfl
      · intro j hj
        rw [hodd j hj]
        exact Function.update_noteq (by omega) _ _
      · intro j hj
        rw [hlow j (by omega)]
        exact Function.update_noteq (by omega) _ _
      · intro j h1 h2 h3
        by_cases hji : j = i
        · subst hji
          rw [hlow j (by omega)]
          show (Function.update th.tlsCacheBuckets j t j).pBucket = some j
          rw [Function.update_same]
          exact htb
        · exact heven j (by omega) h2 h3
    · refine ⟨th, ?_, rfl, fun j _ => rfl, fun j _ => rfl, fun j h1 _ h3 => by omega⟩
      rw [Allocator.createThreadCacheLoop, if_neg hlt]

/-- C6, the code at the failing input: with two or more buckets configured (at most 64) and
`GetBucketByIndex` yielding bucket `i` for `i < bucketsCount`, `CreateThreadCache(CACHE_COLD, _)`
returns and leaves every cache slot with an odd index as it was: slot 1 of a thread whose slots
are zeroed stays zeroed (no bucket bound, no L1 buffer, `maxElementsCount = 0`), although
bucket 1 is configured. The loop body's own `i++` makes the loop skip every second bucket. -/
theorem createThreadCache_skips_odd_buckets (H : Header)
    (malloc : List BackingCall → Nat → Nat → Nat) (cacheSize : Nat) (th : Thread)
    (hB : ∀ (th : Thread) (i : Nat), i < th.allocator.bucketsCount →
      H.GetBucketByIndex th i = some i)
    (h2 : 2 ≤ th.allocator.bucketsCount) (h64 : th.allocator.bucketsCount ≤ 64) :
    ∃ th1, Allocator.CreateThreadCache H malloc CacheWarmupOptions.CACHE_COLD cacheSize th
        = some th1 ∧
      th1.allocator.bucketsCount = th.allocator.bucketsCount ∧
      (∀ i, i % 2 = 1 → th1.tlsCacheBuckets i = th.tlsCacheBuckets i) ∧
      (∀ i, i % 2 = 0 → i < th.allocator.bucketsCount →
        (th1.tlsCacheBuckets i).pBucket = some i) ∧
      (TlsPoolBucket.IsZeroed (th.tlsCacheBuckets 1) →
        1 < th1.allocator.bucketsCount ∧ (th1.tlsCacheBuckets 1).pBucket = none ∧
        (th1.tlsCacheBuckets 1).pStorageL1 = 0 ∧ (th1.tlsCacheBuckets 1).maxElementsCount = 0) := by
  obtain ⟨th1, hrun, hbc, hodd, _, heven⟩ := Allocator.createThreadCacheLoop_cold H malloc
    cacheSize hB th.allocator.bucketsCount 0 th rfl (by omega) h64
  refine ⟨th1, hrun, hbc, hodd, fun i h1 h2 => heven i (Nat.zero_le _) h1 h2, ?_⟩
  intro hz
  rw [hodd 1 rfl, hbc]
  exact ⟨by omega, hz.2.1, hz.1, hz.2.2.2.2.2⟩

/-- C6, witness: two buckets, zeroed cache slots, `CreateThreadCache(CACHE_COLD, 64)`. -/
theorem createThreadCache_skips_odd_buckets_witness :
    2 ≤ Thread.twoBuckets.allocator.bucketsCount ∧
    Thread.twoBuckets.allocator.bucketsCount ≤ 64 ∧
    ∃ th1, Allocator.CreateThreadCache Header.exhausted spacedMalloc
        CacheWarmupOptions.CACHE_COLD 64 Thread.twoBuckets = some th1 ∧
      (th1.tlsCacheBuckets 1).pBucket = none ∧ (th1.tlsCacheBuckets 0).pBucket = some 0 := by
  refine ⟨by decide, by decide, ?_⟩
  obtain ⟨th1, hrun, _, _, heven, hz⟩ := createThreadCache_skips_odd_buckets Header.exhausted
    spacedMalloc 64 Thread.twoBuckets (fun _ _ _ => rfl) (by decide) (by decide)
  exact ⟨th1, hrun, (hz ⟨rfl, rfl, rfl, rfl, rfl, rfl⟩).2.1, heven 0 rfl (by decide)⟩


/-! ## Alignment, containment and the arena end -/

/-- The alignment computed for fewer buckets divides the alignment computed for more. -/
theorem Allocator.alignmentFor_dvd (m n : Nat) (h1 : 1 ≤ m) (hmn : m ≤ n) (h2 : n ≤ 64) :
    Allocator.alignmentFor m ∣ Allocator.alignmentFor n := by
  obtain ⟨Lm, hLm, hlom, hhim⟩ := alignmentMax_pow m h1 (by omega)
  obtain ⟨Ln, hLn, hlon, _⟩ := alignmentMax_pow n (by omega) h2
  unfold Allocator.alignmentFor
  rw [hLm, hLn]
  apply pow_dvd_pow
  by_contra hc
  have hstep : 2 ^ (Ln + 1) ≤ 2 ^ Lm := Nat.pow_le_pow_right (by norm_num) (by omega)
  rw [pow_succ] at hstep
  omega

/-- C15: for `1 ≤ n ≤ 64`, every requested size and an arena base that is a multiple of
`GetNextPow2(16 * n)` (the alignment `Init` asks of the backing allocator), the condition of the
assertion "Alignment failed" holds for every bucket `i < n`: its start `base + i * S` (the
product as `Init` computes it, in `size_t`) is a multiple of `GetNextPow2(16 * (i + 1))`, where
`S` is the rounded region size, itself a multiple of `GetNextPow2(16 * n)`. -/
theorem init_alignment_assertion_holds (malloc : List BackingCall → Nat → Nat → Nat)
    (n B : Nat) (a : Allocator) (h1 : 1 ≤ n) (h2 : n ≤ 64) (h0 : a.bucketsCount = 0)
    (hbase : IsAligned
      (malloc a.backing (Allocator.totalBytesFor n B) (Allocator.alignmentFor n))
      (Allocator.alignmentFor n)) :
    ∃ a1, Allocator.Init malloc n B a = some a1 ∧
      IsAligned a1.pBuffer (toSizeT (GetNextPow2 ((16 * n) % 4294967296))) ∧
      IsAligned a1.bucketSizeInBytes (toSizeT (GetNextPow2 ((16 * n) % 4294967296))) ∧
      ∀ i, i < n →
        (a1.buckets i).pData
          = a1.pBuffer + i * a1.bucketSizeInBytes % 18446744073709551616 ∧
        Allocator.alignmentAssertion (a1.buckets i).pData (16 * (i + 1)) := by
  obtain ⟨a1, hinit, _, hbs, hpb, _, _, hbuckets, _⟩ :=
    Allocator.Init_returns malloc n B a h1 h2 h0
  have hal := Allocator.alignmentFor_spec n h1 h2
  have hSdvd : Allocator.alignmentFor n ∣ a1.bucketSizeInBytes := by
    rw [hbs]
    exact Align_dvd B (Allocator.alignmentFor n) (Allocator.alignmentFor_dvd_word n h1 h2)
  have hBdvd : Allocator.alignmentFor n ∣ a1.pBuffer := by
    rw [hpb]
    exact Nat.dvd_of_mod_eq_zero hbase
  refine ⟨a1, hinit, Nat.mod_eq_zero_of_dvd hBdvd, Nat.mod_eq_zero_of_dvd hSdvd, ?_⟩
  intro i hi
  have hd : (a1.buckets i).pData
      = a1.pBuffer + i * a1.bucketSizeInBytes % 18446744073709551616 := by
    rw [hbuckets i hi]
  refine ⟨hd, ?_⟩
  have hdiv := Allocator.alignmentFor_dvd (i + 1) n (by omega) (by omega) h2
  have hword := Allocator.alignmentFor_dvd_word (i + 1) (by omega) (by omega)
  unfold Allocator.alignmentAssertion IsAligned
  rw [hd]
  apply Nat.mod_eq_zero_of_dvd
  show Allocator.alignmentFor (i + 1) ∣ _
  exact Dvd.dvd.add (hdiv.trans hBdvd)
    ((Nat.dvd_mod_iff hword).mpr (Dvd.dvd.mul_left (hdiv.trans hSdvd) i))

/-- C15, witness: `Init(4, 4096)` with the arena at `2 ^ 20`. -/
theorem init_alignment_assertion_holds_witness :
    1 ≤ 4 ∧ 4 ≤ 64 ∧
    IsAligned (spacedMalloc (Allocator.ctor Allocator.blank).backing
      (Allocator.totalBytesFor 4 4096) (Allocator.alignmentFor 4)) (Allocator.alignmentFor 4) ∧
    ∃ a1, Allocator.Init spacedMalloc 4 4096 (Allocator.ctor Allocator.blank) = some a1 ∧
      Allocator.alignmentAssertion (a1.buckets 2).pData 48 := by
  have hb : IsAligned (spacedMalloc (Allocator.ctor Allocator.blank).backing
      (Allocator.totalBytesFor 4 4096) (Allocator.alignmentFor 4))
      (Allocator.alignmentFor 4) := by
    unfold IsAligned
    decide
  refine ⟨by decide, by decide, hb, ?_⟩
  obtain ⟨a1, hinit, _, _, h⟩ := init_alignment_assertion_holds spacedMalloc 4 4096
    (Allocator.ctor Allocator.blank) (by decide) (by decide) rfl hb
  exact ⟨a1, hinit, (h 2 (by decide)).2⟩

/-- The word met after one more step is the link stored in the element met before. -/
theorem PoolBucket.linkAt_succ (mem : Memory) (pData : Nat) :
    ∀ (i u : Nat), PoolBucket.linkAt mem pData u (i + 1)
      = mem (pData + TaggedIndex.offset (PoolBucket.linkAt mem pData u i)) := by
  intro i
  induction i with
  | zero => intro u; rfl
  | succ i ih =>
    intro u
    rw [PoolBucket.linkAt, ih]
    rfl

theorem TaggedIndex.offset_lt (u : Nat) : TaggedIndex.offset u < 4294967296 := by
  unfold TaggedIndex.offset
  exact Nat.mod_lt _ (by norm_num)

/-- In a freshly linked slab with at least one whole element, every element met on the way from
the head to the sentinel lies inside the slab. -/
theorem PoolBucket.reachable_in_slab (e pData S : Nat) (mem1 : Memory) (he : 0 < e)
    (hS : e ≤ S)
    (hlinks : ∀ i, i < PoolBucket.linkedCount e S → mem1 (pData + i * e) =
      if i + 1 = PoolBucket.linkedCount e S then TaggedIndex.Invalid
      else TaggedIndex.pack i ((i + 1) * e))
    (t : Nat)
    (hreach : ∀ s, s ≤ t →
      PoolBucket.linkAt mem1 pData (TaggedIndex.pack 0 0) s ≠ TaggedIndex.Invalid) :
    TaggedIndex.offset (PoolBucket.linkAt mem1 pData (TaggedIndex.pack 0 0) t) + e ≤ S := by
  have hk := PoolBucket.linkedCount_of_le e S he hS
  have hkpos := PoolBucket.linkedCount_pos e S
  have hlast := PoolBucket.element_in_slab e S (PoolBucket.linkedCount e S - 1) he hS (by omega)
  by_cases hfit : (PoolBucket.linkedCount e S - 1) * e < 4294967296
  · -- no offset is truncated: the walk is the chain of the elements
    have hhead : TaggedIndex.pack 0 0 = PoolBucket.linkWord e 0 := rfl
    have hword : ∀ s, s < PoolBucket.linkedCount e S →
        PoolBucket.linkAt mem1 pData (TaggedIndex.pack 0 0) s = PoolBucket.linkWord e s := by
      intro s hs
      rw [hhead, PoolBucket.linkAt_linkWord e pData _ mem1 hlinks s 0 (by omega)]
      · rw [Nat.zero_add]
      · intro j2 hj2
        have : j2 * e ≤ (PoolBucket.linkedCount e S - 1) * e :=
          Nat.mul_le_mul_right e (by omega)
        omega
    have htk : t < PoolBucket.linkedCount e S := by
      by_contra hc
      have hend : PoolBucket.linkAt mem1 pData (TaggedIndex.pack 0 0)
          (PoolBucket.linkedCount e S - 1 + 1) = TaggedIndex.Invalid := by
        rw [PoolBucket.linkAt_succ, hword (PoolBucket.linkedCount e S - 1) (by omega),
          PoolBucket.offset_linkWord, Nat.mod_eq_of_lt hfit, hlinks _ (by omega),
          if_pos (by omega)]
      rw [Nat.sub_add_cancel hkpos] at hend
      exact hreach _ (by omega) hend
    rw [hword t htk, PoolBucket.offset_linkWord]
    have h1 : (t * e) % 4294967296 ≤ t * e := Nat.mod_le _ _
    have h2 := PoolBucket.element_in_slab e S t he hS htk
    omega
  · have := TaggedIndex.offset_lt (PoolBucket.linkAt mem1 pData (TaggedIndex.pack 0 0) t)
    omega

/-- C16 (amended): for `1 ≤ n ≤ 64` and every requested size of at least one byte whose
rounding does not wrap (`B + GetNextPow2(16 * n) ≤ 2 ^ 64`), after `Init` the region size `S`
of every bucket `i < n` is at least its element size `16 * (i + 1)` (indeed
`S ≥ GetNextPow2(16 * n) ≥ 16 * n`), its free list is not empty, and every element met when
following the links from its head up to the sentinel, `[off, off + 16 * (i + 1))`, lies inside
the region `[0, S)` of the bucket. -/
theorem init_elements_lie_inside_regions (malloc : List BackingCall → Nat → Nat → Nat)
    (n B : Nat) (a : Allocator) (h1 : 1 ≤ n) (h2 : n ≤ 64) (h0 : a.bucketsCount = 0)
    (hB : 1 ≤ B) (hround : B + Allocator.alignmentFor n ≤ 18446744073709551616) :
    ∃ a1, Allocator.Init malloc n B a = some a1 ∧
      16 * n ≤ Allocator.alignmentFor n ∧ Allocator.alignmentFor n ≤ a1.bucketSizeInBytes ∧
      ∀ i, i < n →
        16 * (i + 1) ≤ a1.bucketSizeInBytes ∧
        (a1.buckets i).pBufferEnd = (a1.buckets i).pData + a1.bucketSizeInBytes ∧
        (a1.buckets i).head ≠ TaggedIndex.Invalid ∧
        ∀ t, (∀ s, s ≤ t →
            PoolBucket.linkAt a1.mem (a1.buckets i).pData (a1.buckets i).head s
              ≠ TaggedIndex.Invalid) →
          TaggedIndex.offset
              (PoolBucket.linkAt a1.mem (a1.buckets i).pData (a1.buckets i).head t)
            + 16 * (i + 1) ≤ a1.bucketSizeInBytes := by
  have hal := Allocator.alignmentFor_spec n h1 h2
  have hsp := Align_spec B (Allocator.alignmentFor n) (by omega) hround
  have hSge : Allocator.alignmentFor n ≤ Allocator.roundedSize n B := by
    unfold Allocator.roundedSize
    exact Nat.le_of_dvd (by omega) hsp.1
  have hne : TaggedIndex.pack 0 0 ≠ TaggedIndex.Invalid := by decide
  by_cases hfit : (n - 1) * Allocator.roundedSize n B < 18446744073709551616
  · -- no bucket offset wraps: every region holds the links of its own bucket
    obtain ⟨a1, hinit, _, hbs, _, _, _, hbuckets, _, hmem, _⟩ :=
      Allocator.Init_spec malloc n B a h1 h2 h0 (Allocator.fit_of_last _ n hfit)
    rw [← hbs] at hSge
    refine ⟨a1, hinit, hal.1, hSge, ?_⟩
    intro i hi
    have hb := hbuckets i
    rw [if_pos hi] at hb
    refine ⟨by omega, by rw [hb], by rw [hb]; exact hne, ?_⟩
    intro t hreach
    rw [hb] at hreach ⊢
    exact PoolBucket.reachable_in_slab (16 * (i + 1)) _ a1.bucketSizeInBytes a1.mem (by omega)
      (by omega) (hmem i hi) t hreach
  · -- some offset wraps: a region is then larger than any 32-bit offset plus an element
    obtain ⟨a1, hinit, _, hbs, _, _, _, hbuckets, _⟩ :=
      Allocator.Init_returns malloc n B a h1 h2 h0
    rw [← hbs] at hSge hfit
    have h63 : (n - 1) * a1.bucketSizeInBytes ≤ 63 * a1.bucketSizeInBytes :=
      Nat.mul_le_mul_right _ (by omega)
    refine ⟨a1, hinit, hal.1, hSge, ?_⟩
    intro i hi
    have hb := hbuckets i hi
    refine ⟨by omega, by rw [hb], by rw [hb]; exact hne, ?_⟩
    intro t _
    have hoff := TaggedIndex.offset_lt
      (PoolBucket.linkAt a1.mem (a1.buckets i).pData (a1.buckets i).head t)
    omega

/-- C16, witness: `Init(4, 4096)`; the head of bucket 3 references an element inside it. -/
theorem init_elements_lie_inside_regions_witness :
    1 ≤ 4 ∧ 4 ≤ 64 ∧ 1 ≤ 4096 ∧ 4096 + Allocator.alignmentFor 4 ≤ 18446744073709551616 ∧
    ∃ a1, Allocator.Init spacedMalloc 4 4096 (Allocator.ctor Allocator.blank) = some a1 ∧
      64 ≤ a1.bucketSizeInBytes ∧ (a1.buckets 3).head ≠ TaggedIndex.Invalid := by
  refine ⟨by decide, by decide, by decide, by decide, ?_⟩
  obtain ⟨a1, hinit, _, _, h⟩ := init_elements_lie_inside_regions spacedMalloc 4 4096
    (Allocator.ctor Allocator.blank) (by decide) (by decide) rfl (by decide) (by decide)
  exact ⟨a1, hinit, (h 3 (by decide)).1, (h 3 (by decide)).2.2.1⟩

/-- C18: on a slab of `B` bytes with `e ≥ 16` and `B < e`, where no whole element fits, `Create e`
still returns with the head `{offset 0, tag 0}`, not the sentinel, and writes the sentinel link
at offset 0 and nothing else: the walk from the head yields exactly one element, the one at
offset 0. `Init(n, 0)` produces such slabs (`S = 0`): each of its buckets reports one element. -/
theorem create_never_yields_an_empty_list (e B : Nat) (b : PoolBucket) (mem : Memory)
    (he : 16 ≤ e) (hB : B < e) (hend : b.pBufferEnd = b.pData + B) :
    (∃ b1 mem1, PoolBucket.Create e b mem = some (b1, mem1) ∧
      B / e = 0 ∧
      b1.head = TaggedIndex.pack 0 0 ∧ b1.head ≠ TaggedIndex.Invalid ∧
      TaggedIndex.offset b1.head = 0 ∧ TaggedIndex.tag b1.head = 0 ∧
      mem1 (b.pData + 0) = TaggedIndex.Invalid ∧
      (∀ x, x ≠ b.pData → mem1 x = mem x) ∧
      ∀ fuel, 1 < fuel → PoolBucket.freeListFrom mem1 b.pData fuel b1.head = some [0]) ∧
    (∀ (malloc : List BackingCall → Nat → Nat → Nat) (n : Nat) (a : Allocator),
      1 ≤ n → n ≤ 64 → a.bucketsCount = 0 →
      ∃ a1, Allocator.Init malloc n 0 a = some a1 ∧ a1.bucketSizeInBytes = 0 ∧
        ∀ i, i < n →
          (a1.buckets i).pBufferEnd = (a1.buckets i).pData ∧
          ∀ fuel, 1 < fuel →
            PoolBucket.freeListFrom a1.mem (a1.buckets i).pData fuel (a1.buckets i).head
              = some [0]) := by
  have hwalk : ∀ (pData : Nat) (m : Memory), m pData = TaggedIndex.Invalid →
      ∀ fuel, 1 < fuel →
        PoolBucket.freeListFrom m pData fuel (TaggedIndex.pack 0 0) = some [0] := by
    intro pData m hm fuel hfuel
    obtain ⟨f, rfl⟩ : ∃ f, fuel = f + 1 + 1 := ⟨fuel - 2, by omega⟩
    have hne : TaggedIndex.pack 0 0 ≠ TaggedIndex.Invalid := by decide
    have hoff : TaggedIndex.offset (TaggedIndex.pack 0 0) = 0 := by decide
    rw [PoolBucket.freeListFrom, if_neg hne, hoff]
    simp only [Nat.add_zero, hm]
    simp [PoolBucket.freeListFrom]
  constructor
  · obtain ⟨mem1, hcreate, hlinks, hframe⟩ := PoolBucket.Create_spec e B b mem (by omega) hend
    have hdiv : B / e = 0 := Nat.div_eq_of_lt hB
    have hk : PoolBucket.linkedCount e B = 1 := by
      unfold PoolBucket.linkedCount
      rw [hdiv]
      rfl
    rw [hk] at hlinks hframe hcreate
    have h0 := hlinks 0 (by omega)
    simp only [Nat.zero_mul, Nat.zero_add, if_true] at h0
    have hne : TaggedIndex.pack 0 0 ≠ TaggedIndex.Invalid := by decide
    have hoff : TaggedIndex.offset (TaggedIndex.pack 0 0) = 0 := by decide
    have htag : TaggedIndex.tag (TaggedIndex.pack 0 0) = 0 := by decide
    refine ⟨_, mem1, hcreate, hdiv, rfl, hne, hoff, htag, h0, ?_, ?_⟩
    · intro x hx
      apply hframe x
      intro i hi
      have : i = 0 := by omega
      subst this
      simpa using hx
    · exact hwalk b.pData mem1 (by simpa using h0)
  · intro malloc n a h1 h2 h0
    have hS0 : Allocator.roundedSize n 0 = 0 := by
      unfold Allocator.roundedSize Align
      have hal := Allocator.alignmentFor_spec n h1 h2
      rw [Nat.zero_add]
      have : (Allocator.alignmentFor n - 1) / Allocator.alignmentFor n = 0 :=
        Nat.div_eq_of_lt (by omega)
      rw [this, Nat.zero_mul]
    obtain ⟨a1, hinit, _, hbs, _, _, _, hbuckets, _, hmem, _⟩ :=
      Allocator.Init_spec malloc n 0 a h1 h2 h0
        (fun j _ => by rw [hS0, Nat.mul_zero]; decide)
    have hS : a1.bucketSizeInBytes = 0 := by rw [hbs, hS0]
    refine ⟨a1, hinit, hS, ?_⟩
    intro i hi
    have hb := hbuckets i
    rw [if_pos hi] at hb
    have hm := hmem i hi 0 (PoolBucket.linkedCount_pos _ _)
    rw [hS, PoolBucket.linkedCount_zero] at hm
    simp only [Nat.mul_zero, Nat.zero_mul, Nat.add_zero, Nat.zero_add, if_true] at hm
    rw [hb]
    simp only [hS, Nat.mul_zero, Nat.add_zero]
    exact ⟨trivial, hwalk a1.pBuffer a1.mem hm⟩

/-- C18, witness: a slab of 8 bytes with elements of 16 bytes. -/
theorem create_never_yields_an_empty_list_witness :
    16 ≤ 16 ∧ 8 < 16 ∧
    ∃ b1 mem1,
      PoolBucket.Create 16 { head := 0, globalTag := 0, pData := 4096, pBufferEnd := 4096 + 8 }
        (fun _ => 0) = some (b1, mem1) ∧
      PoolBucket.freeListFrom mem1 4096 2 b1.head = some [0] := by
  refine ⟨by decide, by decide, ?_⟩
  obtain ⟨⟨b1, mem1, h1, _, _, _, _, _, _, _, h9⟩, _⟩ := create_never_yields_an_empty_list 16 8
    { head := 0, globalTag := 0, pData := 4096, pBufferEnd := 4096 + 8 } (fun _ => 0)
    (by decide) (by decide) rfl
  exact ⟨b1, mem1, h1, h9 2 (by decide)⟩

/-- Every address of the arena lies in the region of some bucket. -/
theorem Allocator.region_cover (base S n x : Nat) (hlo : base ≤ x) (hhi : x < base + n * S) :
    ∃ i, i < n ∧ base + i * S ≤ x ∧ x < base + (i + 1) * S := by
  have hSpos : 0 < S := by
    rcases Nat.eq_zero_or_pos S with h | h
    · rw [h] at hhi; omega
    · exact h
  refine ⟨(x - base) / S, ?_, ?_, ?_⟩
  · rw [Nat.div_lt_iff_lt_mul hSpos]; omega
  · have := Nat.div_mul_le_self (x - base) S
    omega
  · have := Nat.lt_div_mul_add (a := x - base) hSpos
    have hexp : ((x - base) / S + 1) * S = (x - base) / S * S + S := by ring
    omega

/-- C19 (amended): for `1 ≤ n ≤ 64` and an arena size that does not wrap (`S * n < 2 ^ 64`, with
`S` the rounded size `Init` stores), after `Init` the recorded arena end is `base + n * S + 1`:
one byte past the end of the last bucket's region, `base + n * S`, which is also the end of the
block of `n * S` bytes obtained from the backing allocator; so `[pBuffer, pBufferEnd)` contains
exactly one address that lies in no bucket's region, the address `base + n * S`. -/
theorem init_arena_end_is_one_past (malloc : List BackingCall → Nat → Nat → Nat)
    (n B : Nat) (a : Allocator) (h1 : 1 ≤ n) (h2 : n ≤ 64) (h0 : a.bucketsCount = 0)
    (hfit : Allocator.roundedSize n B * n < 18446744073709551616) :
    ∃ a1, Allocator.Init malloc n B a = some a1 ∧
      a1.pBufferEnd = a1.pBuffer + n * a1.bucketSizeInBytes + 1 ∧
      (a1.buckets (n - 1)).pBufferEnd = a1.pBuffer + n * a1.bucketSizeInBytes ∧
      BackingCall.Alloc (n * a1.bucketSizeInBytes) (Allocator.alignmentFor n) a1.pBuffer
        ∈ a1.backing ∧
      ∀ x, a1.pBuffer ≤ x → x < a1.pBufferEnd →
        ((∀ i, i < n → ¬ ((a1.buckets i).pData ≤ x ∧ x < (a1.buckets i).pBufferEnd)) ↔
          x = a1.pBuffer + n * a1.bucketSizeInBytes) := by
  obtain ⟨a1, hinit, _, hbs, hpb, hpe, hbk, hbuckets, _, _, _⟩ :=
    Allocator.Init_spec malloc n B a h1 h2 h0 (Allocator.fit_of_total _ n hfit)
  rw [Allocator.totalBytesFor_of_fit n B hfit] at hpb hpe hbk
  have hexp : ∀ m : Nat, (m + 1) * a1.bucketSizeInBytes
      = m * a1.bucketSizeInBytes + a1.bucketSizeInBytes := fun m => by ring
  have hreg : ∀ i, i < n →
      (a1.buckets i).pData = a1.pBuffer + i * a1.bucketSizeInBytes ∧
      (a1.buckets i).pBufferEnd = a1.pBuffer + (i + 1) * a1.bucketSizeInBytes := by
    intro i hi
    rw [hbuckets i, if_pos hi, hexp i]
    exact ⟨rfl, by simp only [Nat.add_assoc]⟩
  have hpe2 : a1.pBufferEnd = a1.pBuffer + n * a1.bucketSizeInBytes + 1 := by
    rw [hpe, hbs, Nat.mul_comm]
  refine ⟨a1, hinit, hpe2, ?_, ?_, ?_⟩
  · rw [(hreg (n - 1) (by omega)).2, Nat.sub_add_cancel h1]
  · rw [hbk, hbs, Nat.mul_comm]
    simp
  · intro x hlo hhi
    constructor
    · intro hnone
      by_contra hne
      obtain ⟨i, hi, h3, h4⟩ := Allocator.region_cover a1.pBuffer a1.bucketSizeInBytes n x hlo
        (by omega)
      apply hnone i hi
      rw [(hreg i hi).1, (hreg i hi).2]
      exact ⟨h3, h4⟩
    · intro hx i hi hin
      rw [(hreg i hi).1, (hreg i hi).2] at hin
      have hmul : (i + 1) * a1.bucketSizeInBytes ≤ n * a1.bucketSizeInBytes :=
        Nat.mul_le_mul_right _ (by omega)
      omega

/-- C19, witness: `Init(4, 4096)` with the arena at `2 ^ 20`. -/
theorem init_arena_end_is_one_past_witness :
    1 ≤ 4 ∧ 4 ≤ 64 ∧ Allocator.roundedSize 4 4096 * 4 < 18446744073709551616 ∧
    ∃ a1, Allocator.Init spacedMalloc 4 4096 (Allocator.ctor Allocator.blank) = some a1 ∧
      a1.pBufferEnd = 1048576 + 4 * 4096 + 1 := by
  refine ⟨by decide, by decide, by decide, ?_⟩
  obtain ⟨a1, hinit, hpe, _⟩ := init_arena_end_is_one_past spacedMalloc 4 4096
    (Allocator.ctor Allocator.blank) (by decide) (by decide) rfl (by decide)
  obtain ⟨a2, hinit2, _, hbs, hpb, _⟩ := Allocator.Init_spec spacedMalloc 4 4096
    (Allocator.ctor Allocator.blank) (by decide) (by decide) rfl Allocator.fit_4096
  rw [hinit] at hinit2
  cases hinit2
  have hS4 : a1.bucketSizeInBytes = 4096 := by rw [hbs]; decide
  have hb4 : a1.pBuffer = 1048576 := by rw [hpb]; rfl
  exact ⟨a1, hinit, by rw [hpe, hS4, hb4]⟩

/-! ## The fold of L0 into L1 and the warmup requests -/

/-- The loop of `Destroy` appends the L0 handles `i, ..., i + r - 1` behind the `n` handles of
L1, in order, and writes nowhere else. -/
theorem TlsPoolBucket.foldL0_spec (storageL0 : Nat → Nat) (p : Nat) :
    ∀ (r i n : Nat) (mem : Memory), n + r < 4294967296 →
      (TlsPoolBucket.foldL0 storageL0 p r i n mem).1 = n + r ∧
      (∀ j, j < r →
        (TlsPoolBucket.foldL0 storageL0 p r i n mem).2 (p + 4 * (n + j)) = storageL0 (i + j)) ∧
      (∀ x, (∀ j, j < r → x ≠ p + 4 * (n + j)) →
        (TlsPoolBucket.foldL0 storageL0 p r i n mem).2 x = mem x) := by
  intro r
  induction r with
  | zero =>
    intro i n mem _
    exact ⟨rfl, fun j hj => by omega, fun x _ => rfl⟩
  | succ r ih =>
    intro i n mem hn
    have hmod : (n + 1) % 4294967296 = n + 1 := Nat.mod_eq_of_lt (by omega)
    obtain ⟨h1, h2, h3⟩ := ih (i + 1) (n + 1) (mem.write (p + 4 * n) (storageL0 i)) (by omega)
    rw [TlsPoolBucket.foldL0, hmod]
    refine ⟨by rw [h1]; omega, ?_, ?_⟩
    · intro j hj
      cases j with
      | zero =>
        rw [h3 _ (by intro j2 _; omega)]
        simp [Memory.write_same]
      | succ j =>
        have := h2 j (by omega)
        have e1 : n + 1 + j = n + (j + 1) := by omega
        have e2 : i + 1 + j = i + (j + 1) := by omega
        rw [e1, e2] at this
        exact this
    · intro x hx
      rw [h3 x (by
        intro j hj
        have := hx (j + 1) (by omega)
        have e1 : n + 1 + j = n + (j + 1) := by omega
        rw [e1]
        exact this)]
      apply Memory.write_other
      have := hx 0 (by omega)
      simpa using this

/-- C17: for a cache slot as `CreateThreadCache(_, cacheSize)` creates it (an L1 buffer of
`cacheSize + SMM_MAX_CACHE_ITEMS_COUNT` words, `maxElementsCount = cacheSize`) with
`numElementsL0 ≤ SMM_MAX_CACHE_ITEMS_COUNT` and `numElementsL1 ≤ maxElementsCount`, the loop of
`Destroy` writes exactly the words `pStorageL1[numElementsL1 + i]`, `i < numElementsL0`, each
index below the capacity of the buffer and each word the L0 handle `storageL0[i]`, so the L0
handles follow the L1 handles in order; `ReturnL1CacheToMaster` is then called (when the sum is
not zero) on that buffer with the count `numElementsL0 + numElementsL1` of the entry values. -/
theorem destroy_fold_stays_inside_buffer (H : Header) (self cacheSize : Nat) (th : Thread)
    (hcap : (cacheSize + H.SMM_MAX_CACHE_ITEMS_COUNT) % 4294967296
      = cacheSize + H.SMM_MAX_CACHE_ITEMS_COUNT)
    (hmax : (th.tlsCacheBuckets self).maxElementsCount = cacheSize)
    (hL0 : (th.tlsCacheBuckets self).numElementsL0 ≤ H.SMM_MAX_CACHE_ITEMS_COUNT)
    (hL1 : (th.tlsCacheBuckets self).numElementsL1 ≤ (th.tlsCacheBuckets self).maxElementsCount) :
    ∃ memF, memF = (TlsPoolBucket.foldL0 (th.tlsCacheBuckets self).storageL0
        (th.tlsCacheBuckets self).pStorageL1 (th.tlsCacheBuckets self).numElementsL0 0
        (th.tlsCacheBuckets self).numElementsL1 th.allocator.mem).2 ∧
      (∀ i, i < (th.tlsCacheBuckets self).numElementsL0 →
        (th.tlsCacheBuckets self).numElementsL1 + i
          < (cacheSize + H.SMM_MAX_CACHE_ITEMS_COUNT) % 4294967296 ∧
        memF ((th.tlsCacheBuckets self).pStorageL1
            + 4 * ((th.tlsCacheBuckets self).numElementsL1 + i))
          = (th.tlsCacheBuckets self).storageL0 i) ∧
      (∀ x, (∀ i, i < (th.tlsCacheBuckets self).numElementsL0 →
          x ≠ (th.tlsCacheBuckets self).pStorageL1
            + 4 * ((th.tlsCacheBuckets self).numElementsL1 + i)) →
        memF x = th.allocator.mem x) ∧
      (0 < (th.tlsCacheBuckets self).numElementsL0 + (th.tlsCacheBuckets self).numElementsL1 →
        (TlsPoolBucket.Destroy H self th).2.allocator =
          { th.allocator with
            buckets := (H.ReturnL1CacheToMaster
              { th.tlsCacheBuckets self with
                numElementsL1 := (th.tlsCacheBuckets self).numElementsL0
                  + (th.tlsCacheBuckets self).numElementsL1 }
              ((th.tlsCacheBuckets self).numElementsL0 + (th.tlsCacheBuckets self).numElementsL1)
              { th.allocator with mem := memF }).2.1
            mem := (H.ReturnL1CacheToMaster
              { th.tlsCacheBuckets self with
                numElementsL1 := (th.tlsCacheBuckets self).numElementsL0
                  + (th.tlsCacheBuckets self).numElementsL1 }
              ((th.tlsCacheBuckets self).numElementsL0 + (th.tlsCacheBuckets self).numElementsL1)
              { th.allocator with mem := memF }).2.2 }) ∧
      ((th.tlsCacheBuckets self).numElementsL0 + (th.tlsCacheBuckets self).numElementsL1 = 0 →
        (TlsPoolBucket.Destroy H self th).2.allocator = th.allocator) := by
  have hsum : (th.tlsCacheBuckets self).numElementsL1 + (th.tlsCacheBuckets self).numElementsL0
      < 4294967296 := by
    have := Nat.mod_lt (cacheSize + H.SMM_MAX_CACHE_ITEMS_COUNT) (by norm_num : 0 < 4294967296)
    omega
  obtain ⟨h1, h2, h3⟩ := TlsPoolBucket.foldL0_spec (th.tlsCacheBuckets self).storageL0
    (th.tlsCacheBuckets self).pStorageL1 (th.tlsCacheBuckets self).numElementsL0 0
    (th.tlsCacheBuckets self).numElementsL1 th.allocator.mem hsum
  refine ⟨_, rfl, ?_, h3, ?_, ?_⟩
  · intro i hi
    refine ⟨by omega, ?_⟩
    have := h2 i hi
    rwa [Nat.zero_add] at this
  · intro hpos
    unfold TlsPoolBucket.Destroy
    simp only [h1]
    rw [if_pos (by omega)]
    simp only [Nat.add_comm (th.tlsCacheBuckets self).numElementsL1]
  · intro hzero
    have hz0 : (th.tlsCacheBuckets self).numElementsL0 = 0 := by omega
    have hz1 : (th.tlsCacheBuckets self).numElementsL1 = 0 := by omega
    unfold TlsPoolBucket.Destroy
    simp only [hz0, hz1, TlsPoolBucket.foldL0, lt_self_iff_false, if_false, gt_iff_lt]

/-- C17, witness: the slot with two handles in L0 and one in L1, `cacheSize = 64`. -/
theorem destroy_fold_stays_inside_buffer_witness :
    (Thread.cached.tlsCacheBuckets 3).maxElementsCount = 64 ∧
    (Thread.cached.tlsCacheBuckets 3).numElementsL0 ≤ Header.exhausted.SMM_MAX_CACHE_ITEMS_COUNT ∧
    ∃ memF : Memory, memF (8192 + 4 * 1) = 0 ∧ memF (8192 + 4 * 2) = 64 := by
  refine ⟨rfl, by decide, ?_⟩
  obtain ⟨memF, _, h2, _⟩ := destroy_fold_stays_inside_buffer Header.exhausted 3 64 Thread.cached
    (by decide) rfl (by decide) (by decide)
  exact ⟨memF, (h2 0 (by decide)).2, (h2 1 (by decide)).2⟩

/-- The logged allocation loop is the allocation loop. -/
theorem TlsPoolBucket.warmupAllocateLogged_eq (H : Header) (es bi : Nat) :
    ∀ (r pRoot : Nat) (th : Thread) (log : WarmupLog),
      (TlsPoolBucket.warmupAllocateLogged H es bi r pRoot th log).1
        = (TlsPoolBucket.warmupAllocate H es bi r pRoot th).1 ∧
      (TlsPoolBucket.warmupAllocateLogged H es bi r pRoot th log).2.1
        = (TlsPoolBucket.warmupAllocate H es bi r pRoot th).2 := by
  intro r
  induction r with
  | zero => intro pRoot th log; exact ⟨rfl, rfl⟩
  | succ r ih =>
    intro pRoot th log
    rw [TlsPoolBucket.warmupAllocateLogged, TlsPoolBucket.warmupAllocate]
    simp only
    split
    · exact ⟨rfl, rfl⟩
    · split
      · exact ⟨rfl, rfl⟩
      · exact ih _ _ _

/-- What the allocation loop logs: at most one request per iteration, each for the element size
with alignment 16; one request more than blocks kept unless every iteration kept its block; at
most one block handed back, and then the loop stopped early. -/
theorem TlsPoolBucket.warmupAllocateLogged_log (H : Header) (es bi : Nat) :
    ∀ (r pRoot : Nat) (th : Thread) (log : WarmupLog),
      ∃ rq kp rt,
        (TlsPoolBucket.warmupAllocateLogged H es bi r pRoot th log).2.2
          = { requests := log.requests ++ rq, kept := log.kept ++ kp,
              returned := log.returned ++ rt } ∧
        rq.length ≤ r ∧ (∀ c, c ∈ rq → c = (es, 16)) ∧
        kp.length ≤ rq.length ∧ rq.length = min r (kp.length + 1) ∧
        (∀ p, p ∈ kp → p ≠ 0) ∧
        rt.length ≤ 1 ∧ (rt ≠ [] → kp.length < r) ∧ (∀ p, p ∈ rt → p ≠ 0) := by
  intro r
  induction r with
  | zero =>
    intro pRoot th log
    exact ⟨[], [], [], by simp [TlsPoolBucket.warmupAllocateLogged], by simp, by simp, by simp,
      by simp, by simp, by simp, by simp, by simp⟩
  | succ r ih =>
    intro pRoot th log
    rw [TlsPoolBucket.warmupAllocateLogged]
    simp only
    split
    · exact ⟨[(es, 16)], [], [], by simp, by simp, by simp, by simp, by simp, by simp, by simp,
        by simp, by simp⟩
    · rename_i hp
      split
      · exact ⟨[(es, 16)], [], [(H.Allocate es 16 th).1], by simp, by simp, by simp, by simp,
          by simp, by simp, by simp, by simp, by simpa using hp⟩
      · obtain ⟨rq, kp, rt, h1, h2, h3, h4, h5, h6, h7, h8, h9⟩ := ih (H.Allocate es 16 th).1
          { (H.Allocate es 16 th).2 with
            allocator := { (H.Allocate es 16 th).2.allocator with
              mem := (H.Allocate es 16 th).2.allocator.mem.write (H.Allocate es 16 th).1 pRoot } }
          { requests := log.requests ++ [(es, 16)]
            kept := log.kept ++ [(H.Allocate es 16 th).1]
            returned := log.returned }
        refine ⟨(es, 16) :: rq, (H.Allocate es 16 th).1 :: kp, rt, ?_, ?_, ?_, ?_, ?_, ?_, h7,
          ?_, h9⟩
        · rw [h1]; simp
        · simp; omega
        · intro c hc
          rcases List.mem_cons.mp hc with h | h
          · exact h
          · exact h3 c h
        · simp; omega
        · simp only [List.length_cons]; omega
        · intro p hp2
          rcases List.mem_cons.mp hp2 with h | h
          · rw [h]; exact hp
          · exact h6 p h
        · intro hrt
          have := h8 hrt
          simp only [List.length_cons]; omega

/-- C11: for every 32-bit `maxElementsNum ≥ SMM_MAX_CACHE_ITEMS_COUNT + 2` and a bucket index
that `GetBucketByIndex` resolves, `TlsPoolBucket::Init` assigns
`maxElementsCount = maxElementsNum - SMM_MAX_CACHE_ITEMS_COUNT`, `pStorageL1` = the given buffer,
`pBucket` = bucket `bucketIndex`, `pBucketData` = that bucket's `pData` and both counters zero,
and touches nothing else. With `CACHE_COLD` this is the state it returns (no allocation is
requested, the cache is empty). With `CACHE_WARM` and `CACHE_HOT` it then runs the warmup from
this state with the target `num`, `maxElementsCount / 2` and `maxElementsCount`, and the
allocation loop makes at most `num` requests, each for the bucket's element size with
alignment 16. -/
theorem tlsInit_binds_slot_and_bounds_warmup (H : Header) (self p m bi : Nat)
    (opt : CacheWarmupOptions) (th : Thread)
    (hm : m < 4294967296) (hC : H.SMM_MAX_CACHE_ITEMS_COUNT + 2 ≤ m)
    (hb : H.GetBucketByIndex th bi = some bi) :
    ((TlsPoolBucket.bound H self p m bi th).tlsCacheBuckets self).maxElementsCount
      = m - H.SMM_MAX_CACHE_ITEMS_COUNT ∧
    ((TlsPoolBucket.bound H self p m bi th).tlsCacheBuckets self).pStorageL1 = p ∧
    ((TlsPoolBucket.bound H self p m bi th).tlsCacheBuckets self).pBucket = some bi ∧
    ((TlsPoolBucket.bound H self p m bi th).tlsCacheBuckets self).pBucketData
      = (th.allocator.buckets bi).pData ∧
    ((TlsPoolBucket.bound H self p m bi th).tlsCacheBuckets self).numElementsL0 = 0 ∧
    ((TlsPoolBucket.bound H self p m bi th).tlsCacheBuckets self).numElementsL1 = 0 ∧
    (∀ j, j ≠ self →
      (TlsPoolBucket.bound H self p m bi th).tlsCacheBuckets j = th.tlsCacheBuckets j) ∧
    (TlsPoolBucket.bound H self p m bi th).allocator = th.allocator ∧
    (opt = CacheWarmupOptions.CACHE_COLD →
      TlsPoolBucket.Init H self p m opt bi th = some (TlsPoolBucket.bound H self p m bi th)) ∧
    (opt ≠ CacheWarmupOptions.CACHE_COLD →
      TlsPoolBucket.Init H self p m opt bi th =
        TlsPoolBucket.warmupRelease H self
          (TlsPoolBucket.warmupTarget opt (m - H.SMM_MAX_CACHE_ITEMS_COUNT))
          (TlsPoolBucket.warmupAllocateLogged H
            (H.GetBucketElementSize (TlsPoolBucket.bound H self p m bi th) bi % 4294967296) bi
            (TlsPoolBucket.warmupTarget opt (m - H.SMM_MAX_CACHE_ITEMS_COUNT)) 0
            (TlsPoolBucket.bound H self p m bi th)
            { requests := [], kept := [], returned := [] }).1
          (TlsPoolBucket.warmupAllocateLogged H
            (H.GetBucketElementSize (TlsPoolBucket.bound H self p m bi th) bi % 4294967296) bi
            (TlsPoolBucket.warmupTarget opt (m - H.SMM_MAX_CACHE_ITEMS_COUNT)) 0
            (TlsPoolBucket.bound H self p m bi th)
            { requests := [], kept := [], returned := [] }).2.1) ∧
    (TlsPoolBucket.warmupAllocateLogged H
        (H.GetBucketElementSize (TlsPoolBucket.bound H self p m bi th) bi % 4294967296) bi
        (TlsPoolBucket.warmupTarget opt (m - H.SMM_MAX_CACHE_ITEMS_COUNT)) 0
        (TlsPoolBucket.bound H self p m bi th)
        { requests := [], kept := [], returned := [] }).2.2.requests.length
      ≤ TlsPoolBucket.warmupTarget opt (m - H.SMM_MAX_CACHE_ITEMS_COUNT) ∧
    (∀ c, c ∈ (TlsPoolBucket.warmupAllocateLogged H
        (H.GetBucketElementSize (TlsPoolBucket.bound H self p m bi th) bi % 4294967296) bi
        (TlsPoolBucket.warmupTarget opt (m - H.SMM_MAX_CACHE_ITEMS_COUNT)) 0
        (TlsPoolBucket.bound H self p m bi th)
        { requests := [], kept := [], returned := [] }).2.2.requests →
      c = (H.GetBucketElementSize (TlsPoolBucket.bound H self p m bi th) bi % 4294967296, 16)) ∧
    TlsPoolBucket.warmupTarget CacheWarmupOptions.CACHE_WARM (m - H.SMM_MAX_CACHE_ITEMS_COUNT)
      = (m - H.SMM_MAX_CACHE_ITEMS_COUNT) / 2 ∧
    TlsPoolBucket.warmupTarget CacheWarmupOptions.CACHE_HOT (m - H.SMM_MAX_CACHE_ITEMS_COUNT)
      = m - H.SMM_MAX_CACHE_ITEMS_COUNT := by
  have hmax : (m % 4294967296 + 4294967296 - H.SMM_MAX_CACHE_ITEMS_COUNT % 4294967296)
      % 4294967296 = m - H.SMM_MAX_CACHE_ITEMS_COUNT := by
    have h1 : m % 4294967296 = m := Nat.mod_eq_of_lt hm
    have h2 : H.SMM_MAX_CACHE_ITEMS_COUNT % 4294967296 = H.SMM_MAX_CACHE_ITEMS_COUNT :=
      Nat.mod_eq_of_lt (by omega)
    rw [h1, h2]
    omega
  obtain ⟨rq, kp, rt, hlog, hlen, hall, _⟩ := TlsPoolBucket.warmupAllocateLogged_log H
    (H.GetBucketElementSize (TlsPoolBucket.bound H self p m bi th) bi % 4294967296) bi
    (TlsPoolBucket.warmupTarget opt (m - H.SMM_MAX_CACHE_ITEMS_COUNT)) 0
    (TlsPoolBucket.bound H self p m bi th) { requests := [], kept := [], returned := [] }
  have heq := TlsPoolBucket.warmupAllocateLogged_eq H
    (H.GetBucketElementSize (TlsPoolBucket.bound H self p m bi th) bi % 4294967296) bi
    (TlsPoolBucket.warmupTarget opt (m - H.SMM_MAX_CACHE_ITEMS_COUNT)) 0
    (TlsPoolBucket.bound H self p m bi th) { requests := [], kept := [], returned := [] }
  refine ⟨?_, ?_, ?_, ?_, ?_, ?_, ?_, rfl, ?_, ?_, ?_, ?_, ?_, ?_⟩
  · simp only [TlsPoolBucket.bound, Function.update_same]
    exact hmax
  · simp only [TlsPoolBucket.bound, Function.update_same]
  · simp only [TlsPoolBucket.bound, Function.update_same]
  · simp only [TlsPoolBucket.bound, Function.update_same]
  · simp only [TlsPoolBucket.bound, Function.update_same]
  · simp only [TlsPoolBucket.bound, Function.update_same]
  · intro j hj
    simp only [TlsPoolBucket.bound]
    exact Function.update_noteq hj _ _
  · intro hopt
    subst hopt
    unfold TlsPoolBucket.Init
    simp only [hb, if_true]
    rfl
  · intro hopt
    rw [heq.1, heq.2]
    unfold TlsPoolBucket.Init
    simp only [hb, if_neg hopt]
    simp only [TlsPoolBucket.bound, TlsPoolBucket.warmupTarget, Function.update_same, hmax]
  · rw [hlog]
    simpa using hlen
  · intro c hc
    rw [hlog] at hc
    exact hall c (by simpa using hc)
  · simp [TlsPoolBucket.warmupTarget]
  · simp [TlsPoolBucket.warmupTarget]

/-- C11, witness: slot 0 of a thread with two buckets, a buffer of 71 words, seven L0 entries. -/
theorem tlsInit_binds_slot_and_bounds_warmup_witness :
    71 < 4294967296 ∧ Header.exhausted.SMM_MAX_CACHE_ITEMS_COUNT + 2 ≤ 71 ∧
    TlsPoolBucket.Init Header.exhausted 0 8192 71 CacheWarmupOptions.CACHE_COLD 0
        Thread.twoBuckets
      = some (TlsPoolBucket.bound Header.exhausted 0 8192 71 0 Thread.twoBuckets) ∧
    ((TlsPoolBucket.bound Header.exhausted 0 8192 71 0 Thread.twoBuckets).tlsCacheBuckets
      0).maxElementsCount = 64 := by
  obtain ⟨h1, _, _, _, _, _, _, _, h9, _⟩ := tlsInit_binds_slot_and_bounds_warmup
    Header.exhausted 0 8192 71 0 CacheWarmupOptions.CACHE_COLD Thread.twoBuckets (by decide)
    (by decide) rfl
  exact ⟨by decide, by decide, h9 rfl, h1⟩

/-! ## Chains: pop, grouped push, bucket lookup -/

theorem PoolBucket.IsChain_freeList (mem : Memory) (pData : Nat) :
    ∀ (l : List Nat) (u fuel : Nat), PoolBucket.IsChain mem pData u l → l.length < fuel →
      PoolBucket.freeListFrom mem pData fuel u = some l := by
  intro l
  induction l with
  | nil =>
    intro u fuel h hf
    obtain ⟨f, rfl⟩ : ∃ f, fuel = f + 1 := ⟨fuel - 1, by simp at hf; omega⟩
    simp only [PoolBucket.IsChain] at h
    simp [PoolBucket.freeListFrom, h]
  | cons x l ih =>
    intro u fuel h hf
    obtain ⟨f, rfl⟩ : ∃ f, fuel = f + 1 := ⟨fuel - 1, by simp at hf; omega⟩
    obtain ⟨h1, h2, h3⟩ := h
    rw [PoolBucket.freeListFrom, if_neg h1, h2, ih _ f h3 (by simpa using hf)]

theorem PoolBucket.IsChain_of_freeList (mem : Memory) (pData : Nat) :
    ∀ (fuel u : Nat) (l : List Nat), PoolBucket.freeListFrom mem pData fuel u = some l →
      PoolBucket.IsChain mem pData u l := by
  intro fuel
  induction fuel with
  | zero => intro u l h; simp [PoolBucket.freeListFrom] at h
  | succ f ih =>
    intro u l h
    unfold PoolBucket.freeListFrom at h
    split at h
    · rename_i hu
      simp only [Option.some.injEq] at h
      subst h
      exact hu
    · rename_i hu
      split at h
      · simp at h
      · rename_i l1 hl1
        simp only [Option.some.injEq] at h
        subst h
        exact ⟨hu, rfl, ih _ _ hl1⟩

/-- A chain only depends on the memory of its own elements. -/
theorem PoolBucket.IsChain_congr (mem1 mem2 : Memory) (pData : Nat) :
    ∀ (l : List Nat) (u : Nat), (∀ x, x ∈ l → mem2 (pData + x) = mem1 (pData + x)) →
      PoolBucket.IsChain mem1 pData u l → PoolBucket.IsChain mem2 pData u l := by
  intro l
  induction l with
  | nil => intro u _ h; exact h
  | cons x l ih =>
    intro u hm h
    obtain ⟨h1, h2, h3⟩ := h
    refine ⟨h1, h2, ?_⟩
    rw [hm x (List.mem_cons_self _ _)]
    exact ih _ (fun y hy => hm y (List.mem_cons_of_mem _ hy)) h3

theorem TaggedIndex.pack_ne_Invalid_of_lt (t h : Nat) (hh : h < 4294967295) :
    TaggedIndex.pack t h ≠ TaggedIndex.Invalid := by
  unfold TaggedIndex.pack TaggedIndex.Invalid
  have : h % 4294967296 = h := Nat.mod_eq_of_lt (by omega)
  rw [this]
  have := Nat.mod_lt t (by norm_num : 0 < 4294967296)
  omega

theorem TaggedIndex.offset_pack_of_lt (t h : Nat) (hh : h < 4294967295) :
    TaggedIndex.offset (TaggedIndex.pack t h) = h := by
  rw [TaggedIndex.offset_pack, Nat.mod_eq_of_lt (by omega)]

/-- The relinking writes only into the elements of the batch. -/
theorem PoolBucket.relink_frame (pData : Nat) :
    ∀ (hs : List Nat) (tag tail : Nat) (mem : Memory) (x : Nat),
      (∀ h, h ∈ hs → x ≠ pData + h) → PoolBucket.relink pData hs tag tail mem x = mem x := by
  intro hs
  induction hs with
  | nil => intro tag tail mem x _; rfl
  | cons h hs ih =>
    intro tag tail mem x hx
    cases hs with
    | nil =>
      rw [PoolBucket.relink]
      exact Memory.write_other _ _ _ _ (hx h (List.mem_cons_self _ _))
    | cons h2 hs =>
      rw [PoolBucket.relink, ih _ _ _ x (fun y hy => hx y (List.mem_cons_of_mem _ hy))]
      exact Memory.write_other _ _ _ _ (hx h (List.mem_cons_self _ _))

/-- After the relinking of a batch of distinct elements that are not on the chain `l` headed by
`tail`, a link to the first element of the batch heads the batch followed by `l`. -/
theorem PoolBucket.relink_chain (pData : Nat) :
    ∀ (hs : List Nat) (tag tail : Nat) (mem : Memory) (l : List Nat) (h0 t : Nat),
      (h0 :: hs).Nodup → (∀ h, h ∈ h0 :: hs → h < 4294967295) →
      (∀ h, h ∈ h0 :: hs → h ∉ l) → PoolBucket.IsChain mem pData tail l →
      PoolBucket.IsChain (PoolBucket.relink pData (h0 :: hs) tag tail mem) pData
        (TaggedIndex.pack t h0) (h0 :: hs ++ l) := by
  intro hs
  induction hs with
  | nil =>
    intro tag tail mem l h0 t hnd hlt hdisj hchain
    rw [PoolBucket.relink]
    refine ⟨TaggedIndex.pack_ne_Invalid_of_lt t h0 (hlt h0 (List.mem_cons_self _ _)),
      TaggedIndex.offset_pack_of_lt t h0 (hlt h0 (List.mem_cons_self _ _)), ?_⟩
    rw [Memory.write_same]
    apply PoolBucket.IsChain_congr mem _ pData l tail _ hchain
    intro x hx
    apply Memory.write_other
    intro heq
    have : x = h0 := by omega
    subst this
    exact hdisj x (List.mem_cons_self _ _) hx
  | cons h1 hs ih =>
    intro tag tail mem l h0 t hnd hlt hdisj hchain
    rw [PoolBucket.relink]
    have hnd1 : (h1 :: hs).Nodup := (List.nodup_cons.mp hnd).2
    have hnot : h0 ∉ h1 :: hs := (List.nodup_cons.mp hnd).1
    refine ⟨TaggedIndex.pack_ne_Invalid_of_lt t h0 (hlt h0 (List.mem_cons_self _ _)),
      TaggedIndex.offset_pack_of_lt t h0 (hlt h0 (List.mem_cons_self _ _)), ?_⟩
    rw [PoolBucket.relink_frame pData (h1 :: hs) _ _ _ (pData + h0) (by
      intro h hh heq
      have : h = h0 := by omega
      subst this
      exact hnot hh), Memory.write_same]
    apply ih (tag + 1) tail _ l h1 tag hnd1
      (fun h hh => hlt h (List.mem_cons_of_mem _ hh))
      (fun h hh => hdisj h (List.mem_cons_of_mem _ hh))
    apply PoolBucket.IsChain_congr mem _ pData l tail _ hchain
    intro x hx
    apply Memory.write_other
    intro heq
    have : x = h0 := by omega
    subst this
    exact hdisj x (List.mem_cons_self _ _) hx

/-- The grouped push of a batch of distinct elements that are not on the free chain `l` of the
bucket: afterwards the head heads the batch followed by `l`. -/
theorem PoolBucket.PushChain_spec (b : PoolBucket) (hs : List Nat) (mem : Memory) (l : List Nat)
    (hnd : hs.Nodup) (hlt : ∀ h, h ∈ hs → h < 4294967295) (hdisj : ∀ h, h ∈ hs → h ∉ l)
    (hchain : PoolBucket.IsChain mem b.pData b.head l) :
    PoolBucket.IsChain (PoolBucket.PushChain b hs mem).2 b.pData
      (PoolBucket.PushChain b hs mem).1.head (hs ++ l) ∧
    (PoolBucket.PushChain b hs mem).1.pData = b.pData ∧
    (PoolBucket.PushChain b hs mem).1.pBufferEnd = b.pBufferEnd ∧
    (∀ x, (∀ h, h ∈ hs → x ≠ b.pData + h) → (PoolBucket.PushChain b hs mem).2 x = mem x) := by
  cases hs with
  | nil => exact ⟨hchain, rfl, rfl, fun x _ => rfl⟩
  | cons h hs =>
    refine ⟨?_, rfl, rfl, ?_⟩
    · exact PoolBucket.relink_chain b.pData hs b.globalTag b.head mem l h _ hnd hlt hdisj hchain
    · intro x hx
      exact PoolBucket.relink_frame b.pData (h :: hs) _ _ _ x hx

/-- The scan of the base pointers finds the bucket whose region holds the address, when the
regions are laid out one after the other. -/
theorem Allocator.findBucket_spec (a : Allocator) (base p i : Nat)
    (hbegin : ∀ j, j < a.bucketsCount → a.bucketsDataBegin j = base + j * a.bucketSizeInBytes)
    (hlo : base + i * a.bucketSizeInBytes ≤ p)
    (hhi : p < base + i * a.bucketSizeInBytes + a.bucketSizeInBytes) :
    ∀ k, i < k → k ≤ a.bucketsCount → Allocator.findBucket a p k = some i := by
  intro k
  induction k with
  | zero => intro h _; omega
  | succ k ih =>
    intro hik hkn
    rw [Allocator.findBucket, hbegin k (by omega)]
    by_cases hk : k = i
    · subst hk
      rw [if_pos ⟨hlo, hhi⟩]
    · have hmul : (i + 1) * a.bucketSizeInBytes ≤ k * a.bucketSizeInBytes :=
        Nat.mul_le_mul_right _ (by omega)
      have hexp : (i + 1) * a.bucketSizeInBytes
          = i * a.bucketSizeInBytes + a.bucketSizeInBytes := by ring
      rw [if_neg (by omega)]
      exact ih (by omega) (by omega)

theorem Allocator.findBucket_congr (a b : Allocator) (p : Nat)
    (h1 : b.bucketsDataBegin = a.bucketsDataBegin)
    (h2 : b.bucketSizeInBytes = a.bucketSizeInBytes) :
    ∀ k, Allocator.findBucket b p k = Allocator.findBucket a p k := by
  intro k
  induction k with
  | zero => rfl
  | succ k ih => rw [Allocator.findBucket, Allocator.findBucket, ih, h1, h2]

/-! ## The warmup with the members modelled from the spec -/

theorem Allocator.Allocate_of_chain_cons (bi D x : Nat) (l : List Nat) (th : Thread)
    (hbi : bi < th.allocator.bucketsCount) (hD : (th.allocator.buckets bi).pData = D)
    (hchain : PoolBucket.IsChain th.allocator.mem D (th.allocator.buckets bi).head (x :: l)) :
    Allocator.Allocate (16 * (bi + 1)) 16 th =
      (D + x,
        { th with allocator :=
          { th.allocator with
            buckets := Function.update th.allocator.buckets bi
              { th.allocator.buckets bi with head := th.allocator.mem (D + x) } } }) := by
  obtain ⟨h1, h2, _⟩ := hchain
  have hidx : (16 * (bi + 1) - 1) / 16 = bi := by omega
  unfold Allocator.Allocate PoolBucket.Pop
  simp only [hidx, if_pos hbi, if_neg h1, hD, h2]

theorem Allocator.Allocate_of_chain_nil (bi D : Nat) (th : Thread)
    (hbi : bi < th.allocator.bucketsCount)
    (hchain : PoolBucket.IsChain th.allocator.mem D (th.allocator.buckets bi).head []) :
    Allocator.Allocate (16 * (bi + 1)) 16 th = (0, th) := by
  have h1 : (th.allocator.buckets bi).head = TaggedIndex.Invalid := hchain
  have hidx : (16 * (bi + 1) - 1) / 16 = bi := by omega
  unfold Allocator.Allocate PoolBucket.Pop
  simp only [hidx, if_pos hbi, if_pos h1, Function.update_eq_self]

theorem toInt32_of_small (n : Nat) (h : n < 2147483648) : toInt32 n = Int.ofNat n := by
  unfold toInt32
  rw [Nat.mod_eq_of_lt (by omega), if_pos h]

theorem TlsPoolBucket.IsWarmupChain_append (mem : Memory) :
    ∀ (ps : List Nat) (p q q2 : Nat), TlsPoolBucket.IsWarmupChain mem p ps q → q ≠ 0 →
      mem q = q2 → TlsPoolBucket.IsWarmupChain mem p (ps ++ [q]) q2 := by
  intro ps
  induction ps with
  | nil =>
    intro p q q2 h hq hm
    have hp : p = q := h
    subst hp
    exact ⟨rfl, hq, hm⟩
  | cons a ps ih =>
    intro p q q2 h hq hm
    obtain ⟨h1, h2, h3⟩ := h
    exact ⟨h1, h2, ih _ _ _ h3 hq hm⟩

theorem TlsPoolBucket.IsWarmupChain_congr (mem1 mem2 : Memory) :
    ∀ (ps : List Nat) (p q : Nat), (∀ a, a ∈ ps → mem2 a = mem1 a) →
      TlsPoolBucket.IsWarmupChain mem1 p ps q → TlsPoolBucket.IsWarmupChain mem2 p ps q := by
  intro ps
  induction ps with
  | nil => intro p q _ h; exact h
  | cons a ps ih =>
    intro p q hm h
    obtain ⟨h1, h2, h3⟩ := h
    refine ⟨h1, h2, ?_⟩
    rw [hm a (List.mem_cons_self _ _)]
    exact ih _ _ (fun y hy => hm y (List.mem_cons_of_mem _ hy)) h3

theorem Allocator.SameConfig.refl (a : Allocator) : Allocator.SameConfig a a :=
  ⟨rfl, rfl, rfl, rfl, rfl, rfl⟩

theorem Allocator.SameConfig.trans (a b c : Allocator) (h1 : Allocator.SameConfig a b)
    (h2 : Allocator.SameConfig b c) : Allocator.SameConfig a c := by
  unfold Allocator.SameConfig at h1 h2 ⊢
  refine ⟨h2.1.trans h1.1, h2.2.1.trans h1.2.1, h2.2.2.1.trans h1.2.2.1, ?_, ?_, ?_⟩
  · exact h2.2.2.2.1.trans h1.2.2.2.1
  · exact h2.2.2.2.2.1.trans h1.2.2.2.2.1
  · exact h2.2.2.2.2.2.trans h1.2.2.2.2.2

/-- The allocation loop of the warmup on a bucket whose free chain is `l`: it pops the first
`r` elements of `l` (all of them when there are fewer), chains them through their first words,
and leaves the rest of `l` on the bucket. -/
theorem TlsPoolBucket.warmupAllocate_fromSpec (C : Nat) (u : Bool) (bi D : Nat)
    (hbi31 : bi < 2147483648) :
    ∀ (r : Nat) (l : List Nat) (pRoot : Nat) (th : Thread),
      bi < th.allocator.bucketsCount →
      (th.allocator.buckets bi).pData = D →
      PoolBucket.IsChain th.allocator.mem D (th.allocator.buckets bi).head l →
      l.Nodup →
      (∀ x, x ∈ l → D + x ≠ 0) →
      (∀ x, x ∈ l →
        Allocator.findBucket th.allocator (D + x) th.allocator.bucketsCount = some bi) →
      ∃ pRoot1 th1,
        TlsPoolBucket.warmupAllocate (Header.fromSpec C u) (16 * (bi + 1)) bi r pRoot th
          = (pRoot1, th1) ∧
        th1.tlsCacheBuckets = th.tlsCacheBuckets ∧
        Allocator.SameConfig th.allocator th1.allocator ∧
        (∀ j, j ≠ bi → th1.allocator.buckets j = th.allocator.buckets j) ∧
        (th1.allocator.buckets bi).pData = D ∧
        (th1.allocator.buckets bi).pBufferEnd = (th.allocator.buckets bi).pBufferEnd ∧
        PoolBucket.IsChain th1.allocator.mem D (th1.allocator.buckets bi).head (l.drop r) ∧
        TlsPoolBucket.IsWarmupChain th1.allocator.mem pRoot1
          ((l.take r).reverse.map (fun x => D + x)) pRoot ∧
        (∀ x, (∀ h, h ∈ l.take r → x ≠ D + h) → th1.allocator.mem x = th.allocator.mem x) := by
  intro r
  induction r with
  | zero =>
    intro l pRoot th _ hD hchain _ _ _
    refine ⟨pRoot, th, rfl, rfl, Allocator.SameConfig.refl _, fun j _ => rfl, hD, rfl, ?_, ?_,
      fun x _ => rfl⟩
    · simpa using hchain
    · simp [TlsPoolBucket.IsWarmupChain]
  | succ r ih =>
    intro l pRoot th hbi hD hchain hnd hnz hgeo
    cases l with
    | nil =>
      refine ⟨pRoot, th, ?_, rfl, Allocator.SameConfig.refl _, fun j _ => rfl, hD, rfl, ?_, ?_,
        fun x _ => rfl⟩
      · rw [TlsPoolBucket.warmupAllocate]
        simp only [Header.fromSpec, Allocator.Allocate_of_chain_nil bi D th hbi hchain, if_true]
      · simpa using hchain
      · simp [TlsPoolBucket.IsWarmupChain]
    | cons x l =>
      have halloc := Allocator.Allocate_of_chain_cons bi D x l th hbi hD hchain
      have hxnz : D + x ≠ 0 := hnz x (List.mem_cons_self _ _)
      have hxl : x ∉ l := (List.nodup_cons.mp hnd).1
      obtain ⟨_, _, htail⟩ := hchain
      obtain ⟨pRoot1, th1, hrun, htls, hcfg, hothers, hD1, hend1, hchain1, hwarm1, hframe1⟩ :=
        ih l (D + x)
          { th with allocator :=
            { th.allocator with
              buckets := Function.update th.allocator.buckets bi
                { th.allocator.buckets bi with head := th.allocator.mem (D + x) }
              mem := th.allocator.mem.write (D + x) pRoot } }
          hbi (by simp only [Function.update_same]; exact hD)
          (by
            simp only [Function.update_same]
            apply PoolBucket.IsChain_congr th.allocator.mem _ D l _ _ htail
            intro y hy
            apply Memory.write_other
            intro heq
            have : y = x := by omega
            subst this
            exact hxl hy)
          (List.nodup_cons.mp hnd).2
          (fun y hy => hnz y (List.mem_cons_of_mem _ hy))
          (fun y hy => by
            refine Eq.trans (Allocator.findBucket_congr th.allocator _ _ ?_ ?_ _)
              (hgeo y (List.mem_cons_of_mem _ hy))
            · rfl
            · rfl)
      simp only at htls hcfg hothers hend1 hframe1
      refine ⟨pRoot1, th1, ?_, htls, ?_, ?_, hD1, ?_, ?_, ?_, ?_⟩
      · rw [TlsPoolBucket.warmupAllocate]
        have hidx : Allocator.GetBucketIndex
            { th.allocator with
              buckets := Function.update th.allocator.buckets bi
                { th.allocator.buckets bi with head := th.allocator.mem (D + x) } } (D + x)
            = toInt32 bi := by
          have hfind : Allocator.findBucket
              { th.allocator with
                buckets := Function.update th.allocator.buckets bi
                  { th.allocator.buckets bi with head := th.allocator.mem (D + x) } } (D + x)
              th.allocator.bucketsCount = some bi := by
            refine Eq.trans (Allocator.findBucket_congr th.allocator _ _ ?_ ?_ _)
              (hgeo x (List.mem_cons_self _ _))
            · rfl
            · rfl
          unfold Allocator.GetBucketIndex
          simp only [hfind, toInt32_of_small bi hbi31]
        simp only [Header.fromSpec, halloc, if_neg hxnz, hidx, ne_eq, not_true_eq_false,
          if_false]
        exact hrun
      · obtain ⟨c1, c2, c3, c4, c5, c6⟩ := hcfg
        exact ⟨c1, c2, c3, c4, c5, c6⟩
      · intro j hj
        rw [hothers j hj]
        exact Function.update_noteq hj _ _
      · rw [hend1]
        simp only [Function.update_same]
      · simpa using hchain1
      · simp only [List.take_succ_cons, List.reverse_cons, List.map_append, List.map_cons,
          List.map_nil]
        apply TlsPoolBucket.IsWarmupChain_append _ _ _ _ _ hwarm1 hxnz
        rw [hframe1 (D + x) (by
          intro h hh heq
          have : h = x := by omega
          subst this
          exact hxl (List.mem_of_mem_take hh))]
        exact Memory.write_same _ _ _
      · intro y hy
        rw [hframe1 y (fun h hh => hy h (by
          simp only [List.take_succ_cons]
          exact List.mem_cons_of_mem _ hh))]
        apply Memory.write_other
        exact hy x (by simp)

theorem List.perm_insert_middle (L1 L0 tl : List Nat) (h : Nat) (X : List Nat)
    (hp : List.Perm X (L1 ++ [h] ++ L0 ++ tl)) : List.Perm X (L1 ++ L0 ++ h :: tl) := by
  refine hp.trans ?_
  simp only [List.append_assoc, List.singleton_append]
  apply List.Perm.append_left
  exact List.perm_middle.symm

theorem TlsPoolBucket.handlesL1_snoc (P n h : Nat) (mem : Memory) :
    TlsPoolBucket.handlesL1 P 0 (n + 1) (mem.write (P + 4 * n) h)
      = TlsPoolBucket.handlesL1 P 0 n mem ++ [h] := by
  unfold TlsPoolBucket.handlesL1
  rw [List.range_succ, List.map_append]
  congr 1
  · apply List.map_congr_left
    intro k hk
    rw [List.mem_range] at hk
    apply Memory.write_other
    omega
  · simp [Memory.write_same]

theorem TlsPoolBucket.handlesL1_congr (P n : Nat) (mem1 mem2 : Memory)
    (h : ∀ k, k < n → mem2 (P + 4 * k) = mem1 (P + 4 * k)) :
    TlsPoolBucket.handlesL1 P 0 n mem2 = TlsPoolBucket.handlesL1 P 0 n mem1 := by
  unfold TlsPoolBucket.handlesL1
  apply List.map_congr_left
  intro k hk
  rw [List.mem_range] at hk
  simpa using h k hk

/-- The release of a block into the inline array. -/
theorem Allocator.ReleaseToCache_L0 (C : Nat) (u : Bool) (self p : Nat) (th : Thread)
    (hmax : (th.tlsCacheBuckets self).maxElementsCount ≠ 0) (hu : u = true)
    (hroom : (th.tlsCacheBuckets self).numElementsL0 < C) :
    Allocator.ReleaseToCache C u self p th =
      (true,
        { th with
          tlsCacheBuckets := Function.update th.tlsCacheBuckets self
              { th.tlsCacheBuckets self with
                storageL0 := Function.update (th.tlsCacheBuckets self).storageL0
                  (th.tlsCacheBuckets self).numElementsL0
                  ((p - (th.tlsCacheBuckets self).pBucketData) % 4294967296)
                numElementsL0 := (th.tlsCacheBuckets self).numElementsL0 + 1 } }) := by
  unfold Allocator.ReleaseToCache
  simp only [if_neg hmax, hu, hroom, and_self, if_true]

/-- The release of a block into an L1 buffer that is not full. -/
theorem Allocator.ReleaseToCache_L1 (C : Nat) (u : Bool) (self p : Nat) (th : Thread)
    (hmax : (th.tlsCacheBuckets self).maxElementsCount ≠ 0)
    (hno : ¬ (u = true ∧ (th.tlsCacheBuckets self).numElementsL0 < C))
    (hroom : (th.tlsCacheBuckets self).numElementsL1 < (th.tlsCacheBuckets self).maxElementsCount) :
    Allocator.ReleaseToCache C u self p th =
      (true,
        { allocator :=
            { th.allocator with
              mem := th.allocator.mem.write
                ((th.tlsCacheBuckets self).pStorageL1 + 4 * (th.tlsCacheBuckets self).numElementsL1)
                ((p - (th.tlsCacheBuckets self).pBucketData) % 4294967296) }
          tlsCacheBuckets := Function.update th.tlsCacheBuckets self
            { th.tlsCacheBuckets self with
              numElementsL1 := ((th.tlsCacheBuckets self).numElementsL1 + 1) % 4294967296 } }) := by
  unfold Allocator.ReleaseToCache
  simp only [if_neg hmax, if_neg hno, if_pos hroom]

/-- The release loop of the warmup over a chain of blocks of one bucket, into a cache slot with
room for all of them: every block's handle ends up in L0 or in L1, and only the words of the
L1 buffer behind its old entries are written. -/
theorem TlsPoolBucket.warmupRelease_fromSpec (C : Nat) (u : Bool) (self D P M : Nat)
    (hM : M < 4294967296) :
    ∀ (hs : List Nat) (fuel pCurrent : Nat) (th : Thread),
      TlsPoolBucket.IsWarmupChain th.allocator.mem pCurrent (hs.map (fun x => D + x)) 0 →
      hs.length ≤ fuel →
      (th.tlsCacheBuckets self).maxElementsCount = M →
      (th.tlsCacheBuckets self).pBucketData = D →
      (th.tlsCacheBuckets self).pStorageL1 = P →
      (∀ h, h ∈ hs → h < 4294967296) →
      (th.tlsCacheBuckets self).numElementsL1 + hs.length ≤ M →
      (∀ h, h ∈ hs → ∀ k, k < M → D + h ≠ P + 4 * k) →
      ∃ th1,
        TlsPoolBucket.warmupRelease (Header.fromSpec C u) self fuel pCurrent th = some th1 ∧
        Allocator.SameConfig th.allocator th1.allocator ∧
        th1.allocator.buckets = th.allocator.buckets ∧
        (∀ j, j ≠ self → th1.tlsCacheBuckets j = th.tlsCacheBuckets j) ∧
        (th1.tlsCacheBuckets self).maxElementsCount = M ∧
        (th1.tlsCacheBuckets self).pBucketData = D ∧
        (th1.tlsCacheBuckets self).pStorageL1 = P ∧
        (th1.tlsCacheBuckets self).pBucket = (th.tlsCacheBuckets self).pBucket ∧
        (th1.tlsCacheBuckets self).numElementsL0 + (th1.tlsCacheBuckets self).numElementsL1
          = (th.tlsCacheBuckets self).numElementsL0 + (th.tlsCacheBuckets self).numElementsL1
            + hs.length ∧
        (th.tlsCacheBuckets self).numElementsL1 ≤ (th1.tlsCacheBuckets self).numElementsL1 ∧
        (th1.tlsCacheBuckets self).numElementsL1
          ≤ (th.tlsCacheBuckets self).numElementsL1 + hs.length ∧
        List.Perm
          (TlsPoolBucket.listL1 (th1.tlsCacheBuckets self) th1.allocator.mem
            ++ TlsPoolBucket.listL0 (th1.tlsCacheBuckets self))
          (TlsPoolBucket.listL1 (th.tlsCacheBuckets self) th.allocator.mem
            ++ TlsPoolBucket.listL0 (th.tlsCacheBuckets self) ++ hs) ∧
        (∀ x, (∀ k, (th.tlsCacheBuckets self).numElementsL1 ≤ k →
            k < (th.tlsCacheBuckets self).numElementsL1 + hs.length → x ≠ P + 4 * k) →
          th1.allocator.mem x = th.allocator.mem x) := by
  intro hs
  induction hs with
  | nil =>
    intro fuel pCurrent th hchain _ hmax hD hP _ _ _
    have hp : pCurrent = 0 := hchain
    subst hp
    refine ⟨th, ?_, Allocator.SameConfig.refl _, rfl, fun j _ => rfl, hmax, hD, hP, rfl,
      by simp, le_refl _, by simp, by simp, fun x _ => rfl⟩
    cases fuel <;> simp [TlsPoolBucket.warmupRelease]
  | cons h hs ih =>
    intro fuel pCurrent th hchain hfuel hmax hD hP hlt hroom hdisj
    obtain ⟨f, rfl⟩ : ∃ f, fuel = f + 1 := ⟨fuel - 1, by simp at hfuel; omega⟩
    simp only [List.map_cons] at hchain
    obtain ⟨hp, hpnz, hnext⟩ := hchain
    subst hp
    have hlen : (h :: hs).length = hs.length + 1 := rfl
    rw [hlen] at hroom
    have hmax0 : (th.tlsCacheBuckets self).maxElementsCount ≠ 0 := by omega
    have hoff : (D + h - (th.tlsCacheBuckets self).pBucketData) % 4294967296 = h := by
      rw [hD, Nat.add_sub_cancel_left, Nat.mod_eq_of_lt (hlt h (List.mem_cons_self _ _))]
    by_cases hL0 : u = true ∧ (th.tlsCacheBuckets self).numElementsL0 < C
    · -- the handle goes to the inline array
      have hrel := Allocator.ReleaseToCache_L0 C u self (D + h) th hmax0 hL0.1 hL0.2
      rw [hoff] at hrel
      obtain ⟨th1, hrun, hcfg, hbk, hothers, hm1, hd1, hp1, hpb1, hcnt, hge, hle, hperm, hframe⟩ :=
        ih f (th.allocator.mem (D + h))
          { th with
            tlsCacheBuckets := Function.update th.tlsCacheBuckets self
                { th.tlsCacheBuckets self with
                  storageL0 := Function.update (th.tlsCacheBuckets self).storageL0
                    (th.tlsCacheBuckets self).numElementsL0 h
                  numElementsL0 := (th.tlsCacheBuckets self).numElementsL0 + 1 } }
          hnext (by simpa using hfuel)
          (by simp only [Function.update_same]; exact hmax)
          (by simp only [Function.update_same]; exact hD)
          (by simp only [Function.update_same]; exact hP)
          (fun y hy => hlt y (List.mem_cons_of_mem _ hy))
          (by simp only [Function.update_same]; omega)
          (fun y hy => hdisj y (List.mem_cons_of_mem _ hy))
      simp only [Function.update_same] at hcfg hbk hothers hpb1 hcnt hge hle hperm hframe
      refine ⟨th1, ?_, hcfg, hbk, ?_, hm1, hd1, hp1, hpb1, by rw [hcnt, hlen]; omega, hge,
        by rw [hlen]; omega, ?_, ?_⟩
      · rw [TlsPoolBucket.warmupRelease, if_neg hpnz]
        simp only [Header.fromSpec, hrel]
        exact hrun
      · intro j hj
        rw [hothers j hj]
        exact Function.update_noteq hj _ _
      · refine hperm.trans ?_
        have hl0 : TlsPoolBucket.listL0
            { th.tlsCacheBuckets self with
              storageL0 := Function.update (th.tlsCacheBuckets self).storageL0
                (th.tlsCacheBuckets self).numElementsL0 h
              numElementsL0 := (th.tlsCacheBuckets self).numElementsL0 + 1 }
            = TlsPoolBucket.listL0 (th.tlsCacheBuckets self) ++ [h] := by
          unfold TlsPoolBucket.listL0
          simp only [List.range_succ, List.map_append, List.map_cons, List.map_nil,
            Function.update_same]
          congr 1
          apply List.map_congr_left
          intro k hk
          rw [List.mem_range] at hk
          exact Function.update_noteq (by omega) _ _
        have hl1 : TlsPoolBucket.listL1
            { th.tlsCacheBuckets self with
              storageL0 := Function.update (th.tlsCacheBuckets self).storageL0
                (th.tlsCacheBuckets self).numElementsL0 h
              numElementsL0 := (th.tlsCacheBuckets self).numElementsL0 + 1 } th.allocator.mem
            = TlsPoolBucket.listL1 (th.tlsCacheBuckets self) th.allocator.mem := rfl
        rw [hl0, hl1]
        simp only [List.append_assoc, List.singleton_append]
        exact List.Perm.refl _
      · intro x hx
        exact hframe x (fun k hk1 hk2 => hx k hk1 (by rw [hlen]; omega))
    · -- the handle goes to L1
      have hrel := Allocator.ReleaseToCache_L1 C u self (D + h) th hmax0 hL0 (by omega)
      rw [hoff, hP] at hrel
      have hmod : ((th.tlsCacheBuckets self).numElementsL1 + 1) % 4294967296
          = (th.tlsCacheBuckets self).numElementsL1 + 1 := Nat.mod_eq_of_lt (by omega)
      rw [hmod] at hrel
      have hnext2 : TlsPoolBucket.IsWarmupChain
          (th.allocator.mem.write (P + 4 * (th.tlsCacheBuckets self).numElementsL1) h)
          (th.allocator.mem (D + h)) (hs.map (fun x => D + x)) 0 := by
        apply TlsPoolBucket.IsWarmupChain_congr th.allocator.mem _ _ _ _ _ hnext
        intro a ha
        obtain ⟨y, hy, rfl⟩ := List.mem_map.mp ha
        apply Memory.write_other
        exact hdisj y (List.mem_cons_of_mem _ hy) _ (by omega)
      obtain ⟨th1, hrun, hcfg, hbk, hothers, hm1, hd1, hp1, hpb1, hcnt, hge, hle, hperm, hframe⟩ :=
        ih f (th.allocator.mem (D + h))
          { allocator :=
              { th.allocator with
                mem := th.allocator.mem.write
                  (P + 4 * (th.tlsCacheBuckets self).numElementsL1) h }
            tlsCacheBuckets := Function.update th.tlsCacheBuckets self
              { th.tlsCacheBuckets self with
                numElementsL1 := (th.tlsCacheBuckets self).numElementsL1 + 1 } }
          hnext2 (by simpa using hfuel)
          (by simp only [Function.update_same]; exact hmax)
          (by simp only [Function.update_same]; exact hD)
          (by simp only [Function.update_same]; exact hP)
          (fun y hy => hlt y (List.mem_cons_of_mem _ hy))
          (by simp only [Function.update_same]; omega)
          (fun y hy => hdisj y (List.mem_cons_of_mem _ hy))
      simp only [Function.update_same] at hcfg hbk hothers hpb1 hcnt hge hle hperm hframe
      refine ⟨th1, ?_, ?_, hbk, ?_, hm1, hd1, hp1, hpb1, by rw [hcnt, hlen]; omega,
        by omega, by rw [hlen]; omega, ?_, ?_⟩
      · rw [TlsPoolBucket.warmupRelease, if_neg hpnz]
        simp only [Header.fromSpec, hrel]
        exact hrun
      · obtain ⟨c1, c2, c3, c4, c5, c6⟩ := hcfg
        exact ⟨c1, c2, c3, c4, c5, c6⟩
      · intro j hj
        rw [hothers j hj]
        exact Function.update_noteq hj _ _
      · apply List.perm_insert_middle
        refine hperm.trans ?_
        have hl1 : TlsPoolBucket.listL1
            { th.tlsCacheBuckets self with
              numElementsL1 := (th.tlsCacheBuckets self).numElementsL1 + 1 }
            (th.allocator.mem.write (P + 4 * (th.tlsCacheBuckets self).numElementsL1) h)
            = TlsPoolBucket.listL1 (th.tlsCacheBuckets self) th.allocator.mem ++ [h] := by
          unfold TlsPoolBucket.listL1
          simp only [hP]
          exact TlsPoolBucket.handlesL1_snoc P _ h _
        have hl0 : TlsPoolBucket.listL0
            { th.tlsCacheBuckets self with
              numElementsL1 := (th.tlsCacheBuckets self).numElementsL1 + 1 }
            = TlsPoolBucket.listL0 (th.tlsCacheBuckets self) := rfl
        rw [hl1, hl0]
      · intro x hx
        rw [hframe x (fun k hk1 hk2 => hx k (by omega) (by rw [hlen]; omega))]
        apply Memory.write_other
        exact hx _ (le_refl _) (by rw [hlen]; omega)

theorem TlsPoolBucket.warmupTarget_le (opt : CacheWarmupOptions) (M : Nat) :
    TlsPoolBucket.warmupTarget opt M ≤ M := by
  unfold TlsPoolBucket.warmupTarget
  split
  · exact Nat.div_le_self _ _
  · exact le_refl _

/-- `TlsPoolBucket::Init` with a warmup, on a bucket whose free chain is `l`, with the members
modelled from the spec: it returns; the first `num` elements of `l` (all of them when there are
fewer) move from the shared chain into the cache of the slot, the rest stays on the chain. -/
theorem TlsPoolBucket.Init_fromSpec (C : Nat) (u : Bool) (self bi D P m : Nat)
    (opt : CacheWarmupOptions) (l : List Nat) (th : Thread)
    (hm : m < 4294967296) (hCm : C ≤ m) (hopt : opt ≠ CacheWarmupOptions.CACHE_COLD)
    (hbi : bi < th.allocator.bucketsCount) (hbi64 : bi < 64)
    (hD : (th.allocator.buckets bi).pData = D)
    (hchain : PoolBucket.IsChain th.allocator.mem D (th.allocator.buckets bi).head l)
    (hnd : l.Nodup) (hnz : ∀ x, x ∈ l → D + x ≠ 0)
    (hgeo : ∀ x, x ∈ l →
      Allocator.findBucket th.allocator (D + x) th.allocator.bucketsCount = some bi)
    (hlt : ∀ x, x ∈ l → x < 4294967296)
    (hdisj : ∀ x, x ∈ l → ∀ k, k < m - C → D + x ≠ P + 4 * k) :
    ∃ th1,
      TlsPoolBucket.Init (Header.fromSpec C u) self P m opt bi th = some th1 ∧
      Allocator.SameConfig th.allocator th1.allocator ∧
      (∀ j, j ≠ bi → th1.allocator.buckets j = th.allocator.buckets j) ∧
      (th1.allocator.buckets bi).pData = D ∧
      (th1.allocator.buckets bi).pBufferEnd = (th.allocator.buckets bi).pBufferEnd ∧
      PoolBucket.IsChain th1.allocator.mem D (th1.allocator.buckets bi).head
        (l.drop (TlsPoolBucket.warmupTarget opt (m - C))) ∧
      (∀ j, j ≠ self → th1.tlsCacheBuckets j = th.tlsCacheBuckets j) ∧
      (th1.tlsCacheBuckets self).maxElementsCount = m - C ∧
      (th1.tlsCacheBuckets self).pBucketData = D ∧
      (th1.tlsCacheBuckets self).pStorageL1 = P ∧
      (th1.tlsCacheBuckets self).pBucket = some bi ∧
      (th1.tlsCacheBuckets self).numElementsL0 + (th1.tlsCacheBuckets self).numElementsL1
        = (l.take (TlsPoolBucket.warmupTarget opt (m - C))).length ∧
      List.Perm
        (TlsPoolBucket.listL1 (th1.tlsCacheBuckets self) th1.allocator.mem
          ++ TlsPoolBucket.listL0 (th1.tlsCacheBuckets self))
        (l.take (TlsPoolBucket.warmupTarget opt (m - C))) ∧
      (∀ x, (∀ h, h ∈ l.take (TlsPoolBucket.warmupTarget opt (m - C)) → x ≠ D + h) →
        (∀ k, k < (l.take (TlsPoolBucket.warmupTarget opt (m - C))).length → x ≠ P + 4 * k) →
        th1.allocator.mem x = th.allocator.mem x) := by
  have hmax : (m % 4294967296 + 4294967296 - C % 4294967296) % 4294967296 = m - C := by
    have h1 : m % 4294967296 = m := Nat.mod_eq_of_lt hm
    have h2 : C % 4294967296 = C := Nat.mod_eq_of_lt (by omega)
    rw [h1, h2]
    omega
  have hes : 16 * (bi + 1) % 4294967296 = 16 * (bi + 1) := Nat.mod_eq_of_lt (by omega)
  have hnum := TlsPoolBucket.warmupTarget_le opt (m - C)
  -- the allocation loop, from the slot just bound
  obtain ⟨pRoot1, thA, hrunA, htlsA, hcfgA, hothersA, hDA, hendA, hchainA, hwarmA, hframeA⟩ :=
    TlsPoolBucket.warmupAllocate_fromSpec C u bi D (by omega)
      (TlsPoolBucket.warmupTarget opt (m - C)) l 0
      (TlsPoolBucket.bound (Header.fromSpec C u) self P m bi th)
      hbi hD hchain hnd hnz hgeo
  have hslotA : thA.tlsCacheBuckets self =
      { th.tlsCacheBuckets self with
        pStorageL1 := P
        numElementsL1 := 0
        numElementsL0 := 0
        maxElementsCount := m - C
        pBucket := some bi
        pBucketData := D } := by
    rw [htlsA]
    simp only [TlsPoolBucket.bound, Function.update_same, Header.fromSpec, hmax, hD]
  have hlen : (l.take (TlsPoolBucket.warmupTarget opt (m - C))).length
      ≤ TlsPoolBucket.warmupTarget opt (m - C) := by
    rw [List.length_take]
    exact Nat.min_le_left _ _
  -- the release loop
  obtain ⟨thR, hrunR, hcfgR, hbkR, hothersR, hmR, hdR, hpR, hpbR, hcntR, _, _, hpermR,
      hframeR⟩ :=
    TlsPoolBucket.warmupRelease_fromSpec C u self D P (m - C) (by omega)
      (l.take (TlsPoolBucket.warmupTarget opt (m - C))).reverse
      (TlsPoolBucket.warmupTarget opt (m - C)) pRoot1 thA
      (by rw [List.map_reverse] at hwarmA ⊢; exact hwarmA)
      (by rw [List.length_reverse]; exact hlen)
      (by rw [hslotA]) (by rw [hslotA]) (by rw [hslotA])
      (fun h hh => hlt h (List.mem_of_mem_take (List.mem_reverse.mp hh)))
      (by rw [hslotA, List.length_reverse]; simp only; omega)
      (fun h hh => hdisj h (List.mem_of_mem_take (List.mem_reverse.mp hh)))
  rw [hslotA] at hpbR hcntR hpermR hframeR
  simp only [List.length_reverse] at hcntR hframeR
  refine ⟨thR, ?_, Allocator.SameConfig.trans _ _ _ hcfgA hcfgR, ?_, ?_, ?_, ?_, ?_, hmR, hdR,
    hpR, hpbR, ?_, ?_, ?_⟩
  · unfold TlsPoolBucket.Init
    have hget : (Header.fromSpec C u).GetBucketByIndex th bi = some bi := by
      simp only [Header.fromSpec, Allocator.GetBucketByIndex, if_pos hbi]
    simp only [hget, if_neg hopt]
    have hsz : ∀ t : Thread,
        (Header.fromSpec C u).GetBucketElementSize t bi % 4294967296 = 16 * (bi + 1) := by
      intro t
      simp only [Header.fromSpec, Allocator.GetBucketElementSize]
      exact hes
    have hmax2 : (m % 4294967296 + 4294967296
        - (Header.fromSpec C u).SMM_MAX_CACHE_ITEMS_COUNT % 4294967296) % 4294967296 = m - C :=
      hmax
    have hrunA2 := hrunA
    simp only [hsz]
    simp only [TlsPoolBucket.bound, TlsPoolBucket.warmupTarget, Function.update_same, hmax,
      hmax2] at hrunA2 hrunR ⊢
    rw [hrunA2]
    exact hrunR
  · intro j hj
    rw [hbkR, hothersA j hj]
    rfl
  · rw [hbkR]; exact hDA
  · rw [hbkR, hendA]; rfl
  · rw [hbkR]
    apply PoolBucket.IsChain_congr thA.allocator.mem _ D _ _ _ hchainA
    intro x hx
    apply hframeR
    intro k _ hk
    have hxl : x ∈ l := List.mem_of_mem_drop hx
    exact hdisj x hxl k (by omega)
  · intro j hj
    rw [hothersR j hj, htlsA]
    simp only [TlsPoolBucket.bound]
    exact Function.update_noteq hj _ _
  · simpa using hcntR
  · refine hpermR.trans ?_
    simp only [TlsPoolBucket.listL1, TlsPoolBucket.listL0, TlsPoolBucket.handlesL1,
      List.range_zero, List.map_nil, List.nil_append]
    exact List.reverse_perm _
  · intro x hx1 hx2
    rw [hframeR x (fun k _ hk => hx2 k (by simpa using hk)), hframeA x hx1]
    rfl

/-- After the fold of `Destroy` the L1 buffer lists the old L1 handles followed by the L0 ones. -/
theorem TlsPoolBucket.foldL0_handles (t : TlsPoolBucket) (mem : Memory)
    (h : t.numElementsL1 + t.numElementsL0 < 4294967296) :
    TlsPoolBucket.handlesL1 t.pStorageL1 0 (t.numElementsL1 + t.numElementsL0)
      (TlsPoolBucket.foldL0 t.storageL0 t.pStorageL1 t.numElementsL0 0 t.numElementsL1 mem).2
    = TlsPoolBucket.listL1 t mem ++ TlsPoolBucket.listL0 t := by
  obtain ⟨_, hf2, hf3⟩ := TlsPoolBucket.foldL0_spec t.storageL0 t.pStorageL1 t.numElementsL0 0
    t.numElementsL1 mem h
  unfold TlsPoolBucket.listL1 TlsPoolBucket.listL0 TlsPoolBucket.handlesL1
  rw [List.range_add, List.map_append, List.map_map]
  congr 1
  · apply List.map_congr_left
    intro k hk
    rw [List.mem_range] at hk
    apply hf3
    intro j _
    omega
  · apply List.map_congr_left
    intro k hk
    rw [List.mem_range] at hk
    simp only [Function.comp, Nat.zero_add]
    rw [hf2 k hk, Nat.zero_add]

/-- `TlsPoolBucket::Destroy` with the members modelled from the spec: the handles held in the
cache (L1 then L0) are pushed in front of the free chain of the bucket the slot is bound to. -/
theorem TlsPoolBucket.Destroy_fromSpec (C : Nat) (u : Bool) (self bi D : Nat)
    (rest : List Nat) (th : Thread)
    (hpb : (th.tlsCacheBuckets self).pBucket = some bi)
    (hsum : (th.tlsCacheBuckets self).numElementsL1 + (th.tlsCacheBuckets self).numElementsL0
      < 4294967296)
    (hD : (th.allocator.buckets bi).pData = D)
    (hchain : PoolBucket.IsChain th.allocator.mem D (th.allocator.buckets bi).head rest)
    (hnd : (TlsPoolBucket.listL1 (th.tlsCacheBuckets self) th.allocator.mem
      ++ TlsPoolBucket.listL0 (th.tlsCacheBuckets self)).Nodup)
    (hlt : ∀ h, h ∈ TlsPoolBucket.listL1 (th.tlsCacheBuckets self) th.allocator.mem
      ++ TlsPoolBucket.listL0 (th.tlsCacheBuckets self) → h < 4294967295)
    (hdisj : ∀ h, h ∈ TlsPoolBucket.listL1 (th.tlsCacheBuckets self) th.allocator.mem
      ++ TlsPoolBucket.listL0 (th.tlsCacheBuckets self) → h ∉ rest)
    (hbuf : ∀ k, k < (th.tlsCacheBuckets self).numElementsL1
        + (th.tlsCacheBuckets self).numElementsL0 →
      ∀ h, h ∈ rest → D + h ≠ (th.tlsCacheBuckets self).pStorageL1 + 4 * k) :
    Allocator.SameConfig th.allocator (TlsPoolBucket.Destroy (Header.fromSpec C u) self th).2.allocator ∧
    (∀ j, j ≠ bi → (TlsPoolBucket.Destroy (Header.fromSpec C u) self th).2.allocator.buckets j
      = th.allocator.buckets j) ∧
    ((TlsPoolBucket.Destroy (Header.fromSpec C u) self th).2.allocator.buckets bi).pData = D ∧
    ((TlsPoolBucket.Destroy (Header.fromSpec C u) self th).2.allocator.buckets bi).pBufferEnd
      = (th.allocator.buckets bi).pBufferEnd ∧
    PoolBucket.IsChain (TlsPoolBucket.Destroy (Header.fromSpec C u) self th).2.allocator.mem D
      ((TlsPoolBucket.Destroy (Header.fromSpec C u) self th).2.allocator.buckets bi).head
      (TlsPoolBucket.listL1 (th.tlsCacheBuckets self) th.allocator.mem
        ++ TlsPoolBucket.listL0 (th.tlsCacheBuckets self) ++ rest) ∧
    (∀ x,
      (∀ k, k < (th.tlsCacheBuckets self).numElementsL1
        + (th.tlsCacheBuckets self).numElementsL0 →
        x ≠ (th.tlsCacheBuckets self).pStorageL1 + 4 * k) →
      (∀ h, h ∈ TlsPoolBucket.listL1 (th.tlsCacheBuckets self) th.allocator.mem
        ++ TlsPoolBucket.listL0 (th.tlsCacheBuckets self) → x ≠ D + h) →
      (TlsPoolBucket.Destroy (Header.fromSpec C u) self th).2.allocator.mem x
        = th.allocator.mem x) := by
  obtain ⟨hf1, hf2, hf3⟩ := TlsPoolBucket.foldL0_spec (th.tlsCacheBuckets self).storageL0
    (th.tlsCacheBuckets self).pStorageL1 (th.tlsCacheBuckets self).numElementsL0 0
    (th.tlsCacheBuckets self).numElementsL1 th.allocator.mem hsum
  have hhandles := TlsPoolBucket.foldL0_handles (th.tlsCacheBuckets self) th.allocator.mem hsum
  have hchainF : PoolBucket.IsChain
      (TlsPoolBucket.foldL0 (th.tlsCacheBuckets self).storageL0
        (th.tlsCacheBuckets self).pStorageL1 (th.tlsCacheBuckets self).numElementsL0 0
        (th.tlsCacheBuckets self).numElementsL1 th.allocator.mem).2
      D (th.allocator.buckets bi).head rest := by
    apply PoolBucket.IsChain_congr th.allocator.mem _ D _ _ _ hchain
    intro x hx
    apply hf3
    intro j hj
    exact hbuf _ (by omega) x hx
  by_cases hzero : (th.tlsCacheBuckets self).numElementsL1
      + (th.tlsCacheBuckets self).numElementsL0 = 0
  · have hempty : TlsPoolBucket.listL1 (th.tlsCacheBuckets self) th.allocator.mem
        ++ TlsPoolBucket.listL0 (th.tlsCacheBuckets self) = [] := by
      rw [← hhandles, hzero]
      rfl
    have hnot : ¬ ((TlsPoolBucket.foldL0 (th.tlsCacheBuckets self).storageL0
        (th.tlsCacheBuckets self).pStorageL1 (th.tlsCacheBuckets self).numElementsL0 0
        (th.tlsCacheBuckets self).numElementsL1 th.allocator.mem).1 > 0) := by
      rw [hf1]
      omega
    unfold TlsPoolBucket.Destroy
    simp only [if_neg hnot, hempty, List.nil_append]
    refine ⟨⟨rfl, rfl, rfl, rfl, rfl, rfl⟩, fun j _ => trivial, hD, trivial, hchainF, ?_⟩
    intro x hx _
    exact hf3 x (fun j hj => hx _ (by omega))
  · have hpos : (TlsPoolBucket.foldL0 (th.tlsCacheBuckets self).storageL0
        (th.tlsCacheBuckets self).pStorageL1 (th.tlsCacheBuckets self).numElementsL0 0
        (th.tlsCacheBuckets self).numElementsL1 th.allocator.mem).1 > 0 := by
      rw [hf1]
      omega
    have hD2 : (th.allocator.buckets bi).pData = D := hD
    obtain ⟨hp1, hp2, hp3, hp4⟩ := PoolBucket.PushChain_spec (th.allocator.buckets bi)
      (TlsPoolBucket.listL1 (th.tlsCacheBuckets self) th.allocator.mem
        ++ TlsPoolBucket.listL0 (th.tlsCacheBuckets self))
      (TlsPoolBucket.foldL0 (th.tlsCacheBuckets self).storageL0
        (th.tlsCacheBuckets self).pStorageL1 (th.tlsCacheBuckets self).numElementsL0 0
        (th.tlsCacheBuckets self).numElementsL1 th.allocator.mem).2
      rest hnd hlt hdisj (by rw [hD]; exact hchainF)
    rw [hD] at hp1 hp2 hp4
    have hflush : TlsPoolBucket.ReturnL1CacheToMaster
        { th.tlsCacheBuckets self with
          numElementsL1 := (th.tlsCacheBuckets self).numElementsL1
            + (th.tlsCacheBuckets self).numElementsL0 }
        ((th.tlsCacheBuckets self).numElementsL1 + (th.tlsCacheBuckets self).numElementsL0)
        { th.allocator with
          mem := (TlsPoolBucket.foldL0 (th.tlsCacheBuckets self).storageL0
            (th.tlsCacheBuckets self).pStorageL1 (th.tlsCacheBuckets self).numElementsL0 0
            (th.tlsCacheBuckets self).numElementsL1 th.allocator.mem).2 }
        = (0,
           Function.update th.allocator.buckets bi
             (PoolBucket.PushChain (th.allocator.buckets bi)
               (TlsPoolBucket.listL1 (th.tlsCacheBuckets self) th.allocator.mem
                 ++ TlsPoolBucket.listL0 (th.tlsCacheBuckets self))
               (TlsPoolBucket.foldL0 (th.tlsCacheBuckets self).storageL0
                 (th.tlsCacheBuckets self).pStorageL1 (th.tlsCacheBuckets self).numElementsL0 0
                 (th.tlsCacheBuckets self).numElementsL1 th.allocator.mem).2).1,
           (PoolBucket.PushChain (th.allocator.buckets bi)
               (TlsPoolBucket.listL1 (th.tlsCacheBuckets self) th.allocator.mem
                 ++ TlsPoolBucket.listL0 (th.tlsCacheBuckets self))
               (TlsPoolBucket.foldL0 (th.tlsCacheBuckets self).storageL0
                 (th.tlsCacheBuckets self).pStorageL1 (th.tlsCacheBuckets self).numElementsL0 0
                 (th.tlsCacheBuckets self).numElementsL1 th.allocator.mem).2).2) := by
      unfold TlsPoolBucket.ReturnL1CacheToMaster
      have hc : ¬ ((th.tlsCacheBuckets self).numElementsL1
          + (th.tlsCacheBuckets self).numElementsL0 = 0
          ∨ (th.tlsCacheBuckets self).numElementsL1
          + (th.tlsCacheBuckets self).numElementsL0 = 0) := by
        intro h
        cases h with
        | inl h => exact hzero h
        | inr h => exact hzero h
      simp only [if_neg hc, hpb, Nat.sub_self, hhandles]
    have hpos2 : (th.tlsCacheBuckets self).numElementsL1
        + (th.tlsCacheBuckets self).numElementsL0 > 0 := by omega
    unfold TlsPoolBucket.Destroy
    simp only [if_pos hpos, if_pos hpos2, Header.fromSpec, hf1, hflush]
    refine ⟨⟨rfl, rfl, rfl, rfl, rfl, rfl⟩, ?_, ?_, ?_, ?_, ?_⟩
    · intro j hj
      exact Function.update_noteq hj _ _
    · rw [Function.update_same]
      exact hp2
    · rw [Function.update_same]
      exact hp3
    · rw [Function.update_same]
      exact hp1
    · intro x hx1 hx2
      rw [hp4 x hx2]
      exact hf3 x (fun j hj => hx1 _ (by omega))

/-! ## Pools as lists: what a cache takes and gives back -/

theorem Allocator.region_ne (base S i j x y : Nat) (hij : i ≠ j) (hx : x < S) (hy : y < S) :
    base + i * S + x ≠ base + j * S + y := by
  rcases Nat.lt_or_gt_of_ne hij with h | h
  · have hmul : (i + 1) * S ≤ j * S := Nat.mul_le_mul_right _ (by omega)
    have hexp : (i + 1) * S = i * S + S := by ring
    omega
  · have hmul : (j + 1) * S ≤ i * S := Nat.mul_le_mul_right _ (by omega)
    have hexp : (j + 1) * S = j * S + S := by ring
    omega

theorem Allocator.region_inside (base S n j x : Nat) (hj : j < n) (hx : x < S) :
    base ≤ base + j * S + x ∧ base + j * S + x < base + n * S := by
  have hmul : (j + 1) * S ≤ n * S := Nat.mul_le_mul_right _ (by omega)
  have hexp : (j + 1) * S = j * S + S := by ring
  omega

/-- The view of the pools only reads the configuration, the buckets and the memory. -/
theorem Thread.Pooled.congr (th th1 : Thread) (base S n : Nat) (ch : Nat → List Nat)
    (hp : Thread.Pooled th base S n ch)
    (h1 : th1.allocator.bucketsCount = th.allocator.bucketsCount)
    (h2 : th1.allocator.bucketSizeInBytes = th.allocator.bucketSizeInBytes)
    (h3 : th1.allocator.bucketsDataBegin = th.allocator.bucketsDataBegin)
    (h4 : th1.allocator.buckets = th.allocator.buckets)
    (h5 : th1.allocator.mem = th.allocator.mem) :
    Thread.Pooled th1 base S n ch := by
  unfold Thread.Pooled at hp ⊢
  rw [h1, h2, h3, h4, h5]
  exact hp

/-- A warming `TlsPoolBucket::Init` on pools seen as lists: it returns, the first `num` offsets
of the chain of bucket `bi` move into the cache of the slot, everything else stays. -/
theorem Thread.Pooled.init (C : Nat) (u : Bool) (base S n : Nat) (ch : Nat → List Nat)
    (self bi P m : Nat) (opt : CacheWarmupOptions) (th : Thread)
    (hp : Thread.Pooled th base S n ch) (hbi : bi < n)
    (hm : m < 4294967296) (hCm : C ≤ m) (hopt : opt ≠ CacheWarmupOptions.CACHE_COLD)
    (hout : ∀ k, k < m - C → P + 4 * k < base ∨ base + n * S ≤ P + 4 * k) :
    ∃ th1,
      TlsPoolBucket.Init (Header.fromSpec C u) self P m opt bi th = some th1 ∧
      Thread.Pooled th1 base S n
        (Function.update ch bi ((ch bi).drop (TlsPoolBucket.warmupTarget opt (m - C)))) ∧
      th1.allocator.backing = th.allocator.backing ∧
      (∀ j, j ≠ self → th1.tlsCacheBuckets j = th.tlsCacheBuckets j) ∧
      (th1.tlsCacheBuckets self).maxElementsCount = m - C ∧
      (th1.tlsCacheBuckets self).pStorageL1 = P ∧
      (th1.tlsCacheBuckets self).pBucket = some bi ∧
      (th1.tlsCacheBuckets self).numElementsL0 + (th1.tlsCacheBuckets self).numElementsL1
        = (( ch bi).take (TlsPoolBucket.warmupTarget opt (m - C))).length ∧
      List.Perm
        (TlsPoolBucket.listL1 (th1.tlsCacheBuckets self) th1.allocator.mem
          ++ TlsPoolBucket.listL0 (th1.tlsCacheBuckets self))
        ((ch bi).take (TlsPoolBucket.warmupTarget opt (m - C))) ∧
      (∀ x, (x < base ∨ base + n * S ≤ x) → (∀ k, k < m - C → x ≠ P + 4 * k) →
        th1.allocator.mem x = th.allocator.mem x) := by
  obtain ⟨hbase, hn64, hS, hcount, hsize, hbegin, hbuckets⟩ := hp
  obtain ⟨hD, hchain, hnd, hin⟩ := hbuckets bi hbi
  have hnum := TlsPoolBucket.warmupTarget_le opt (m - C)
  have hlen : ((ch bi).take (TlsPoolBucket.warmupTarget opt (m - C))).length
      ≤ TlsPoolBucket.warmupTarget opt (m - C) := by
    rw [List.length_take]
    exact Nat.min_le_left _ _
  obtain ⟨th1, hrun, hcfg, hothers, hD1, _, hchain1, htls, hmax, _, hP, hpb, hcnt, hperm,
      hframe⟩ :=
    TlsPoolBucket.Init_fromSpec C u self bi (base + bi * S) P m opt (ch bi) th hm hCm hopt
      (by rw [hcount]; exact hbi) (by omega) hD hchain hnd
      (fun x _ => by omega)
      (fun x hx => by
        have hx2 := hin x hx
        exact Allocator.findBucket_spec th.allocator base _ bi
          (by rw [hcount, hsize]; exact hbegin) (by rw [hsize]; omega) (by rw [hsize]; omega)
          th.allocator.bucketsCount (by rw [hcount]; exact hbi) (le_refl _))
      (fun x hx => by have := hin x hx; omega)
      (fun x hx k hk => by
        have h1 := Allocator.region_inside base S n bi x hbi (hin x hx)
        have h2 := hout k hk
        omega)
  obtain ⟨c1, c2, _, _, c5, c6⟩ := hcfg
  refine ⟨th1, hrun, ?_, c6, htls, hmax, hP, hpb, hcnt, hperm, ?_⟩
  · refine ⟨hbase, hn64, hS, by rw [c1, hcount], by rw [c2, hsize], ?_, ?_⟩
    · intro j hj
      rw [c5]
      exact hbegin j hj
    · intro j hj
      by_cases hjb : j = bi
      · subst hjb
        rw [Function.update_same]
        exact ⟨hD1, hchain1, hnd.sublist (List.drop_sublist _ _),
          fun x hx => hin x (List.mem_of_mem_drop hx)⟩
      · obtain ⟨hDj, hchainj, hndj, hinj⟩ := hbuckets j hj
        rw [Function.update_noteq hjb, hothers j hjb]
        refine ⟨hDj, ?_, hndj, hinj⟩
        apply PoolBucket.IsChain_congr th.allocator.mem _ _ _ _ _ hchainj
        intro x hx
        apply hframe
        · intro h hh
          exact Allocator.region_ne base S j bi x h hjb (hinj x hx)
            (hin h (List.mem_of_mem_take hh))
        · intro k hk
          have h1 := Allocator.region_inside base S n j x hj (hinj x hx)
          have h2 := hout k (by omega)
          omega
  · intro x hx hk
    apply hframe
    · intro h hh
      have h1 := Allocator.region_inside base S n bi h hbi (hin h (List.mem_of_mem_take hh))
      omega
    · intro k hk2
      exact hk k (by omega)

/-- The drain of a cache by `TlsPoolBucket::Destroy` on pools seen as lists: the offsets held in
the cache come back in front of the chain of the bucket the slot is bound to. -/
theorem Thread.Pooled.destroy (C : Nat) (u : Bool) (base S n : Nat) (ch : Nat → List Nat)
    (self bi : Nat) (th : Thread)
    (hp : Thread.Pooled th base S n ch) (hbi : bi < n)
    (hpb : (th.tlsCacheBuckets self).pBucket = some bi)
    (hsum : (th.tlsCacheBuckets self).numElementsL1 + (th.tlsCacheBuckets self).numElementsL0
      < 4294967296)
    (hnd : (TlsPoolBucket.listL1 (th.tlsCacheBuckets self) th.allocator.mem
      ++ TlsPoolBucket.listL0 (th.tlsCacheBuckets self)).Nodup)
    (hin : ∀ h, h ∈ TlsPoolBucket.listL1 (th.tlsCacheBuckets self) th.allocator.mem
      ++ TlsPoolBucket.listL0 (th.tlsCacheBuckets self) → h < S)
    (hdisj : ∀ h, h ∈ TlsPoolBucket.listL1 (th.tlsCacheBuckets self) th.allocator.mem
      ++ TlsPoolBucket.listL0 (th.tlsCacheBuckets self) → h ∉ ch bi)
    (hout : ∀ k, k < (th.tlsCacheBuckets self).numElementsL1
        + (th.tlsCacheBuckets self).numElementsL0 →
      (th.tlsCacheBuckets self).pStorageL1 + 4 * k < base
        ∨ base + n * S ≤ (th.tlsCacheBuckets self).pStorageL1 + 4 * k) :
    Thread.Pooled (TlsPoolBucket.Destroy (Header.fromSpec C u) self th).2 base S n
      (Function.update ch bi
        (TlsPoolBucket.listL1 (th.tlsCacheBuckets self) th.allocator.mem
          ++ TlsPoolBucket.listL0 (th.tlsCacheBuckets self) ++ ch bi)) ∧
    (∀ x, (x < base ∨ base + n * S ≤ x) →
      (∀ k, k < (th.tlsCacheBuckets self).numElementsL1
        + (th.tlsCacheBuckets self).numElementsL0 →
        x ≠ (th.tlsCacheBuckets self).pStorageL1 + 4 * k) →
      (TlsPoolBucket.Destroy (Header.fromSpec C u) self th).2.allocator.mem x
        = th.allocator.mem x) := by
  obtain ⟨hbase, hn64, hS, hcount, hsize, hbegin, hbuckets⟩ := hp
  obtain ⟨hD, hchain, hndc, hinc⟩ := hbuckets bi hbi
  obtain ⟨hcfg, hothers, hD1, _, hchain1, hframe⟩ :=
    TlsPoolBucket.Destroy_fromSpec C u self bi (base + bi * S) (ch bi) th hpb hsum hD hchain hnd
      (fun h hh => by have := hin h hh; omega) hdisj
      (fun k hk h hh => by
        have h1 := Allocator.region_inside base S n bi h hbi (hinc h hh)
        have h2 := hout k hk
        omega)
  obtain ⟨c1, c2, _, _, c5, _⟩ := hcfg
  refine ⟨⟨hbase, hn64, hS, by rw [c1, hcount], by rw [c2, hsize], ?_, ?_⟩, ?_⟩
  · intro j hj
    rw [c5]
    exact hbegin j hj
  · intro j hj
    by_cases hjb : j = bi
    · subst hjb
      rw [Function.update_same]
      refine ⟨hD1, hchain1, ?_, ?_⟩
      · rw [List.nodup_append]
        exact ⟨hnd, hndc, fun x hx1 hx2 => hdisj x hx1 hx2⟩
      · intro x hx
        rcases List.mem_append.mp hx with h | h
        · exact hin x h
        · exact hinc x h
    · obtain ⟨hDj, hchainj, hndj, hinj⟩ := hbuckets j hj
      rw [Function.update_noteq hjb, hothers j hjb]
      refine ⟨hDj, ?_, hndj, hinj⟩
      apply PoolBucket.IsChain_congr th.allocator.mem _ _ _ _ _ hchainj
      intro x hx
      apply hframe
      · intro k hk
        have h1 := Allocator.region_inside base S n j x hj (hinj x hx)
        have h2 := hout k hk
        omega
      · intro h hh
        exact Allocator.region_ne base S j bi x h hjb (hinj x hx) (hin h hh)
  · intro x hx hk
    apply hframe x hk
    intro h hh
    have h1 := Allocator.region_inside base S n bi h hbi (hin h hh)
    omega

/-! ## The pools right after `Init`, and the loops over the cache slots -/

/-- The offsets of the elements of a freshly linked slab, in chain order. -/
theorem PoolBucket.fresh_chain (e D k S : Nat) (mem : Memory) (he : 0 < e) (hk : 0 < k)
    (hkS : k * e ≤ S) (hS : S < 4294967296)
    (hlinks : ∀ i, i < k → mem (D + i * e) =
      if i + 1 = k then TaggedIndex.Invalid else TaggedIndex.pack i ((i + 1) * e)) :
    PoolBucket.IsChain mem D (TaggedIndex.pack 0 0) ((List.range' 0 k).map (fun i => i * e)) ∧
    ((List.range' 0 k).map (fun i => i * e)).Nodup ∧
    (∀ x, x ∈ (List.range' 0 k).map (fun i => i * e) → x < S) ∧
    ((List.range' 0 k).map (fun i => i * e)).length = k := by
  have hke : (k - 1) * e + e = k * e := by
    obtain ⟨m, rfl⟩ : ∃ m, k = m + 1 := ⟨k - 1, by omega⟩
    simp only [Nat.add_sub_cancel]
    ring
  refine ⟨?_, ?_, ?_, by simp⟩
  · have h := PoolBucket.freeListFrom_linkWord e D k mem hlinks (by omega) k 0 (k + 1)
      (by omega) (by omega) hk
    exact PoolBucket.IsChain_of_freeList mem D (k + 1) _ _ h
  · apply List.Nodup.map
    · intro x y hxy
      exact Nat.eq_of_mul_eq_mul_right he hxy
    · exact List.nodup_range' 0 k
  · intro x hx
    obtain ⟨i, hi, rfl⟩ := List.mem_map.mp hx
    rw [List.mem_range'_1] at hi
    have hle : i * e ≤ (k - 1) * e := Nat.mul_le_mul_right e (by omega)
    omega

/-- Right after `Init(4, 4096)` the four pools are the chains of all their elements in address
order: 256, 128, 85 and 64 of them. -/
theorem Allocator.Init_pooled (malloc : List BackingCall → Nat → Nat → Nat) (a0 : Allocator)
    (base : Nat) (hb : malloc a0.backing 16384 64 = base) (hbase : 0 < base) :
    ∃ a1, Allocator.Init malloc 4 4096 (Allocator.ctor a0) = some a1 ∧
      a1.backing = a0.backing ++ [BackingCall.Alloc 16384 64 base] ∧
      ∀ tls, Thread.Pooled { allocator := a1, tlsCacheBuckets := tls } base 4096 4
        (fun j => (List.range' 0 (4096 / (16 * (j + 1)))).map (fun i => i * (16 * (j + 1)))) := by
  have hS : Allocator.roundedSize 4 4096 = 4096 := by decide
  have hA : Allocator.alignmentFor 4 = 64 := by decide
  have hT : Allocator.totalBytesFor 4 4096 = 16384 := by decide
  obtain ⟨a1, hrun, hcount, hsize, hbuf, _, hback, hbuckets, hbegin, hlinks, _⟩ :=
    Allocator.Init_spec malloc 4 4096 (Allocator.ctor a0) (by omega) (by omega) rfl
      Allocator.fit_4096
  rw [hS] at hsize
  rw [hT, hA] at hbuf
  have hbuf2 : a1.pBuffer = base := by rw [hbuf]; exact hb
  rw [hT, hA, hbuf2] at hback
  rw [hsize, hbuf2] at hbuckets hbegin hlinks
  refine ⟨a1, hrun, ?_, ?_⟩
  · rw [hback]
    simp [Allocator.ctor]
  · intro tls
    refine ⟨hbase, by omega, by omega, hcount, hsize, ?_, ?_⟩
    · intro j hj
      rw [hbegin j, if_pos hj]
    · intro j hj
      have hcnt : PoolBucket.linkedCount (16 * (j + 1)) 4096 = 4096 / (16 * (j + 1)) := by
        have : j = 0 ∨ j = 1 ∨ j = 2 ∨ j = 3 := by omega
        rcases this with h | h | h | h <;> subst h <;> decide
      have hkpos : 0 < 4096 / (16 * (j + 1)) := by
        have : j = 0 ∨ j = 1 ∨ j = 2 ∨ j = 3 := by omega
        rcases this with h | h | h | h <;> subst h <;> decide
      have hl := hlinks j hj
      rw [hcnt] at hl
      obtain ⟨c1, c2, c3, _⟩ := PoolBucket.fresh_chain (16 * (j + 1)) (base + j * 4096)
        (4096 / (16 * (j + 1))) 4096 a1.mem (by omega) hkpos
        (Nat.div_mul_le_self _ _) (by omega) hl
      have hbj := hbuckets j
      rw [if_pos hj] at hbj
      refine ⟨by rw [hbj], ?_, c2, c3⟩
      show PoolBucket.IsChain a1.mem (base + j * 4096) (a1.buckets j).head _
      rw [hbj]
      exact c1

theorem Allocator.createThreadCacheLoop_step (H : Header)
    (malloc : List BackingCall → Nat → Nat → Nat) (opt : CacheWarmupOptions)
    (cacheSize fuel i : Nat) (th th1 : Thread)
    (hi : i < th.allocator.bucketsCount) (hi64 : i < SMM_MAX_BUCKET_COUNT)
    (hinit : TlsPoolBucket.Init H i
        (malloc th.allocator.backing
          ((cacheSize + H.SMM_MAX_CACHE_ITEMS_COUNT) % 4294967296 * 4) 64)
        ((cacheSize + H.SMM_MAX_CACHE_ITEMS_COUNT) % 4294967296) opt i
        { th with
          allocator := (GenericAllocator.Alloc malloc
            ((cacheSize + H.SMM_MAX_CACHE_ITEMS_COUNT) % 4294967296 * 4) 64 th.allocator).2 }
      = some th1) :
    Allocator.createThreadCacheLoop H malloc opt cacheSize (fuel + 1) i th
      = Allocator.createThreadCacheLoop H malloc opt cacheSize fuel (i + 1 + 1) th1 := by
  have hget : GetTlsBucket i = some i := by
    unfold GetTlsBucket
    rw [if_pos hi64]
  have halloc : (GenericAllocator.Alloc malloc
      ((cacheSize + H.SMM_MAX_CACHE_ITEMS_COUNT) % 4294967296 * 4) 64 th.allocator).1
      = malloc th.allocator.backing
          ((cacheSize + H.SMM_MAX_CACHE_ITEMS_COUNT) % 4294967296 * 4) 64 := rfl
  rw [Allocator.createThreadCacheLoop, if_pos hi]
  simp only [hget, halloc, hinit]

theorem Allocator.createThreadCacheLoop_done (H : Header)
    (malloc : List BackingCall → Nat → Nat → Nat) (opt : CacheWarmupOptions)
    (cacheSize fuel i : Nat) (th : Thread) (hi : ¬ i < th.allocator.bucketsCount) :
    Allocator.createThreadCacheLoop H malloc opt cacheSize fuel i th = some th := by
  cases fuel with
  | zero => rw [Allocator.createThreadCacheLoop, if_neg hi]
  | succ f => rw [Allocator.createThreadCacheLoop, if_neg hi]

theorem Allocator.destroyThreadCacheLoop_step (H : Header) (r i : Nat) (th : Thread)
    (hi64 : i < SMM_MAX_BUCKET_COUNT) :
    Allocator.destroyThreadCacheLoop H (r + 1) i th
      = Allocator.destroyThreadCacheLoop H r (i + 1)
          { (TlsPoolBucket.Destroy H i th).2 with
            allocator := GenericAllocator.Free (TlsPoolBucket.Destroy H i th).1
              (TlsPoolBucket.Destroy H i th).2.allocator } := by
  have hget : GetTlsBucket i = some i := by
    unfold GetTlsBucket
    rw [if_pos hi64]
  rw [Allocator.destroyThreadCacheLoop]
  simp only [hget]

/-- Over slots that are all zeroed the loop of `DestroyThreadCache` only makes backing calls. -/
theorem Allocator.destroyThreadCacheLoop_zeroed (H : Header) :
    ∀ (r i : Nat) (th : Thread), i + r ≤ SMM_MAX_BUCKET_COUNT →
      (∀ j, i ≤ j → j < i + r → TlsPoolBucket.IsZeroed (th.tlsCacheBuckets j)) →
      ∃ th1, Allocator.destroyThreadCacheLoop H r i th = some th1 ∧
        th1.allocator.bucketsCount = th.allocator.bucketsCount ∧
        th1.allocator.bucketSizeInBytes = th.allocator.bucketSizeInBytes ∧
        th1.allocator.bucketsDataBegin = th.allocator.bucketsDataBegin ∧
        th1.allocator.buckets = th.allocator.buckets ∧
        th1.allocator.mem = th.allocator.mem := by
  intro r
  induction r with
  | zero =>
    intro i th _ _
    exact ⟨th, rfl, rfl, rfl, rfl, rfl, rfl⟩
  | succ r ih =>
    intro i th hi hz
    rw [Allocator.destroyThreadCacheLoop_step H r i th (by omega),
      TlsPoolBucket.Destroy_of_zeroed H i th (hz i (le_refl _) (by omega))]
    obtain ⟨th1, hrun, h1, h2, h3, h4, h5⟩ := ih (i + 1)
      { th with allocator := GenericAllocator.Free 0 th.allocator } (by omega)
      (fun j hj1 hj2 => hz j (by omega) (by omega))
    exact ⟨th1, hrun, h1, h2, h3, h4, h5⟩

/-- The call `CreateThreadCache(CACHE_WARM, 64)` on four pools of 4096 bytes seen as lists: the
slots 0 and 2 each take the first 32 offsets of their bucket's chain, no other slot and no
other chain is touched. -/
theorem Thread.Pooled.createThreadCache_warm (C : Nat) (u : Bool)
    (malloc : List BackingCall → Nat → Nat → Nat) (base P0 P2 : Nat) (ch : Nat → List Nat)
    (th : Thread) (hp : Thread.Pooled th base 4096 4 ch) (hC : 64 + C < 4294967296)
    (hP0eq : malloc th.allocator.backing ((64 + C) * 4) 64 = P0)
    (hP2eq : malloc (th.allocator.backing ++ [BackingCall.Alloc ((64 + C) * 4) 64 P0])
      ((64 + C) * 4) 64 = P2)
    (hP0 : P0 + 4 * (64 + C) ≤ base ∨ base + 16384 ≤ P0)
    (hP2 : P2 + 4 * (64 + C) ≤ base ∨ base + 16384 ≤ P2)
    (hP02 : P0 + 4 * (64 + C) ≤ P2 ∨ P2 + 4 * (64 + C) ≤ P0) :
    ∃ th2,
      Allocator.CreateThreadCache (Header.fromSpec C u) malloc CacheWarmupOptions.CACHE_WARM 64 th
        = some th2 ∧
      Thread.Pooled th2 base 4096 4
        (Function.update (Function.update ch 0 ((ch 0).drop 32)) 2 ((ch 2).drop 32)) ∧
      (∀ j, j ≠ 0 → j ≠ 2 → th2.tlsCacheBuckets j = th.tlsCacheBuckets j) ∧
      (th2.tlsCacheBuckets 0).pBucket = some 0 ∧ (th2.tlsCacheBuckets 0).pStorageL1 = P0 ∧
      (th2.tlsCacheBuckets 0).numElementsL1 + (th2.tlsCacheBuckets 0).numElementsL0 ≤ 32 ∧
      List.Perm
        (TlsPoolBucket.listL1 (th2.tlsCacheBuckets 0) th2.allocator.mem
          ++ TlsPoolBucket.listL0 (th2.tlsCacheBuckets 0))
        ((ch 0).take 32) ∧
      (th2.tlsCacheBuckets 2).pBucket = some 2 ∧ (th2.tlsCacheBuckets 2).pStorageL1 = P2 ∧
      (th2.tlsCacheBuckets 2).numElementsL1 + (th2.tlsCacheBuckets 2).numElementsL0 ≤ 32 ∧
      List.Perm
        (TlsPoolBucket.listL1 (th2.tlsCacheBuckets 2) th2.allocator.mem
          ++ TlsPoolBucket.listL0 (th2.tlsCacheBuckets 2))
        ((ch 2).take 32) := by
  have hmod : (64 + (Header.fromSpec C u).SMM_MAX_CACHE_ITEMS_COUNT) % 4294967296 = 64 + C :=
    Nat.mod_eq_of_lt hC
  have hnum : TlsPoolBucket.warmupTarget CacheWarmupOptions.CACHE_WARM (64 + C - C) = 32 := by
    simp [TlsPoolBucket.warmupTarget]
  have hcount : th.allocator.bucketsCount = 4 := hp.2.2.2.1
  -- bucket 0
  obtain ⟨th1, hrun1, hp1, hback1, htls1, _, hP1, hpb1, hcnt1, hperm1, hframe1⟩ :=
    Thread.Pooled.init C u base 4096 4 ch 0 0 P0 (64 + C) CacheWarmupOptions.CACHE_WARM
      { th with
        allocator := (GenericAllocator.Alloc malloc ((64 + C) * 4) 64 th.allocator).2 }
      (Thread.Pooled.congr th _ base 4096 4 ch hp rfl rfl rfl rfl rfl)
      (by omega) (by omega) (by omega) (by decide)
      (fun k hk => by omega)
  rw [hnum] at hp1 hcnt1 hperm1
  have hcount1 : th1.allocator.bucketsCount = 4 := hp1.2.2.2.1
  have hback1b : th1.allocator.backing
      = th.allocator.backing ++ [BackingCall.Alloc ((64 + C) * 4) 64 P0] := by
    rw [hback1, ← hP0eq]
    rfl
  -- bucket 2
  obtain ⟨th2, hrun2, hp2, _, htls2, _, hP2s, hpb2, hcnt2, hperm2, hframe2⟩ :=
    Thread.Pooled.init C u base 4096 4 _ 2 2 P2 (64 + C) CacheWarmupOptions.CACHE_WARM
      { th1 with
        allocator := (GenericAllocator.Alloc malloc ((64 + C) * 4) 64 th1.allocator).2 }
      (Thread.Pooled.congr th1 _ base 4096 4 _ hp1 rfl rfl rfl rfl rfl)
      (by omega) (by omega) (by omega) (by decide)
      (fun k hk => by omega)
  rw [hnum] at hp2 hcnt2 hperm2
  have hupd : Function.update ch 0 (List.drop 32 (ch 0)) 2 = ch 2 :=
    Function.update_noteq (by decide) _ _
  rw [hupd] at hp2 hcnt2 hperm2
  have hcount2 : th2.allocator.bucketsCount = 4 := hp2.2.2.2.1
  have hlen0 : ((ch 0).take 32).length ≤ 32 := by
    rw [List.length_take]
    exact Nat.min_le_left _ _
  have hlen2 : ((ch 2).take 32).length ≤ 32 := by
    rw [List.length_take]
    exact Nat.min_le_left _ _
  have hslot0 : th2.tlsCacheBuckets 0 = th1.tlsCacheBuckets 0 := htls2 0 (by decide)
  refine ⟨th2, ?_, hp2, ?_, ?_, ?_, ?_, ?_, hpb2, hP2s, by omega, hperm2⟩
  · unfold Allocator.CreateThreadCache
    rw [hcount]
    rw [Allocator.createThreadCacheLoop_step (Header.fromSpec C u) malloc
      CacheWarmupOptions.CACHE_WARM 64 3 0 th th1 (by rw [hcount]; decide) (by decide)
      (by rw [hmod, hP0eq]; exact hrun1)]
    rw [Allocator.createThreadCacheLoop_step (Header.fromSpec C u) malloc
      CacheWarmupOptions.CACHE_WARM 64 2 2 th1 th2 (by rw [hcount1]; decide) (by decide)
      (by rw [hmod, hback1b, hP2eq]; exact hrun2)]
    exact Allocator.createThreadCacheLoop_done _ _ _ _ _ _ _ (by rw [hcount2]; decide)
  · intro j hj0 hj2
    rw [htls2 j hj2]
    exact htls1 j hj0
  · rw [hslot0]; exact hpb1
  · rw [hslot0]; exact hP1
  · rw [hslot0]; omega
  · rw [hslot0]
    refine List.Perm.trans (List.Perm.of_eq ?_) hperm1
    congr 1
    unfold TlsPoolBucket.listL1
    apply TlsPoolBucket.handlesL1_congr
    intro k hk
    apply hframe2
    · rw [hP1]; omega
    · intro k2 hk2
      rw [hP1]
      omega

/-- The call `DestroyThreadCache()` on four pools of 4096 bytes seen as lists, with caches in the
slots 0 and 2 only: what the two caches hold comes back in front of the chains of the buckets
0 and 2, the other chains are not touched. -/
theorem Thread.Pooled.destroyThreadCache_two (C : Nat) (u : Bool) (base P0 P2 : Nat)
    (ch : Nat → List Nat) (th : Thread) (hp : Thread.Pooled th base 4096 4 ch)
    (hz : ∀ j, j ≠ 0 → j ≠ 2 → TlsPoolBucket.IsZeroed (th.tlsCacheBuckets j))
    (hpb0 : (th.tlsCacheBuckets 0).pBucket = some 0)
    (hP0s : (th.tlsCacheBuckets 0).pStorageL1 = P0)
    (hc0 : (th.tlsCacheBuckets 0).numElementsL1 + (th.tlsCacheBuckets 0).numElementsL0 ≤ 32)
    (hnd0 : (TlsPoolBucket.listL1 (th.tlsCacheBuckets 0) th.allocator.mem
      ++ TlsPoolBucket.listL0 (th.tlsCacheBuckets 0)).Nodup)
    (hin0 : ∀ h, h ∈ TlsPoolBucket.listL1 (th.tlsCacheBuckets 0) th.allocator.mem
      ++ TlsPoolBucket.listL0 (th.tlsCacheBuckets 0) → h < 4096)
    (hdisj0 : ∀ h, h ∈ TlsPoolBucket.listL1 (th.tlsCacheBuckets 0) th.allocator.mem
      ++ TlsPoolBucket.listL0 (th.tlsCacheBuckets 0) → h ∉ ch 0)
    (hpb2 : (th.tlsCacheBuckets 2).pBucket = some 2)
    (hP2s : (th.tlsCacheBuckets 2).pStorageL1 = P2)
    (hc2 : (th.tlsCacheBuckets 2).numElementsL1 + (th.tlsCacheBuckets 2).numElementsL0 ≤ 32)
    (hnd2 : (TlsPoolBucket.listL1 (th.tlsCacheBuckets 2) th.allocator.mem
      ++ TlsPoolBucket.listL0 (th.tlsCacheBuckets 2)).Nodup)
    (hin2 : ∀ h, h ∈ TlsPoolBucket.listL1 (th.tlsCacheBuckets 2) th.allocator.mem
      ++ TlsPoolBucket.listL0 (th.tlsCacheBuckets 2) → h < 4096)
    (hdisj2 : ∀ h, h ∈ TlsPoolBucket.listL1 (th.tlsCacheBuckets 2) th.allocator.mem
      ++ TlsPoolBucket.listL0 (th.tlsCacheBuckets 2) → h ∉ ch 2)
    (hP0 : P0 + 4 * (64 + C) ≤ base ∨ base + 16384 ≤ P0)
    (hP2 : P2 + 4 * (64 + C) ≤ base ∨ base + 16384 ≤ P2)
    (hP02 : P0 + 4 * (64 + C) ≤ P2 ∨ P2 + 4 * (64 + C) ≤ P0) :
    ∃ th3,
      Allocator.DestroyThreadCache (Header.fromSpec C u) th = some th3 ∧
      Thread.Pooled th3 base 4096 4
        (Function.update
          (Function.update ch 0
            (TlsPoolBucket.listL1 (th.tlsCacheBuckets 0) th.allocator.mem
              ++ TlsPoolBucket.listL0 (th.tlsCacheBuckets 0) ++ ch 0))
          2
          (TlsPoolBucket.listL1 (th.tlsCacheBuckets 2) th.allocator.mem
            ++ TlsPoolBucket.listL0 (th.tlsCacheBuckets 2) ++ ch 2)) := by
  -- slot 0
  obtain ⟨hpA, hframeA⟩ := Thread.Pooled.destroy C u base 4096 4 ch 0 0 th hp (by decide) hpb0
    (by omega) hnd0 hin0 hdisj0 (fun k hk => by rw [hP0s]; omega)
  obtain ⟨thA, hthA⟩ : ∃ t : Thread, t =
      { (TlsPoolBucket.Destroy (Header.fromSpec C u) 0 th).2 with
        allocator := GenericAllocator.Free (TlsPoolBucket.Destroy (Header.fromSpec C u) 0 th).1
          (TlsPoolBucket.Destroy (Header.fromSpec C u) 0 th).2.allocator } := ⟨_, rfl⟩
  have hstepA : Allocator.destroyThreadCacheLoop (Header.fromSpec C u) (63 + 1) 0 th
      = Allocator.destroyThreadCacheLoop (Header.fromSpec C u) 63 1 thA := by
    rw [hthA]
    exact Allocator.destroyThreadCacheLoop_step _ 63 0 th (by decide)
  have hpA2 : Thread.Pooled thA base 4096 4 _ :=
    Thread.Pooled.congr _ thA base 4096 4 _ hpA (by rw [hthA]; rfl) (by rw [hthA]; rfl)
      (by rw [hthA]; rfl) (by rw [hthA]; rfl) (by rw [hthA]; rfl)
  have hmemA : thA.allocator.mem
      = (TlsPoolBucket.Destroy (Header.fromSpec C u) 0 th).2.allocator.mem := by
    rw [hthA]; rfl
  have htlsA : ∀ j, j ≠ 0 → thA.tlsCacheBuckets j = th.tlsCacheBuckets j := by
    intro j hj
    rw [hthA]
    show (TlsPoolBucket.Destroy (Header.fromSpec C u) 0 th).2.tlsCacheBuckets j = _
    rw [TlsPoolBucket.Destroy_slots]
    exact Function.update_noteq hj _ _
  -- slot 1
  have hzA : TlsPoolBucket.IsZeroed (thA.tlsCacheBuckets 1) := by
    rw [htlsA 1 (by decide)]
    exact hz 1 (by decide) (by decide)
  obtain ⟨thB, hthB⟩ : ∃ t : Thread, t =
      { thA with allocator := GenericAllocator.Free 0 thA.allocator } := ⟨_, rfl⟩
  have hstepB : Allocator.destroyThreadCacheLoop (Header.fromSpec C u) (62 + 1) 1 thA
      = Allocator.destroyThreadCacheLoop (Header.fromSpec C u) 62 2 thB := by
    rw [Allocator.destroyThreadCacheLoop_step _ 62 1 thA (by decide),
      TlsPoolBucket.Destroy_of_zeroed _ 1 thA hzA, hthB]
  have hpB : Thread.Pooled thB base 4096 4 _ :=
    Thread.Pooled.congr _ thB base 4096 4 _ hpA2 (by rw [hthB]; rfl) (by rw [hthB]; rfl)
      (by rw [hthB]; rfl) (by rw [hthB]; rfl) (by rw [hthB]; rfl)
  have hmemB : thB.allocator.mem
      = (TlsPoolBucket.Destroy (Header.fromSpec C u) 0 th).2.allocator.mem := by
    rw [hthB]; exact hmemA
  have htlsB : ∀ j, j ≠ 0 → thB.tlsCacheBuckets j = th.tlsCacheBuckets j := by
    intro j hj
    rw [hthB]
    exact htlsA j hj
  -- slot 2
  have hslot2 : thB.tlsCacheBuckets 2 = th.tlsCacheBuckets 2 := htlsB 2 (by decide)
  have hlist2 : TlsPoolBucket.listL1 (th.tlsCacheBuckets 2) thB.allocator.mem
      = TlsPoolBucket.listL1 (th.tlsCacheBuckets 2) th.allocator.mem := by
    unfold TlsPoolBucket.listL1
    apply TlsPoolBucket.handlesL1_congr
    intro k hk
    rw [hmemB]
    apply hframeA
    · rw [hP2s]; omega
    · intro k2 hk2
      rw [hP2s, hP0s]
      omega
  have hupd : Function.update ch 0
      (TlsPoolBucket.listL1 (th.tlsCacheBuckets 0) th.allocator.mem
        ++ TlsPoolBucket.listL0 (th.tlsCacheBuckets 0) ++ ch 0) 2 = ch 2 :=
    Function.update_noteq (by decide) _ _
  obtain ⟨hpC, _⟩ := Thread.Pooled.destroy C u base 4096 4 _ 2 2 thB hpB (by decide)
    (by rw [hslot2]; exact hpb2) (by rw [hslot2]; omega)
    (by rw [hslot2, hlist2]; exact hnd2) (by rw [hslot2, hlist2]; exact hin2)
    (by rw [hslot2, hlist2, hupd]; exact hdisj2)
    (fun k hk => by rw [hslot2] at hk ⊢; rw [hP2s]; omega)
  rw [hslot2, hlist2, hupd] at hpC
  obtain ⟨thC, hthC⟩ : ∃ t : Thread, t =
      { (TlsPoolBucket.Destroy (Header.fromSpec C u) 2 thB).2 with
        allocator := GenericAllocator.Free (TlsPoolBucket.Destroy (Header.fromSpec C u) 2 thB).1
          (TlsPoolBucket.Destroy (Header.fromSpec C u) 2 thB).2.allocator } := ⟨_, rfl⟩
  have hstepC : Allocator.destroyThreadCacheLoop (Header.fromSpec C u) (61 + 1) 2 thB
      = Allocator.destroyThreadCacheLoop (Header.fromSpec C u) 61 3 thC := by
    rw [hthC]
    exact Allocator.destroyThreadCacheLoop_step _ 61 2 thB (by decide)
  have hpC2 : Thread.Pooled thC base 4096 4 _ :=
    Thread.Pooled.congr _ thC base 4096 4 _ hpC (by rw [hthC]; rfl) (by rw [hthC]; rfl)
      (by rw [hthC]; rfl) (by rw [hthC]; rfl) (by rw [hthC]; rfl)
  have htlsC : ∀ j, j ≠ 0 → j ≠ 2 → thC.tlsCacheBuckets j = th.tlsCacheBuckets j := by
    intro j hj0 hj2
    rw [hthC]
    show (TlsPoolBucket.Destroy (Header.fromSpec C u) 2 thB).2.tlsCacheBuckets j = _
    rw [TlsPoolBucket.Destroy_slots, Function.update_noteq hj2]
    exact htlsB j hj0
  -- slots 3 .. 63
  obtain ⟨th3, hrun, h1, h2, h3, h4, h5⟩ :=
    Allocator.destroyThreadCacheLoop_zeroed (Header.fromSpec C u) 61 3 thC (by decide)
      (fun j hj1 hj2 => by
        rw [htlsC j (by omega) (by omega)]
        exact hz j (by omega) (by omega))
  refine ⟨th3, ?_, Thread.Pooled.congr thC th3 base 4096 4 _ hpC2 h1 h2 h3 h4 h5⟩
  unfold Allocator.DestroyThreadCache
  show Allocator.destroyThreadCacheLoop (Header.fromSpec C u) (63 + 1) 0 th = some th3
  rw [hstepA]
  show Allocator.destroyThreadCacheLoop (Header.fromSpec C u) (62 + 1) 1 thA = some th3
  rw [hstepB]
  show Allocator.destroyThreadCacheLoop (Header.fromSpec C u) (61 + 1) 2 thB = some th3
  rw [hstepC]
  exact hrun

/-- The walk from the head of a bucket returns the chain the pooled view records. -/
theorem Thread.Pooled.freeList (th : Thread) (base S n : Nat) (ch : Nat → List Nat)
    (hp : Thread.Pooled th base S n ch) (j fuel : Nat) (hj : j < n)
    (hfuel : (ch j).length < fuel) :
    PoolBucket.freeListFrom th.allocator.mem (th.allocator.buckets j).pData fuel
        (th.allocator.buckets j).head = some (ch j) ∧
    Allocator.freeCount th.allocator fuel j = some (ch j).length := by
  obtain ⟨_, _, _, _, _, _, hbuckets⟩ := hp
  obtain ⟨hD, hchain, _, _⟩ := hbuckets j hj
  have h := PoolBucket.IsChain_freeList th.allocator.mem (base + j * S) (ch j) _ fuel hchain hfuel
  rw [← hD] at h
  refine ⟨h, ?_⟩
  unfold Allocator.freeCount
  rw [h]
  rfl

/-- Taking the first 32 offsets of the chains 0 and 2 and putting them back in any order gives
chains with the same elements. -/
theorem List.perm_take_back (L : Nat → List Nat) (A0 A2 : List Nat)
    (h0 : List.Perm A0 ((L 0).take 32)) (h2 : List.Perm A2 ((L 2).take 32)) (j : Nat) :
    List.Perm
      (Function.update
        (Function.update
          (Function.update (Function.update L 0 ((L 0).drop 32)) 2 ((L 2).drop 32)) 0
          (A0 ++ Function.update (Function.update L 0 ((L 0).drop 32)) 2 ((L 2).drop 32) 0))
        2
        (A2 ++ Function.update (Function.update L 0 ((L 0).drop 32)) 2 ((L 2).drop 32) 2) j)
      (L j) := by
  by_cases hj2 : j = 2
  · subst hj2
    simp only [Function.update_same]
    refine (h2.append_right _).trans (List.Perm.of_eq ?_)
    exact List.take_append_drop 32 _
  · by_cases hj0 : j = 0
    · subst hj0
      rw [Function.update_noteq hj2, Function.update_same, Function.update_noteq hj2,
        Function.update_same]
      refine (h0.append_right _).trans (List.Perm.of_eq ?_)
      exact List.take_append_drop 32 _
    · rw [Function.update_noteq hj2, Function.update_noteq hj0, Function.update_noteq hj2,
        Function.update_noteq hj0]

/-- C13: from the state right after `Init(4, 4096)`, `CreateThreadCache(CACHE_WARM, 64)` on a
thread whose cache slots are zeroed followed by `DestroyThreadCache()` both return, and for
each of the four buckets the walk from the shared free-list head meets 256, 128, 85 and 64
elements right after `Init` and again after the two calls; the elements met afterwards are the
ones met before, each exactly once. The header's members are the ones modelled from the spec
(any L0 capacity `C`, L0 used by the warmup or not); the backing allocator is any whose first
three blocks (the arena and the two L1 buffers) do not overlap, the arena not at address 0. -/
theorem createThreadCache_then_destroy_keeps_free_lists (C : Nat) (u : Bool)
    (malloc : List BackingCall → Nat → Nat → Nat) (a0 : Allocator) (base P0 P2 : Nat)
    (hC : 64 + C < 4294967296)
    (hb : malloc a0.backing 16384 64 = base) (hbase : 0 < base)
    (hP0eq : malloc (a0.backing ++ [BackingCall.Alloc 16384 64 base]) ((64 + C) * 4) 64 = P0)
    (hP2eq : malloc (a0.backing ++ [BackingCall.Alloc 16384 64 base]
        ++ [BackingCall.Alloc ((64 + C) * 4) 64 P0]) ((64 + C) * 4) 64 = P2)
    (hP0 : P0 + 4 * (64 + C) ≤ base ∨ base + 16384 ≤ P0)
    (hP2 : P2 + 4 * (64 + C) ≤ base ∨ base + 16384 ≤ P2)
    (hP02 : P0 + 4 * (64 + C) ≤ P2 ∨ P2 + 4 * (64 + C) ≤ P0) :
    ∃ a1 th2 th3,
      Allocator.Init malloc 4 4096 (Allocator.ctor a0) = some a1 ∧
      Allocator.CreateThreadCache (Header.fromSpec C u) malloc CacheWarmupOptions.CACHE_WARM 64
        (Thread.fresh a1) = some th2 ∧
      Allocator.DestroyThreadCache (Header.fromSpec C u) th2 = some th3 ∧
      ∀ fuel, 256 < fuel →
        Allocator.freeCount a1 fuel 0 = some 256 ∧ Allocator.freeCount a1 fuel 1 = some 128 ∧
        Allocator.freeCount a1 fuel 2 = some 85 ∧ Allocator.freeCount a1 fuel 3 = some 64 ∧
        Allocator.freeCount th3.allocator fuel 0 = some 256 ∧
        Allocator.freeCount th3.allocator fuel 1 = some 128 ∧
        Allocator.freeCount th3.allocator fuel 2 = some 85 ∧
        Allocator.freeCount th3.allocator fuel 3 = some 64 ∧
        ∀ j, j < 4 → ∃ l1 l3,
          PoolBucket.freeListFrom a1.mem (a1.buckets j).pData fuel (a1.buckets j).head
            = some l1 ∧
          PoolBucket.freeListFrom th3.allocator.mem (th3.allocator.buckets j).pData fuel
            (th3.allocator.buckets j).head = some l3 ∧
          l1.Nodup ∧ List.Perm l3 l1 := by
  obtain ⟨a1, hrun, hback, hpool⟩ := Allocator.Init_pooled malloc a0 base hb hbase
  have hp0 := hpool (fun _ => TlsPoolBucket.zero)
  obtain ⟨th2, hcreate, hp2, hz2, hpb0, hP0s, hc0, hperm0, hpb2, hP2s, hc2, hperm2⟩ :=
    Thread.Pooled.createThreadCache_warm C u malloc base P0 P2 _ (Thread.fresh a1) hp0 hC
      (by
        show malloc a1.backing _ _ = P0
        rw [hback]
        exact hP0eq)
      (by
        show malloc (a1.backing ++ _) _ _ = P2
        rw [hback]
        exact hP2eq)
      hP0 hP2 hP02
  obtain ⟨_, hch0, hnd0, hin0⟩ := hp0.2.2.2.2.2.2 0 (by decide)
  obtain ⟨_, hch2, hnd2, hin2⟩ := hp0.2.2.2.2.2.2 2 (by decide)
  simp only at hnd0 hin0 hnd2 hin2 hperm0 hperm2
  obtain ⟨th3, hdestroy, hp3⟩ :=
    Thread.Pooled.destroyThreadCache_two C u base P0 P2 _ th2 hp2
      (fun j hj0 hj2 => by
        rw [hz2 j hj0 hj2]
        exact ⟨rfl, rfl, rfl, rfl, rfl, rfl⟩)
      hpb0 hP0s hc0
      (hperm0.nodup_iff.mpr (hnd0.sublist (List.take_sublist 32 _)))
      (fun h hh => hin0 h (List.mem_of_mem_take (hperm0.mem_iff.mp hh)))
      (fun h hh hd => by
        simp only [Function.update_apply] at hd
        simp only [show (0 : Nat) ≠ 2 by decide, if_false, if_true] at hd
        exact List.disjoint_take_drop hnd0 (le_refl 32) (hperm0.mem_iff.mp hh) hd)
      hpb2 hP2s hc2
      (hperm2.nodup_iff.mpr (hnd2.sublist (List.take_sublist 32 _)))
      (fun h hh => hin2 h (List.mem_of_mem_take (hperm2.mem_iff.mp hh)))
      (fun h hh hd => by
        simp only [Function.update_apply, if_true] at hd
        exact List.disjoint_take_drop hnd2 (le_refl 32) (hperm2.mem_iff.mp hh) hd)
      hP0 hP2 hP02
  refine ⟨a1, th2, th3, hrun, hcreate, hdestroy, ?_⟩
  intro fuel hfuel
  have hlen : ∀ j, j < 4 →
      ((List.range' 0 (4096 / (16 * (j + 1)))).map (fun i => i * (16 * (j + 1)))).length
        = 4096 / (16 * (j + 1)) := by
    intro j _
    simp
  -- the final chains are permutations of the first ones
  have hfinal : ∀ j, j < 4 → ∃ l3,
      PoolBucket.freeListFrom th3.allocator.mem (th3.allocator.buckets j).pData fuel
        (th3.allocator.buckets j).head = some l3 ∧
      Allocator.freeCount th3.allocator fuel j = some l3.length ∧
      List.Perm l3 ((List.range' 0 (4096 / (16 * (j + 1)))).map (fun i => i * (16 * (j + 1)))) := by
    intro j hj
    have hperm : List.Perm _
        ((List.range' 0 (4096 / (16 * (j + 1)))).map (fun i => i * (16 * (j + 1)))) :=
      List.perm_take_back
        (fun j => (List.range' 0 (4096 / (16 * (j + 1)))).map (fun i => i * (16 * (j + 1))))
        _ _ hperm0 hperm2 j
    have hlen3 := hperm.length_eq
    rw [hlen j hj] at hlen3
    have hle : 4096 / (16 * (j + 1)) ≤ 256 := by
      have hcases : j = 0 ∨ j = 1 ∨ j = 2 ∨ j = 3 := by omega
      rcases hcases with h | h | h | h <;> subst h <;> decide
    obtain ⟨h1, h2⟩ := Thread.Pooled.freeList th3 base 4096 4 _ hp3 j fuel hj (by omega)
    exact ⟨_, h1, h2, hperm⟩
  have hfirst : ∀ j, j < 4 →
      PoolBucket.freeListFrom a1.mem (a1.buckets j).pData fuel (a1.buckets j).head
        = some ((List.range' 0 (4096 / (16 * (j + 1)))).map (fun i => i * (16 * (j + 1)))) ∧
      Allocator.freeCount a1 fuel j = some (4096 / (16 * (j + 1))) := by
    intro j hj
    have hle : 4096 / (16 * (j + 1)) ≤ 256 := by
      have hcases : j = 0 ∨ j = 1 ∨ j = 2 ∨ j = 3 := by omega
      rcases hcases with h | h | h | h <;> subst h <;> decide
    obtain ⟨h1, h2⟩ := Thread.Pooled.freeList (Thread.fresh a1) base 4096 4 _ hp0 j fuel hj
      (by rw [hlen j hj]; omega)
    rw [hlen j hj] at h2
    exact ⟨h1, h2⟩
  have hcount3 : ∀ j, j < 4 →
      Allocator.freeCount th3.allocator fuel j = some (4096 / (16 * (j + 1))) := by
    intro j hj
    obtain ⟨l3, _, h2, h3⟩ := hfinal j hj
    rw [h2, h3.length_eq, hlen j hj]
  refine ⟨(hfirst 0 (by decide)).2, (hfirst 1 (by decide)).2, (hfirst 2 (by decide)).2,
    (hfirst 3 (by decide)).2, hcount3 0 (by decide), hcount3 1 (by decide),
    hcount3 2 (by decide), hcount3 3 (by decide), ?_⟩
  intro j hj
  obtain ⟨l3, h1, _, h3⟩ := hfinal j hj
  exact ⟨_, l3, (hfirst j hj).1, h1, (hp0.2.2.2.2.2.2 j hj).2.2.1, h3⟩

/-- C13, witness: the backing allocator that hands out blocks one mebibyte apart, seven L0
entries, L0 in use: the arena at 1048576, the two L1 buffers at 2097152 and 3145728. -/
theorem createThreadCache_then_destroy_keeps_free_lists_witness :
    ∃ a1 th2 th3,
      Allocator.Init spacedMalloc 4 4096 (Allocator.ctor Allocator.blank) = some a1 ∧
      Allocator.CreateThreadCache (Header.fromSpec 7 true) spacedMalloc
        CacheWarmupOptions.CACHE_WARM 64 (Thread.fresh a1) = some th2 ∧
      Allocator.DestroyThreadCache (Header.fromSpec 7 true) th2 = some th3 ∧
      Allocator.freeCount a1 257 0 = some 256 ∧ Allocator.freeCount a1 257 1 = some 128 ∧
      Allocator.freeCount a1 257 2 = some 85 ∧ Allocator.freeCount a1 257 3 = some 64 ∧
      Allocator.freeCount th3.allocator 257 0 = some 256 ∧
      Allocator.freeCount th3.allocator 257 1 = some 128 ∧
      Allocator.freeCount th3.allocator 257 2 = some 85 ∧
      Allocator.freeCount th3.allocator 257 3 = some 64 := by
  obtain ⟨a1, th2, th3, h1, h2, h3, h4⟩ :=
    createThreadCache_then_destroy_keeps_free_lists 7 true spacedMalloc Allocator.blank
      1048576 2097152 3145728 (by decide) rfl (by decide) rfl rfl (by decide) (by decide)
      (by decide)
  obtain ⟨c1, c2, c3, c4, c5, c6, c7, c8, _⟩ := h4 257 (by decide)
  exact ⟨a1, th2, th3, h1, h2, h3, c1, c2, c3, c4, c5, c6, c7, c8⟩

/-- C12: a hot warmup that the pool cannot serve. After `Init(4, 4096)` bucket 2 holds 85
elements of 48 bytes; `TlsPoolBucket::Init` on slot 2 with 135 words (`SMM_MAX_CACHE_ITEMS_COUNT`
is 7) and `CACHE_HOT` has the target `num = 128`. The call returns, the 85 blocks obtained
before the allocation that yields null are all in the cache and the pool is empty, so the
cache holds 85 < 128 elements, and the condition of the final
`SM_ASSERT(GetElementsCount() == num)` is false: with assertions compiled in, `Init` does not
complete without a failed assertion. -/
theorem tlsInit_truncated_warmup_fails_final_assertion :
    ∃ a1 th1,
      Allocator.Init spacedMalloc 4 4096 (Allocator.ctor Allocator.blank) = some a1 ∧
      Allocator.freeCount a1 257 2 = some 85 ∧
      TlsPoolBucket.Init (Header.fromSpec 7 true) 2 2097152 135 CacheWarmupOptions.CACHE_HOT 2
        (Thread.fresh a1) = some th1 ∧
      TlsPoolBucket.warmupTarget CacheWarmupOptions.CACHE_HOT
        (th1.tlsCacheBuckets 2).maxElementsCount = 128 ∧
      TlsPoolBucket.GetElementsCount (th1.tlsCacheBuckets 2) = 85 ∧
      Allocator.freeCount th1.allocator 257 2 = some 0 ∧
      ¬ TlsPoolBucket.finalAssertion (th1.tlsCacheBuckets 2) 128 := by
  obtain ⟨a1, hrun, _, hpool⟩ := Allocator.Init_pooled spacedMalloc Allocator.blank 1048576 rfl
    (by decide)
  have hp0 := hpool (fun _ => TlsPoolBucket.zero)
  obtain ⟨th1, hinit, hp1, _, _, hmax, _, _, hcnt, _, _⟩ :=
    Thread.Pooled.init 7 true 1048576 4096 4 _ 2 2 2097152 135 CacheWarmupOptions.CACHE_HOT
      (Thread.fresh a1) hp0 (by decide) (by decide) (by decide) (by decide)
      (fun k hk => by omega)
  have hnum : TlsPoolBucket.warmupTarget CacheWarmupOptions.CACHE_HOT (135 - 7) = 128 := by
    decide
  rw [hnum] at hp1 hcnt
  have hlen : (List.take 128 ((List.range' 0 (4096 / (16 * (2 + 1)))).map
      (fun i => i * (16 * (2 + 1))))).length = 85 := by
    simp
  have hcount : TlsPoolBucket.GetElementsCount (th1.tlsCacheBuckets 2) = 85 := by
    unfold TlsPoolBucket.GetElementsCount
    rw [hcnt]
    exact hlen
  have hfirst := (Thread.Pooled.freeList (Thread.fresh a1) 1048576 4096 4 _ hp0 2 257
    (by decide) (by simp)).2
  have hrest := (Thread.Pooled.freeList th1 1048576 4096 4 _ hp1 2 257 (by decide)
    (by simp)).2
  refine ⟨a1, th1, hrun, ?_, hinit, ?_, hcount, ?_, ?_⟩
  · refine Eq.trans (show Allocator.freeCount a1 257 2
        = Allocator.freeCount (Thread.fresh a1).allocator 257 2 from rfl) ?_
    rw [hfirst]
    simp
  · rw [hmax]
    decide
  · rw [hrest]
    simp
  · unfold TlsPoolBucket.finalAssertion
    rw [hcount]
    decide

/-! ## Sizes for which the `size_t` arithmetic of `Init` wraps -/

/-- C2, counterexample: `Init(3, 2 ^ 63)`. The offset `2 * S` of bucket 2 wraps to 0, so bucket 2
is linked over the region of bucket 0: the word at the arena base is the link
`{offset 48, tag 0}` that `Create(48)` wrote, not the `{offset 16, tag 0}` of `Create(16)`, and
bucket 0 is not what `Create(16)` builds on its region. -/
theorem init_wrapped_offset_counterexample :
    ∃ a1, Allocator.Init spacedMalloc 3 9223372036854775808 (Allocator.ctor Allocator.blank)
        = some a1 ∧
      a1.bucketSizeInBytes = 9223372036854775808 ∧
      (a1.buckets 0).pData = a1.pBuffer ∧ (a1.buckets 2).pData = a1.pBuffer ∧
      a1.mem a1.pBuffer = TaggedIndex.pack 0 48 ∧
      ¬ ∃ memi,
          PoolBucket.Create (16 * (0 + 1))
            { (Allocator.ctor Allocator.blank).buckets 0 with
              pData := a1.pBuffer + 0 * a1.bucketSizeInBytes
              pBufferEnd := a1.pBuffer + 0 * a1.bucketSizeInBytes + a1.bucketSizeInBytes }
            (Allocator.ctor Allocator.blank).mem = some (a1.buckets 0, memi) ∧
          ∀ x, (x = a1.pBuffer + 0 * a1.bucketSizeInBytes ∨
              (a1.pBuffer + 0 * a1.bucketSizeInBytes ≤ x ∧
                x < a1.pBuffer + 0 * a1.bucketSizeInBytes + a1.bucketSizeInBytes)) →
            a1.mem x = memi x := by
  obtain ⟨a1, hinit, _, hbs, _, _, _, hbuckets, hlast⟩ :=
    Allocator.Init_returns spacedMalloc 3 9223372036854775808 (Allocator.ctor Allocator.blank)
      (by decide) (by decide) rfl
  have hS : a1.bucketSizeInBytes = 9223372036854775808 := by rw [hbs]; decide
  have hd0 : (a1.buckets 0).pData = a1.pBuffer := by
    rw [hbuckets 0 (by decide)]
    simp
  have hd2 : (a1.buckets 2).pData = a1.pBuffer := by
    rw [hbuckets 2 (by decide), hS]
    simp
  have hk : PoolBucket.linkedCount (16 * 3) 9223372036854775808 ≠ 0 + 1 := by decide
  have hmem : a1.mem a1.pBuffer = TaggedIndex.pack 0 48 := by
    have h := hlast 0 (PoolBucket.linkedCount_pos _ _)
    rw [hS, if_neg (fun h => hk h.symm)] at h
    simpa using h
  refine ⟨a1, hinit, hS, hd0, hd2, hmem, ?_⟩
  rintro ⟨memi, hc, hx⟩
  obtain ⟨mem1, hcreate, hlinks, _⟩ := PoolBucket.Create_spec (16 * (0 + 1))
    a1.bucketSizeInBytes
    { (Allocator.ctor Allocator.blank).buckets 0 with
      pData := a1.pBuffer + 0 * a1.bucketSizeInBytes
      pBufferEnd := a1.pBuffer + 0 * a1.bucketSizeInBytes + a1.bucketSizeInBytes }
    (Allocator.ctor Allocator.blank).mem (by decide) rfl
  rw [hcreate] at hc
  have hmemi : mem1 = memi := (Prod.mk.inj (Option.some.inj hc)).2
  have hk16 : PoolBucket.linkedCount (16 * (0 + 1)) 9223372036854775808 ≠ 0 + 1 := by decide
  have h0 := hlinks 0 (PoolBucket.linkedCount_pos _ _)
  rw [hS, if_neg (fun h => hk16 h.symm)] at h0
  have hbase := hx (a1.pBuffer + 0 * a1.bucketSizeInBytes) (Or.inl rfl)
  rw [← hmemi] at hbase
  simp only [Nat.zero_mul, Nat.add_zero] at hbase h0
  rw [hmem, h0] at hbase
  revert hbase
  decide

/-- C3, counterexample: `Init(4, 2 ^ 62)` asks the backing allocator for `4 * 2 ^ 62 mod 2 ^ 64 =
0` bytes, yet bucket 0 alone owns the `2 ^ 62` bytes from the arena start: there is no arena
of `n * S` bytes for the regions to cover. And after `Init(3, 2 ^ 63)` the buckets 0 and 2 own
the same byte range (`2 * S` wraps to 0), so the regions are not pairwise disjoint. -/
theorem init_wrapped_arena_counterexample :
    (∃ a1, Allocator.Init spacedMalloc 4 4611686018427387904 (Allocator.ctor Allocator.blank)
        = some a1 ∧
      a1.bucketSizeInBytes = 4611686018427387904 ∧
      a1.backing = [BackingCall.Alloc 0 64 a1.pBuffer] ∧
      (a1.buckets 0).pData = a1.pBuffer ∧
      (a1.buckets 0).pBufferEnd = a1.pBuffer + 4611686018427387904) ∧
    (∃ a1, Allocator.Init spacedMalloc 3 9223372036854775808 (Allocator.ctor Allocator.blank)
        = some a1 ∧
      0 < a1.bucketSizeInBytes ∧
      (a1.buckets 0).pData = (a1.buckets 2).pData ∧
      (a1.buckets 0).pBufferEnd = (a1.buckets 2).pBufferEnd) := by
  constructor
  · obtain ⟨a1, hinit, _, hbs, _, _, hbk, hbuckets, _⟩ :=
      Allocator.Init_returns spacedMalloc 4 4611686018427387904 (Allocator.ctor Allocator.blank)
        (by decide) (by decide) rfl
    have hS : a1.bucketSizeInBytes = 4611686018427387904 := by rw [hbs]; decide
    have hT : Allocator.totalBytesFor 4 4611686018427387904 = 0 := by decide
    have hA : Allocator.alignmentFor 4 = 64 := by decide
    refine ⟨a1, hinit, hS, ?_, ?_, ?_⟩
    · rw [hbk, hT, hA]
      simp [Allocator.ctor, Allocator.blank]
    · rw [hbuckets 0 (by decide)]
      simp
    · rw [hbuckets 0 (by decide), hS]
  · obtain ⟨a1, hinit, _, hbs, _, _, _, hbuckets, _⟩ :=
      Allocator.Init_returns spacedMalloc 3 9223372036854775808 (Allocator.ctor Allocator.blank)
        (by decide) (by decide) rfl
    have hS : a1.bucketSizeInBytes = 9223372036854775808 := by rw [hbs]; decide
    refine ⟨a1, hinit, by rw [hS]; decide, ?_, ?_⟩
    · rw [hbuckets 0 (by decide), hbuckets 2 (by decide), hS]
    · rw [hbuckets 0 (by decide), hbuckets 2 (by decide), hS]

/-- C16, counterexample: `Init(4, 2 ^ 64 - 1)`. Rounding the size up to a multiple of 64 wraps to
`S = 0`, which is below every element size; the free list of bucket 0 still starts with the
element at offset 0, and `[0, 16)` is not inside `[0, 0)`. -/
theorem init_wrapped_rounding_counterexample :
    ∃ a1, Allocator.Init spacedMalloc 4 18446744073709551615 (Allocator.ctor Allocator.blank)
        = some a1 ∧
      1 ≤ 18446744073709551615 ∧
      a1.bucketSizeInBytes = 0 ∧
      ¬ 16 * (0 + 1) ≤ a1.bucketSizeInBytes ∧
      (a1.buckets 0).head ≠ TaggedIndex.Invalid ∧
      ¬ TaggedIndex.offset
          (PoolBucket.linkAt a1.mem (a1.buckets 0).pData (a1.buckets 0).head 0)
        + 16 * (0 + 1) ≤ a1.bucketSizeInBytes := by
  obtain ⟨a1, hinit, _, hbs, _, _, _, hbuckets, _⟩ :=
    Allocator.Init_returns spacedMalloc 4 18446744073709551615 (Allocator.ctor Allocator.blank)
      (by decide) (by decide) rfl
  have hS : a1.bucketSizeInBytes = 0 := by rw [hbs]; decide
  have hne : TaggedIndex.pack 0 0 ≠ TaggedIndex.Invalid := by decide
  refine ⟨a1, hinit, by decide, hS, by rw [hS]; decide, ?_, ?_⟩
  · rw [hbuckets 0 (by decide)]
    exact hne
  · rw [hS]
    omega

/-- C19, counterexample: `Init(4, 2 ^ 62)`. The product `S * n` wraps to 0, so the recorded arena
end is `base + 1`, not `base + n * S + 1`, and the only address of `[pBuffer, pBufferEnd)`, the
arena start, belongs to bucket 0. -/
theorem init_wrapped_arena_end_counterexample :
    ∃ a1, Allocator.Init spacedMalloc 4 4611686018427387904 (Allocator.ctor Allocator.blank)
        = some a1 ∧
      a1.pBufferEnd = a1.pBuffer + 1 ∧
      a1.pBufferEnd ≠ a1.pBuffer + 4 * a1.bucketSizeInBytes + 1 ∧
      (a1.buckets 0).pData ≤ a1.pBuffer ∧ a1.pBuffer < (a1.buckets 0).pBufferEnd := by
  obtain ⟨a1, hinit, _, hbs, _, hpe, _, hbuckets, _⟩ :=
    Allocator.Init_returns spacedMalloc 4 4611686018427387904 (Allocator.ctor Allocator.blank)
      (by decide) (by decide) rfl
  have hS : a1.bucketSizeInBytes = 4611686018427387904 := by rw [hbs]; decide
  have hT : Allocator.totalBytesFor 4 4611686018427387904 = 0 := by decide
  rw [hT] at hpe
  refine ⟨a1, hinit, by rw [hpe], ?_, ?_, ?_⟩
  · rw [hpe, hS]
    omega
  · rw [hbuckets 0 (by decide)]
    simp
  · rw [hbuckets 0 (by decide), hS]
    simp

end sm
